import Mathlib

/-!
Verification of the request-to-repository resolution and CGI translation
layer of `emergency_git_server.py`.

The embedding follows the Python source closely.  URL paths and filesystem
paths are modelled as lists of characters (`Str`), mirroring the string
algebra of the source (`find_repo`, `is_cgi`, `run_cgi`, `send_head`).
The filesystem is a pair of finite lists of directory paths and file paths
(each path a list of segments); `os.path.isdir` / `os.path.isfile` /
`os.path.exists` are membership queries on it.
-/

set_option maxHeartbeats 1000000

namespace EGS

/-- Character-list strings, mirroring Python `str` manipulation. -/
abbrev Str := List Char

/-- Convert a Lean string literal to the character-list representation. -/
def str (s : String) : Str := s.data

/-- Index of the first occurrence of a character in a string. -/
def findIdxC : Str → Char → Option Nat
  | [], _ => none
  | x :: xs, c => if x = c then some 0 else (findIdxC xs c).map (fun j => j + 1)

/-- Python `s.find(c, start)`: index of the first occurrence of `c` at
position `start` or later, as an `Option` (Python returns -1 for `none`). -/
def pyFind (s : Str) (c : Char) (start : Nat) : Option Nat :=
  (findIdxC (s.drop start) c).map (fun j => start + j)

/-- Python `s.lstrip(c)`: remove leading occurrences of the character. -/
def lstripC (c : Char) (s : Str) : Str := s.dropWhile (fun x => x = c)

/-- Python `s.rstrip(c)`: remove trailing occurrences of the character. -/
def rstripC (c : Char) (s : Str) : Str := (lstripC c s.reverse).reverse

/-- Python `s.strip(c)`. -/
def stripC (c : Char) (s : Str) : Str := rstripC c (lstripC c s)

/-- Python `s.endswith(t)`. -/
def endsWith (t s : Str) : Bool := t.isSuffixOf s

/-- Python `s.startswith(t)`. -/
def startsWith (t s : Str) : Bool := t.isPrefixOf s

/-- Whether `needle` occurs as a contiguous substring of `hay` starting at
position `i`. -/
def occursAt (needle hay : Str) (i : Nat) : Bool :=
  needle.isPrefixOf (hay.drop i)

/-- Scan for the first occurrence of a substring, tracking the index. -/
def firstOccurAux (needle : Str) : Str → Nat → Option Nat
  | [], i => if needle = [] then some i else none
  | c :: rest, i =>
      if needle.isPrefixOf (c :: rest) then some i
      else firstOccurAux needle rest (i + 1)

/-- Index of the first occurrence of substring `needle` in `hay`. -/
def firstOccur (needle hay : Str) : Option Nat := firstOccurAux needle hay 0

/-- Python `needle in hay` for strings: contiguous substring test. -/
def containsSub (needle hay : Str) : Bool := (firstOccur needle hay).isSome

/-- Python `hay.partition(needle)` restricted to the pieces before and
after the separator; when the separator is absent the whole string is the
first piece (as in Python). -/
def pyPartition (hay needle : Str) : Str × Str :=
  match firstOccur needle hay with
  | some i => (hay.take i, hay.drop (i + needle.length))
  | none => (hay, [])

/-- Python `hay.split(needle)[0]`: the piece before the first occurrence. -/
def beforeSub (hay needle : Str) : Str := (pyPartition hay needle).1

/-- Python `s.split(c)` keeping empty pieces. -/
def splitAllC (s : Str) (c : Char) : List Str :=
  match s with
  | [] => [[]]
  | x :: xs =>
      let r := splitAllC xs c
      if x = c then [] :: r
      else match r with
        | [] => [[x]]
        | p :: ps => (x :: p) :: ps

/-- Segments of a path string: split on slash and drop empty pieces
(Python `filter(None, path.split(sep))`). -/
def segsOf (s : Str) : List Str := (splitAllC s '/').filter (fun p => p ≠ [])

/-- Python `s.split()` with no argument: split on runs of whitespace,
discarding empty pieces. -/
def isWs (c : Char) : Bool := c = ' ' ∨ c = '\t' ∨ c = '\n' ∨ c = '\r'

def splitWsAux : Str → Str → List Str
  | [], acc => if acc = [] then [] else [acc.reverse]
  | x :: xs, acc =>
      if isWs x then
        if acc = [] then splitWsAux xs [] else acc.reverse :: splitWsAux xs []
      else splitWsAux xs (x :: acc)

def pySplitWs (s : Str) : List Str := splitWsAux s []

/-- Python `s.lower()` restricted to ASCII letters. -/
def toLowerStr (s : Str) : Str := s.map Char.toLower

/-- Python `query.rsplit(sep)[-1]` for a one-character separator: the part
after the last occurrence (the whole string when absent). -/
def lastAfterC (s : Str) (c : Char) : Str :=
  (s.reverse.takeWhile (fun x => x ≠ c)).reverse

/-- The filesystem: finite lists of directory paths and file paths, each
given as a list of path segments from the root.  This models the ambient
state queried by `os.path.isdir`, `os.path.isfile`, `os.path.exists` and
`os.listdir`. -/
structure FS where
  dirs : List (List Str)
  files : List (List Str)
deriving Repr, DecidableEq

def FS.isDir (fs : FS) (p : List Str) : Bool := fs.dirs.contains p

def FS.isFile (fs : FS) (p : List Str) : Bool := fs.files.contains p

def FS.existsP (fs : FS) (p : List Str) : Bool := fs.isDir p || fs.isFile p

/-- String-path versions of the filesystem queries: a path string is
normalised to its list of segments first. -/
def isDirStr (fs : FS) (s : Str) : Bool := fs.isDir (segsOf s)

def isFileStr (fs : FS) (s : Str) : Bool := fs.isFile (segsOf s)

def existsStr (fs : FS) (s : Str) : Bool := fs.existsP (segsOf s)

/-- Well-formedness of a modelled filesystem: every proper nonempty prefix
of a recorded entry is itself a recorded directory (as `os` guarantees for
real file trees). -/
def FS.Wf (fs : FS) : Prop :=
  ∀ q, (q ∈ fs.dirs ∨ q ∈ fs.files) → ∀ k, 0 < k → k < q.length →
    fs.isDir (q.take k) = true

/-- Python `os.path.join(a, b)` for a relative `b`: insert a slash unless
`a` already ends with one (or is empty, in which case Python returns `b`). -/
def osPathJoin (a b : Str) : Str :=
  if a = [] then b
  else if endsWith (str "/") a then a ++ b
  else a ++ '/' :: b

/-- Python `os.path.split(p)`: split at the last slash; the head keeps a
trailing slash only when it consists solely of slashes. -/
def osPathSplit (p : Str) : Str × Str :=
  let tail := (p.reverse.takeWhile (fun x => x ≠ '/')).reverse
  let head := p.take (p.length - tail.length)
  if head ≠ [] ∧ head.any (fun x => x ≠ '/') then (rstripC '/' head, tail)
  else (head, tail)

/-- Model of `SimpleHTTPRequestHandler.translate_path` as invoked by the
server with the current directory set to the document root (the repository
overrides `translate_path` only to pin the current directory to
`self.docroot`).  The stdlib routine drops the query/fragment, normalises,
splits on slashes, discards empty, `.` and `..` components and joins the
remaining words onto the current directory. -/
def translate_path (docroot : Str) (p : Str) : Str :=
  let p := beforeSub p (str "?")
  let p := beforeSub p (str "#")
  let words := (segsOf p).filter (fun w => w ≠ str "." ∧ w ≠ str "..")
  words.foldl (fun acc w => osPathJoin acc w) docroot

/-- Direct embedding of `HTTPBackendHandler.is_repo` (source lines
595-599): a path is a repository when `HEAD` exists as a file or
`refs/heads` exists as a directory beneath it. -/
def is_repo (fs : FS) (abspath : Str) : Bool :=
  isFileStr fs (osPathJoin abspath (str "HEAD")) ||
    isDirStr fs (osPathJoin abspath (str "refs/heads"))

/-- One-step-per-fuel embedding of the `while` loop of
`HTTPBackendHandler.find_repo` (source lines 610-627).  The loop state is
`(lhs, rhs, fakes, path)` exactly as in the source; the fuel is an upper
bound on the number of iterations (each iteration strictly decreases
`path.length - lhs.length`, which is at most `path.length`). -/
def findRepoLoop (fs : FS) (docroot : Str) (allow_fake : Bool) :
    Nat → Str → Str → Str → Str → Str × Str × Str
  | 0, lhs, rhs, fakes, _ => (lhs, rhs, fakes)
  | fuel + 1, lhs, rhs, fakes, path =>
      match pyFind path '/' (lhs.length + 1) with
      | none => (lhs, rhs, fakes)
      | some i =>
          let nextlhs := path.take i
          let nextrhs := path.drop (i + 1)
          let candidate := translate_path docroot nextlhs
          if allow_fake ∧ ¬ isDirStr fs candidate then
            let path' := lhs ++ path.drop i
            let candNext := osPathSplit candidate
            let fakes' := fakes ++ '/' :: candNext.2
            if isDirStr fs candNext.1 ∧ ¬ is_repo fs candNext.1 then
              findRepoLoop fs docroot allow_fake fuel lhs nextrhs fakes' path'
            else (lhs, rhs, fakes')
          else
            if isDirStr fs candidate ∧ ¬ is_repo fs candidate then
              findRepoLoop fs docroot allow_fake fuel nextlhs nextrhs fakes path
            else (lhs, rhs, fakes)

/-- Direct embedding of `HTTPBackendHandler.find_repo` (source lines
601-631).  `rhs = none` corresponds to the Python default `rhs=None`
(single-argument form, where `lhs` becomes `"/"`).  Returns
`(root, tail)`. -/
def find_repo (fs : FS) (docroot : Str) (lhs0 : Str) (rhs0 : Option Str)
    (allow_fake : Bool) : Str × Str :=
  let lhs := match rhs0 with | none => str "/" | some _ => lhs0
  let rhs := match rhs0 with | none => lhs0 | some r => r
  let path := rstripC '/' lhs ++ '/' :: lstripC '/' rhs
  let res := findRepoLoop fs docroot allow_fake path.length lhs rhs [] path
  let lhsF := res.1
  let rhsF := res.2.1
  let fakes := res.2.2
  (lhsF ++ (if endsWith (str "/") lhsF then lstripC '/' fakes else fakes),
   lstripC '/' rhsF)

/-! ### Segment-level view of paths

`find_repo` manipulates slash-separated strings; the statements relate it
to a segment-level description.  `joinSegs` renders segments as
`s1/s2/.../sn`, `strOfSegs` as `/s1/.../sn` (so `strOfSegs [] = "/"`). -/

def joinSegs : List Str → Str
  | [] => []
  | [s] => s
  | s :: t :: S => s ++ '/' :: joinSegs (t :: S)

def strOfSegs (R : List Str) : Str := '/' :: joinSegs R

/-- Rendering of the accumulated `fakes` variable of `find_repo`:
`"/f1/f2/.../fk"`, empty for no fakes. -/
def fakesStr : List Str → Str
  | [] => []
  | f :: F => '/' :: f ++ fakesStr F

/-- A well-formed path segment: nonempty and without a slash. -/
def WfSeg (s : Str) : Prop := s ≠ [] ∧ '/' ∉ s

/-- A segment that may be probed against the filesystem by `find_repo`
(that is, handed to `translate_path`): additionally free of the query,
fragment and dot components that the stdlib path translation strips. -/
def PSeg (s : Str) : Prop :=
  WfSeg s ∧ '?' ∉ s ∧ '#' ∉ s ∧ s ≠ str "." ∧ s ≠ str ".."

instance (s : Str) : Decidable (WfSeg s) :=
  inferInstanceAs (Decidable (s ≠ [] ∧ '/' ∉ s))

instance (s : Str) : Decidable (PSeg s) :=
  inferInstanceAs (Decidable (WfSeg s ∧ '?' ∉ s ∧ '#' ∉ s ∧ s ≠ str "." ∧ s ≠ str ".."))

/-- Segment-level repository marker check (the segment rendering of
`is_repo`): `HEAD` file present or `refs/heads` directory present. -/
def isRepoSegs (fs : FS) (p : List Str) : Bool :=
  fs.isFile (p ++ [str "HEAD"]) || fs.isDir (p ++ [str "refs", str "heads"])

/-- Modelled from the spec (§4.1 PathResolver): advance the root/tail split
past a segment exactly when its translated directory exists and is not a
repository; halt at the first segment that is missing (in fake mode the
segment is accumulated as a trailing fake component instead) or is itself
a repository.  The final segment is never probed.  Returns the consumed
real segments, the fake segments, and the remaining tail segments. -/
def resolveSegs (fs : FS) (D : List Str) (allowFake : Bool) :
    List Str → List Str → List Str → List Str × List Str × List Str
  | R, F, [] => (R, F, [])
  | R, F, [s] => (R, F, [s])
  | R, F, s :: t :: S =>
      if fs.isDir (D ++ R ++ [s]) then
        if isRepoSegs fs (D ++ R ++ [s]) then (R, F, s :: t :: S)
        else resolveSegs fs D allowFake (R ++ [s]) F (t :: S)
      else if allowFake then resolveSegs fs D allowFake R (F ++ [s]) (t :: S)
      else (R, F, s :: t :: S)

/-! ### Embedding of `is_cgi`, `run_cgi`, `send_head` and the response logic -/

/-- Hexadecimal digit as used by the object-storage pattern. -/
def isHexD (c : Char) : Bool :=
  decide (('0' ≤ c ∧ c ≤ '9') ∨ ('a' ≤ c ∧ c ≤ 'f'))

/-- The alternatives of the `get_RE` tail:
`pack/pack-<40 hex>.(pack|idx)` or `<2 hex>/<38 hex>`, anchored at the end
by the length conditions. -/
def objTailMatch (t : Str) : Bool :=
  (decide (t.length = 55) && decide (t.take 10 = str "pack/pack-")
    && ((t.drop 10).take 40).all isHexD && decide (t.drop 50 = str ".pack"))
  || (decide (t.length = 54) && decide (t.take 10 = str "pack/pack-")
    && ((t.drop 10).take 40).all isHexD && decide (t.drop 50 = str ".idx"))
  || (decide (t.length = 41) && (t.take 2).all isHexD
    && decide ((t.drop 2).take 1 = str "/") && (t.drop 3).all isHexD)

/-- Embedding of the anchored regular expression `get_RE` (source lines
332-334): `^/.+/objects/(pack/pack-[0-9a-f]{40}\.(pack|idx)|[0-9a-f]{2}/[0-9a-f]{38})$`.
The scan index `j` is the position of the `/objects/` separator; `.+`
requires a nonempty newline-free middle. -/
def getREMatch (p : Str) : Bool :=
  (List.range (p.length + 1)).any (fun j =>
    decide (2 ≤ j) && decide (p.take 1 = str "/")
      && ((p.take j).drop 1).all (fun c => decide (c ≠ '\n'))
      && decide ((p.drop j).take 9 = str "/objects/")
      && objTailMatch (p.drop (j + 9)))

/-- The nonempty prefixes of a segment path, used to model `os.makedirs`. -/
def prefixesOf (p : List Str) : List (List Str) :=
  (List.range p.length).map (fun k => p.take (k + 1))

/-- Model of `os.makedirs` (idempotent; `FileExistsError` is ignored by
the source). -/
def FS.mkdirs (fs : FS) (p : List Str) : FS :=
  { fs with dirs := fs.dirs ++ prefixesOf p }

/-- Whether a directory has any entry strictly below it (used for the
`len(os.listdir(uri)) == 0` check). -/
def FS.hasEntryBelow (fs : FS) (p : List Str) : Bool :=
  (fs.dirs ++ fs.files).any (fun q => decide (p ≠ q) && p.isPrefixOf q)

/-- Modelled from the spec (§6 repository on-disk layout): the effect of
the external `git init --bare` on the filesystem is creating the standard
bare layout, in particular a `HEAD` file and a `refs/heads` directory. -/
def FS.gitInitBare (fs : FS) (p : List Str) : FS :=
  { fs with
    files := fs.files ++ [p ++ [str "HEAD"]],
    dirs := fs.dirs ++ [p ++ [str "refs"], p ++ [str "refs", str "heads"],
      p ++ [str "objects"]] }

/-- The repository-creation block of `is_cgi` (source lines 551-567):
`os.makedirs` (ignoring an existing target) followed by `git init --bare`
when the target directory is empty. -/
def createRepoAt (fs : FS) (p : List Str) : FS :=
  let fs1 := fs.mkdirs p
  if fs1.hasEntryBelow p then fs1 else fs1.gitInitBare p

/-- The boolean toggles consumed by the handler (`_CREATE_MISSING`,
`_FIRST_CHILD_OK`, `_ENFORCE_DOTGIT`, `_USE_NAMESPACES`). -/
structure Config where
  createMissing : Bool
  firstChildOk : Bool
  enforceDotGit : Bool
  useNamespaces : Bool
deriving Repr, DecidableEq

/-- Result of `HTTPBackendHandler.is_cgi`: `static` for a `False` return
(the request is served as a static resource), `forbidden` for the
`send_error(FORBIDDEN)+raise` exits, and `cgi` for a `True` return
carrying the (possibly promoted) document root, the (possibly mutated)
filesystem, and `repo_info = (root, tail, namespace)`. -/
inductive IsCgiResult where
  | static : IsCgiResult
  | forbidden (msg : String) : IsCgiResult
  | cgi (docroot : Str) (fs : FS) (root tail : Str) (ns : Option Str) : IsCgiResult
deriving Repr, DecidableEq

def infoRefsService : Str := str "/info/refs?service="

/-- Direct embedding of `HTTPBackendHandler.is_cgi` (source lines
427-575) on an already-collapsed request path.  The namespace logging
block (`git symbolic-ref`) only logs and is omitted. -/
def is_cgi (cfg : Config) (fs : FS) (docroot : Str) (collapsed0 : Str) : IsCgiResult :=
  let grt := find_repo fs docroot collapsed0 none false
  let step1 : Str × Str × Option Str × Str :=
    if cfg.useNamespaces then
      let ns_test := find_repo fs docroot collapsed0 none true
      if ns_test.1 ≠ grt.1 then
        let tail1 := ns_test.2
        let grn := find_repo fs docroot ns_test.1 none false
        if grn.1 = str "/" ∧ '/' ∈ grn.2 then
          (grn.1, grn.2 ++ '/' :: tail1, none, collapsed0)
        else
          (grn.1, tail1, some grn.2, rstripC '/' grn.1 ++ '/' :: lstripC '/' tail1)
      else (grt.1, grt.2, none, collapsed0)
    else (grt.1, grt.2, none, collapsed0)
  let git_root := step1.1
  let tail := step1.2.1
  let ns := step1.2.2.1
  let collapsed := step1.2.2.2
  if getREMatch collapsed then .static
  else if existsStr fs (osPathJoin docroot (stripC '/' collapsed)) then .static
  else
  let policy : Option String × Bool :=
    if git_root = str "/" then
      let gr1 := find_repo fs docroot collapsed none true
      let gr_test := find_repo fs docroot gr1.1 none false
      if gr_test.1 = str "/" ∧
          ¬ is_repo fs (osPathJoin docroot (beforeSub (lstripC '/' tail) (str "/"))) then
        if cfg.createMissing = false then
          (some "The requested path could not be found and the env var _CREATE_MISSING is not set", false)
        else if containsSub infoRefsService tail ∧
            '/' ∉ lstripC '/' (beforeSub tail infoRefsService) then
          if cfg.firstChildOk then (none, true)
          else (some "CREATE_MISSING is set but path is only one level deep; set _FIRST_CHILD_OK to override", false)
        else (none, false)
      else
        if cfg.firstChildOk then (none, true)
        else (some "The requested Git repo should not be a first child of the root URI", false)
    else (none, false)
  match policy.1 with
  | some m => .forbidden m
  | none =>
    let dc : Str × Str :=
      if policy.2 then
        let sp := osPathSplit docroot
        (sp.1, '/' :: sp.2 ++ collapsed)
      else (docroot, collapsed)
    let docroot2 := dc.1
    let collapsed2 := dc.2
    let hd : Str × Str :=
      match pyFind collapsed2 '/' 1 with
      | some i => (collapsed2.take i, collapsed2.drop (i + 1))
      | none => (collapsed2.dropLast, collapsed2)
    let fs2 :=
      if cfg.createMissing = true ∧ containsSub infoRefsService hd.2 then
        createRepoAt fs
          (segsOf (osPathJoin docroot2 (stripC '/' (beforeSub collapsed2 infoRefsService))))
      else fs
    .cgi docroot2 fs2 hd.1 hd.2 ns

/-- Request metadata consumed by the CGI environment construction, taken
from the inbound request line and headers. -/
structure ReqMeta where
  command : Str
  serverSoftware : Str
  serverName : Str
  serverPort : Str
  protocolVersion : Str
  remoteAddr : Str
  contentType : Str
  contentLength : Option Str
  referer : Option Str
  userAgent : Option Str
  acceptLines : List Str
  cookieHeaders : List Str

/-- The Git plumbing directory (`git --exec-path`): its entries
(`os.listdir`) and an executability predicate (`os.access(..., X_OK)`). -/
structure GitExec where
  entries : List Str
  executable : Str → Bool

def envSet (env : List (Str × Str)) (k v : Str) : List (Str × Str) :=
  if env.any (fun p => p.1 = k) then env.map (fun p => if p.1 = k then (k, v) else p)
  else env ++ [(k, v)]

def envSetdefault (env : List (Str × Str)) (k v : Str) : List (Str × Str) :=
  if env.any (fun p => p.1 = k) then env else env ++ [(k, v)]

def envGet (env : List (Str × Str)) (k : Str) : Option Str :=
  (env.find? (fun p => p.1 = k)).map (fun p => p.2)

/-- Python `str.strip()` with no argument (whitespace). -/
def stripWs (s : Str) : Str :=
  ((s.dropWhile isWs).reverse.dropWhile isWs).reverse

/-- The `HTTP_ACCEPT` folding loop of `run_cgi` (source lines 914-920):
continuation lines are stripped and appended; other lines drop the
`accept:` name (7 characters) and split on commas. -/
def foldAccept (lines : List Str) : Str :=
  let accept := lines.foldl (fun acc line =>
    match line.head? with
    | some c =>
        if c = '\t' ∨ c = '\n' ∨ c = '\r' ∨ c = ' ' then acc ++ [stripWs line]
        else acc ++ splitAllC (line.drop 7) ','
    | none => acc ++ [stripWs line]) []
  List.intercalate [','] accept

def joinCommaSp (xs : List Str) : Str := List.intercalate (str ", ") xs

/-- Percent-decoding as performed by `urllib.parse.unquote` on ASCII
input. -/
def hexVal (c : Char) : Option Nat :=
  if '0' ≤ c ∧ c ≤ '9' then some (c.toNat - '0'.toNat)
  else if 'a' ≤ c ∧ c ≤ 'f' then some (c.toNat - 'a'.toNat + 10)
  else if 'A' ≤ c ∧ c ≤ 'F' then some (c.toNat - 'A'.toNat + 10)
  else none

def pyUnquote : Str → Str
  | '%' :: a :: b :: rest =>
      match hexVal a, hexVal b with
      | some x, some y => Char.ofNat (16 * x + y) :: pyUnquote rest
      | _, _ => '%' :: pyUnquote (a :: b :: rest)
  | c :: rest => c :: pyUnquote rest
  | [] => []

/-- Python `os.path.abspath` on an already-absolute POSIX path: `normpath`
(collapse duplicate slashes, drop any trailing slash). -/
def pyAbsPath (s : Str) : Str := strOfSegs (segsOf s)

/-- Result of `HTTPBackendHandler.run_cgi` up to spawning the subprocess:
either one of the error responses, or `ok` with the resolved pieces and
the constructed CGI environment. -/
inductive RunCgiResult where
  | forbidden (msg : String)
  | notFoundScript
  | precondFailed
  | notFoundRepo
  | ok (root repo rest query : Str) (env : List (Str × Str))
deriving Repr, DecidableEq

/-- Direct embedding of `HTTPBackendHandler.run_cgi` (source lines
815-947): resolution of `repo_info`, the plumbing-command checks, and the
construction of the CGI environment, stopping where the subprocess is
spawned. -/
def run_cgi (cfg : Config) (fs : FS) (docroot : Str) (gx : GitExec)
    (parentEnv : List (Str × Str)) (meta : ReqMeta) (osUser : Str)
    (root0 tail0 : Str) (ns : Option Str) : RunCgiResult :=
  let pq := pyPartition tail0 (str "?")
  let query := pq.2
  let rr := find_repo fs docroot root0 (some pq.1) false
  let root := rr.1
  let pr : Str × Str :=
    match pyFind rr.2 '/' 0 with
    | some i => (rr.2.take i, rr.2.drop i)
    | none => (rr.2, [])
  let repo := pr.1
  let rest := pr.2
  let repo_abs := translate_path docroot (root ++ '/' :: repo)
  if cfg.enforceDotGit = true ∧ ¬ endsWith (str ".git") repo then
    .forbidden "invalid repo name"
  else if ¬ (gx.entries.contains (stripC '/' rest) ∨ gx.entries.contains (lastAfterC query '=')) then
    .notFoundScript
  else if ¬ gx.executable (if query ≠ [] then lastAfterC query '=' else stripC '/' rest) then
    .precondFailed
  else
  let uqrest := pyUnquote rest
  let env1 := envSet parentEnv (str "GIT_HTTP_EXPORT_ALL") []
  let env2 := envSet env1 (str "GIT_PROJECT_ROOT")
      (pyAbsPath (osPathJoin docroot (lstripC '/' root)))
  let env3 := match ns with
    | some n => envSet env2 (str "GIT_NAMESPACE") n
    | none => env2
  let env4 := envSet env3 (str "SCRIPT_NAME") (str "git-http-backend")
  let env5 := envSet env4 (str "PATH_INFO") ('/' :: lstripC '/' repo ++ uqrest)
  let env6 := envSet env5 (str "PATH_TRANSLATED")
      (translate_path docroot
        (osPathJoin (osPathJoin (stripC '/' root) (stripC '/' repo)) (stripC '/' uqrest)))
  let env7 := envSet env6 (str "QUERY_STRING") query
  let env8 :=
    if containsSub (str "receive-pack") query ∨ containsSub (str "receive-pack") rest then
      envSetdefault env7 (str "REMOTE_USER") osUser
    else env7
  if ¬ isFileStr fs (osPathJoin repo_abs (str "HEAD")) then .notFoundRepo
  else
  let env9 := envSet env8 (str "SERVER_SOFTWARE") meta.serverSoftware
  let env10 := envSet env9 (str "SERVER_NAME") meta.serverName
  let env11 := envSet env10 (str "GATEWAY_INTERFACE") (str "CGI/1.1")
  let env12 := envSet env11 (str "SERVER_PROTOCOL") meta.protocolVersion
  let env13 := envSet env12 (str "SERVER_PORT") meta.serverPort
  let env14 := envSet env13 (str "REQUEST_METHOD") meta.command
  let env15 := envSet env14 (str "REMOTE_ADDR") meta.remoteAddr
  let env16 := envSet env15 (str "CONTENT_TYPE") meta.contentType
  let env17 := match meta.contentLength with
    | some l => if l ≠ [] then envSet env16 (str "CONTENT_LENGTH") l else env16
    | none => env16
  let env18 := match meta.referer with
    | some r => if r ≠ [] then envSet env17 (str "HTTP_REFERER") r else env17
    | none => env17
  let env19 := envSet env18 (str "HTTP_ACCEPT") (foldAccept meta.acceptLines)
  let env20 := match meta.userAgent with
    | some u => if u ≠ [] then envSet env19 (str "HTTP_USER_AGENT") u else env19
    | none => env19
  let cookieStr := joinCommaSp (meta.cookieHeaders.filter (fun c => c ≠ []))
  let env21 := if cookieStr ≠ [] then envSet env20 (str "HTTP_COOKIE") cookieStr else env20
  let env22 := [str "QUERY_STRING", str "REMOTE_HOST", str "CONTENT_LENGTH",
      str "HTTP_USER_AGENT", str "HTTP_COOKIE", str "HTTP_REFERER"].foldl
      (fun e k => envSetdefault e k []) env21
  .ok root repo rest query env22

/-- Combined outcome of dispatching one request through `is_cgi` and then
`run_cgi` (the auth gate of `send_head` is modelled separately; the
scenarios proved below run without an auth table). -/
inductive Outcome where
  | static
  | forbidden (msg : String)
  | notFoundScript
  | precondFailed
  | notFoundRepo
  | ok (root repo rest query : Str) (env : List (Str × Str))
deriving Repr, DecidableEq

def handle (cfg : Config) (fs : FS) (docroot : Str) (gx : GitExec)
    (parentEnv : List (Str × Str)) (meta : ReqMeta) (osUser : Str)
    (collapsed : Str) : Outcome :=
  match is_cgi cfg fs docroot collapsed with
  | .static => .static
  | .forbidden m => .forbidden m
  | .cgi d fs2 root tail ns =>
      match run_cgi cfg fs2 d gx parentEnv meta osUser root tail ns with
      | .forbidden m => .forbidden m
      | .notFoundScript => .notFoundScript
      | .precondFailed => .precondFailed
      | .notFoundRepo => .notFoundRepo
      | .ok root repo rest query env => .ok root repo rest query env

/-! ### Embedding of the auth gate (`send_head`) and the response split -/

/-- One entry of the `_AUTHFILE` table (source docstring lines 62-73). -/
structure AuthRule where
  description : Option Str
  secretsfile : Option (List Str)
  realaccount : Option Bool
  privaterepo : Option Bool
deriving Repr, DecidableEq

/-- Outcome of the `send_head` override: delegation to the superclass
without credentials (`proceedPlain`), delegation after successful
authentication (`proceedAuth`), the 401 challenge, an error response, or
an uncaught exception in the handler (`internalError`). -/
inductive HeadOutcome where
  | proceedPlain
  | proceedAuth (remoteUser : Option Str)
  | challenge (realm : Str)
  | reject (code : Nat)
  | internalError
deriving Repr, DecidableEq

/-- The path-matching test of the `send_head` loop (source lines 677-681). -/
def ruleMatches (collapsed rp : Str) : Bool :=
  startsWith (rstripC '/' rp ++ ['/']) collapsed || decide (collapsed = rstripC '/' rp)

/-- The secrets-file parsing loop of `send_head` (source lines 704-725).
Returns `none` when the Python would raise: a line containing more than
one colon makes the two-target unpacking fail, and an input whose lines
never contain a colon leaves `u`/`p` unbound for the `del` statement.
`opensslAvailable` models whether `openssl version` succeeds; the
`has_openssl` instance attribute starts as `None` per its class default. -/
def buildSecdictAux (opensslAvailable : Bool) :
    List Str → Option Bool → List (Str × Str) → Bool → Option (List (Str × Str))
  | [], _, acc, assigned => if assigned then some acc else none
  | line :: rest, hasOpenssl, acc, assigned =>
      if ':' ∉ line then buildSecdictAux opensslAvailable rest hasOpenssl acc assigned
      else
        match splitAllC line ':' with
        | [u, p] =>
            if startsWith (str "$apr1") p ∧ hasOpenssl = none then
              if opensslAvailable then
                buildSecdictAux opensslAvailable rest (some true)
                  (envSet acc (stripWs u) (stripWs p)) true
              else
                buildSecdictAux opensslAvailable rest (some false) acc true
            else if startsWith (str "$2y") p then
              buildSecdictAux opensslAvailable rest hasOpenssl acc true
            else
              buildSecdictAux opensslAvailable rest hasOpenssl
                (envSet acc (stripWs u) (stripWs p)) true
        | _ => none

def buildSecdict (opensslAvailable : Bool) (lines : List Str) : Option (List (Str × Str)) :=
  buildSecdictAux opensslAvailable lines none [] false

def defaultRule : AuthRule := ⟨none, none, none, none⟩

/-- Direct embedding of `HTTPBackendHandler.send_head` (source lines
661-775).  `verify` abstracts `verify_pass` (which shells out to external
hashing: `openssl`, `crypt(3)`, `hashlib`), and `decode` abstracts
`base64.decodebytes(..).decode('ascii')` returning `none` when either
step raises.  `requireAccount` is the `_REQURE_ACCOUNT` toggle. -/
def send_head (authDict : List (Str × AuthRule)) (requireAccount : Bool)
    (opensslAvailable : Bool) (verify : Str → Str → Bool)
    (decode : Str → Option Str) (collapsed : Str)
    (authHeader : Option Str) : HeadOutcome :=
  if authDict = [] then .proceedPlain
  else
  let matched := authDict.find? (fun p => ruleMatches collapsed p.1)
  let entry := match matched with
    | some p => p
    | none => authDict.getLastD ([], defaultRule)
  let realm_info := entry.2
  let privaterepo := realm_info.privaterepo.getD false
  if matched.isSome = false ∨
      (privaterepo = false ∧ ¬ containsSub (str "service=git-receive-pack") collapsed) then
    .proceedPlain
  else
  let description := realm_info.description.getD (str "Basic auth requested")
  let realaccount := realm_info.realaccount.getD requireAccount
  match realm_info.secretsfile with
  | none => .reject 417
  | some secretlines =>
      match buildSecdict opensslAvailable secretlines with
      | none => .internalError
      | some secdict =>
          match authHeader with
          | none => .challenge description
          | some a =>
              if a = [] then .challenge description
              else
              let parts := pySplitWs a
              if parts.length = 2 then
                if toLowerStr (parts.headD []) ≠ str "basic" then .reject 406
                else
                  match decode (parts.getD 1 []) with
                  | none => .reject 422
                  | some decoded =>
                      let creds := splitAllC decoded ':'
                      let vok : Bool :=
                        match envGet secdict (creds.headD []) with
                        | some hsh => verify hsh (creds.getD 1 [])
                        | none => false
                      if creds.length = 2 ∧ vok = true then
                        .proceedAuth (if realaccount then some (creds.headD []) else none)
                      else .reject 403
              else if parts = [] then .internalError
              else .reject 422

/-- The response-assembly step of `run_cgi` (source lines 970-980): split
the subprocess stdout at the first `CRLFCRLF` boundary, log when the
header block already carries a `Content-Length`, and send a
`Content-Length` header computed from the payload. -/
structure CgiResponse where
  hdr : Str
  payload : Str
  loggedLengthPresent : Bool
  sentHeaders : List (Str × Str)
deriving Repr, DecidableEq

def natToStr (n : Nat) : Str := (toString n).data

def run_cgi_respond (stdout : Str) : CgiResponse :=
  let hp := pyPartition stdout (str "\r\n\r\n")
  { hdr := hp.1
    payload := hp.2
    loggedLengthPresent := containsSub (str "Content-Length") hp.1
    sentHeaders := [(str "Content-Length", natToStr hp.2.length)] }


/-- The CGI environment dictionary exactly as `run_cgi` assembles it
(source lines 898-941 and the `rfcvars` loop at 942-946), factored out so
that theorems can name the resulting environment. -/
def mkCgiEnv (parentEnv : List (Str × Str)) (docroot root repo rest query : Str)
    (ns : Option Str) (meta : ReqMeta) (osUser : Str) : List (Str × Str) :=
  let uqrest := pyUnquote rest
  let env1 := envSet parentEnv (str "GIT_HTTP_EXPORT_ALL") []
  let env2 := envSet env1 (str "GIT_PROJECT_ROOT")
      (pyAbsPath (osPathJoin docroot (lstripC '/' root)))
  let env3 := match ns with
    | some n => envSet env2 (str "GIT_NAMESPACE") n
    | none => env2
  let env4 := envSet env3 (str "SCRIPT_NAME") (str "git-http-backend")
  let env5 := envSet env4 (str "PATH_INFO") ('/' :: lstripC '/' repo ++ uqrest)
  let env6 := envSet env5 (str "PATH_TRANSLATED")
      (translate_path docroot
        (osPathJoin (osPathJoin (stripC '/' root) (stripC '/' repo)) (stripC '/' uqrest)))
  let env7 := envSet env6 (str "QUERY_STRING") query
  let env8 :=
    if containsSub (str "receive-pack") query ∨ containsSub (str "receive-pack") rest then
      envSetdefault env7 (str "REMOTE_USER") osUser
    else env7
  let env9 := envSet env8 (str "SERVER_SOFTWARE") meta.serverSoftware
  let env10 := envSet env9 (str "SERVER_NAME") meta.serverName
  let env11 := envSet env10 (str "GATEWAY_INTERFACE") (str "CGI/1.1")
  let env12 := envSet env11 (str "SERVER_PROTOCOL") meta.protocolVersion
  let env13 := envSet env12 (str "SERVER_PORT") meta.serverPort
  let env14 := envSet env13 (str "REQUEST_METHOD") meta.command
  let env15 := envSet env14 (str "REMOTE_ADDR") meta.remoteAddr
  let env16 := envSet env15 (str "CONTENT_TYPE") meta.contentType
  let env17 := match meta.contentLength with
    | some l => if l ≠ [] then envSet env16 (str "CONTENT_LENGTH") l else env16
    | none => env16
  let env18 := match meta.referer with
    | some r => if r ≠ [] then envSet env17 (str "HTTP_REFERER") r else env17
    | none => env17
  let env19 := envSet env18 (str "HTTP_ACCEPT") (foldAccept meta.acceptLines)
  let env20 := match meta.userAgent with
    | some u => if u ≠ [] then envSet env19 (str "HTTP_USER_AGENT") u else env19
    | none => env19
  let cookieStr := joinCommaSp (meta.cookieHeaders.filter (fun c => c ≠ []))
  let env21 := if cookieStr ≠ [] then envSet env20 (str "HTTP_COOKIE") cookieStr else env20
  [str "QUERY_STRING", str "REMOTE_HOST", str "CONTENT_LENGTH",
      str "HTTP_USER_AGENT", str "HTTP_COOKIE", str "HTTP_REFERER"].foldl
      (fun e k => envSetdefault e k []) env21

/-- Extract the environment of an `ok` outcome. -/
def okEnv : Outcome → Option (List (Str × Str))
  | .ok _ _ _ _ env => some env
  | _ => none

/-- Decidable sufficient check for `FS.Wf` on a concrete filesystem. -/
def FS.wfB (fs : FS) : Bool :=
  (fs.dirs ++ fs.files).all (fun q =>
    (List.range q.length).all (fun k => decide (k = 0) || fs.isDir (q.take k)))

/-- Decidable check that no entry of a concrete filesystem carries a `?`
in any segment. -/
def FS.noQmarkB (fs : FS) : Bool :=
  (fs.dirs ++ fs.files).all (fun q => q.all (fun sg => decide ('?' ∉ sg)))

/-! ### Concrete fixtures exercised by the witnesses and counterexamples -/

/-- Layout `/srv/www/git/2019` with no repository inside. -/
def fsMissingRepo : FS :=
  ⟨[[str "srv"], [str "srv", str "www"], [str "srv", str "www", str "git"],
    [str "srv", str "www", str "git", str "2019"]], []⟩

/-- Same layout with `myrepo.git` present but carrying only a
`refs/heads` directory and no `HEAD` file. -/
def fsHeadless : FS :=
  ⟨[[str "srv"], [str "srv", str "www"], [str "srv", str "www", str "git"],
    [str "srv", str "www", str "git", str "2019"],
    [str "srv", str "www", str "git", str "2019", str "myrepo.git"],
    [str "srv", str "www", str "git", str "2019", str "myrepo.git", str "refs"],
    [str "srv", str "www", str "git", str "2019", str "myrepo.git", str "refs",
      str "heads"]], []⟩

/-- Same layout with a fully valid `myrepo.git` (`HEAD` file present). -/
def fsFullRepo : FS :=
  ⟨fsHeadless.dirs,
   [[str "srv", str "www", str "git", str "2019", str "myrepo.git", str "HEAD"]]⟩

/-- Flat layout: `/srv/www/repo.git` is itself a valid repository. -/
def fsFlat : FS :=
  ⟨[[str "srv"], [str "srv", str "www"], [str "srv", str "www", str "repo.git"],
    [str "srv", str "www", str "repo.git", str "refs"],
    [str "srv", str "www", str "repo.git", str "refs", str "heads"]],
   [[str "srv", str "www", str "repo.git", str "HEAD"]]⟩

/-- Default server options: nothing created, dot-git enforced, flat
layouts and namespaces off. -/
def cfgDefault : Config := ⟨false, false, true, false⟩

/-- The standard Git plumbing directory. -/
def gxStd : GitExec :=
  ⟨[str "git-upload-pack", str "git-receive-pack", str "git-http-backend"],
   fun s => decide (s = str "git-upload-pack" ∨ s = str "git-receive-pack" ∨
     s = str "git-http-backend")⟩

/-- A plain GET request with no entity headers. -/
def metaGet : ReqMeta :=
  ⟨str "GET", str "SimpleHTTP/0.6 Python/3.8", str "localhost", str "8000",
   str "HTTP/1.1", str "127.0.0.1", str "", none, none, none, [], []⟩

/-- Fixed verifier for the auth fixtures: accepts exactly the password
`pw` against the stored hash `h1`. -/
def verifyStd (h p : Str) : Bool := decide (h = str "h1" ∧ p = str "pw")

/-- Fixed base64 decoder table for the auth fixtures. -/
def decodeStd (s : Str) : Option Str :=
  if s = str "dXNlcnBhc3M=" then some (str "userpass")
  else if s = str "YWxpY2U6cHc=" then some (str "alice:pw")
  else if s = str "YWxpY2U6YmFk" then some (str "alice:bad")
  else none

/-- One public rule (`privaterepo = false`) guarding `/private`. -/
def adPublic : List (Str × AuthRule) :=
  [(str "/private", ⟨some (str "myrealm"), some [str "alice:h1"],
    some false, some false⟩)]

/-- One private rule (`privaterepo = true`) guarding `/private`. -/
def adPrivate : List (Str × AuthRule) :=
  [(str "/private", ⟨some (str "myrealm"), some [str "alice:h1"],
    some false, some true⟩)]

/-- Options with `createMissing` on and `firstChildOk` off. -/
def cfgCreate : Config := ⟨true, false, true, false⟩

/-- Options with `firstChildOk` on. -/
def cfgFlat : Config := ⟨false, true, true, false⟩

/-- A bare document root `/srv/www` with nothing beneath it. -/
def fsSrv : FS := ⟨[[str "srv"], [str "srv", str "www"]], []⟩

/-- Options with namespace support on. -/
def cfgNs : Config := ⟨false, false, true, true⟩

/-- A parent process environment carrying stale RFC-3875 values. -/
def parentStale : List (Str × Str) :=
  [(str "REMOTE_HOST", str "stale.example"),
   (str "CONTENT_LENGTH", str "999")]

/-! ### Basic string lemmas -/

theorem joinSegs_cons (s : Str) (S : List Str) (h : S ≠ []) :
    joinSegs (s :: S) = s ++ '/' :: joinSegs S := by
  cases S with
  | nil => exact absurd rfl h
  | cons t S => rfl

theorem fakesStr_append_single (F : List Str) (s : Str) :
    fakesStr (F ++ [s]) = fakesStr F ++ '/' :: s := by
  induction F with
  | nil => simp [fakesStr]
  | cons f F ih => simp [fakesStr, ih]

theorem splitAllC_ne_nil (s : Str) (c : Char) : splitAllC s c ≠ [] := by
  cases s with
  | nil => simp [splitAllC]
  | cons x xs =>
      simp only [splitAllC]
      by_cases hx : x = c
      · simp [hx]
      · simp only [if_neg hx]
        cases h : splitAllC xs c with
        | nil => simp
        | cons p ps => simp

theorem splitAllC_cons (x : Char) (xs : Str) (c : Char) :
    splitAllC (x :: xs) c =
      if x = c then [] :: splitAllC xs c
      else match splitAllC xs c with
        | [] => [[x]]
        | p :: ps => (x :: p) :: ps := rfl

theorem splitAllC_append_sep (a b : Str) (c : Char) :
    splitAllC (a ++ c :: b) c = splitAllC a c ++ splitAllC b c := by
  induction a with
  | nil => simp [splitAllC]
  | cons x xs ih =>
      rw [List.cons_append, splitAllC_cons, splitAllC_cons, ih]
      by_cases hx : x = c
      · simp [hx]
      · simp only [if_neg hx]
        cases h : splitAllC xs c with
        | nil => exact absurd h (splitAllC_ne_nil xs c)
        | cons p ps => simp

theorem splitAllC_no_sep (s : Str) (c : Char) (h : c ∉ s) :
    splitAllC s c = [s] := by
  induction s with
  | nil => rfl
  | cons x xs ih =>
      simp only [splitAllC]
      have hx : x ≠ c := fun he => h (he ▸ List.mem_cons_self x xs)
      rw [if_neg hx, ih (fun hm => h (List.mem_cons_of_mem x hm))]

theorem segsOf_append_sep (a b : Str) :
    segsOf (a ++ '/' :: b) = segsOf a ++ segsOf b := by
  simp [segsOf, splitAllC_append_sep]

theorem segsOf_no_slash (s : Str) (h : '/' ∉ s) :
    segsOf s = if s = [] then [] else [s] := by
  by_cases hs : s = []
  · subst hs; rfl
  · simp [segsOf, splitAllC_no_sep s '/' h, hs]

theorem segsOf_joinSegs (S : List Str) (h : ∀ s ∈ S, WfSeg s) :
    segsOf (joinSegs S) = S := by
  induction S with
  | nil => rfl
  | cons s S ih =>
      cases S with
      | nil =>
          have hw := h s (List.mem_cons_self s [])
          simp [joinSegs, segsOf_no_slash s hw.2, hw.1]
      | cons t S' =>
          rw [joinSegs_cons s (t :: S') (by simp), segsOf_append_sep,
            ih (fun x hx => h x (List.mem_cons_of_mem s hx))]
          have hw := h s (List.mem_cons_self s _)
          simp [segsOf_no_slash s hw.2, hw.1]

theorem segsOf_strOfSegs (S : List Str) (h : ∀ s ∈ S, WfSeg s) :
    segsOf (strOfSegs S) = S := by
  have : strOfSegs S = [] ++ '/' :: joinSegs S := rfl
  rw [this, segsOf_append_sep, segsOf_joinSegs S h]
  rfl

theorem joinSegs_append (R S : List Str) (hR : R ≠ []) (hS : S ≠ []) :
    joinSegs (R ++ S) = joinSegs R ++ '/' :: joinSegs S := by
  induction R with
  | nil => exact absurd rfl hR
  | cons r R ih =>
      cases R with
      | nil => simp [joinSegs_cons r S hS, joinSegs]
      | cons t R' =>
          rw [List.cons_append, joinSegs_cons r ((t :: R') ++ S) (by simp),
            ih (by simp), joinSegs_cons r (t :: R') (by simp)]
          simp

theorem strOfSegs_append (R S : List Str) (hR : R ≠ []) (hS : S ≠ []) :
    strOfSegs (R ++ S) = strOfSegs R ++ '/' :: joinSegs S := by
  simp [strOfSegs, joinSegs_append R S hR hS]

theorem joinSegs_last (R : List Str) (hR : R ≠ []) :
    ∃ a s, s ∈ R ∧ joinSegs R = a ++ s := by
  induction R with
  | nil => exact absurd rfl hR
  | cons r R ih =>
      cases R with
      | nil => exact ⟨[], r, by simp, by simp [joinSegs]⟩
      | cons t S =>
          obtain ⟨a, s, hmem, heq⟩ := ih (by simp)
          refine ⟨r ++ '/' :: a, s, by simp [hmem], ?_⟩
          rw [joinSegs_cons r (t :: S) (by simp), heq]
          simp

theorem joinSegs_last_char (R : List Str) (hR : R ≠ [])
    (hw : ∀ s ∈ R, WfSeg s) :
    ∃ a c, joinSegs R = a ++ [c] ∧ c ≠ '/' := by
  obtain ⟨a, s, hmem, heq⟩ := joinSegs_last R hR
  obtain ⟨hs, hns⟩ := hw s hmem
  rcases List.eq_nil_or_concat s with hnil | ⟨s', c, hc⟩
  · exact absurd hnil hs
  · rw [List.concat_eq_append] at hc
    refine ⟨a ++ s', c, by simp [heq, hc], ?_⟩
    intro hcs
    refine hns ?_
    rw [hc]
    exact List.mem_append_right s' (by simp [hcs])

theorem strOfSegs_last_char (R : List Str) (hR : R ≠ [])
    (hw : ∀ s ∈ R, WfSeg s) :
    ∃ a c, strOfSegs R = a ++ [c] ∧ c ≠ '/' := by
  obtain ⟨a, c, heq, hc⟩ := joinSegs_last_char R hR hw
  exact ⟨'/' :: a, c, by simp [strOfSegs, heq], hc⟩

theorem isPrefixOfSlash (l : Str) :
    (['/'] : Str).isPrefixOf l = match l with
      | [] => false
      | b :: _ => '/' == b := by
  cases l <;> simp [List.isPrefixOf]

theorem endsWith_slash_concat (a : Str) (c : Char) (hc : c ≠ '/') :
    endsWith (str "/") (a ++ [c]) = false := by
  rw [endsWith, List.isSuffixOf]
  have h1 : (str "/").reverse = ['/'] := rfl
  have h2 : (a ++ [c]).reverse = c :: a.reverse := by simp
  rw [h1, h2, isPrefixOfSlash]
  simp [Ne.symm hc]

theorem endsWith_slash_strOfSegs (R : List Str) (hR : R ≠ [])
    (hw : ∀ s ∈ R, WfSeg s) :
    endsWith (str "/") (strOfSegs R) = false := by
  obtain ⟨a, c, heq, hc⟩ := strOfSegs_last_char R hR hw
  rw [heq]
  exact endsWith_slash_concat a c hc

theorem endsWith_slash_root : endsWith (str "/") (strOfSegs []) = true := by
  decide

theorem dropWhileC_cons_neg (c x : Char) (xs : Str) (hx : x ≠ c) :
    (x :: xs).dropWhile (fun y => y = c) = x :: xs := by
  rw [List.dropWhile_cons]
  simp [hx]

theorem lstripC_cons_neg (c x : Char) (xs : Str) (hx : x ≠ c) :
    lstripC c (x :: xs) = x :: xs := dropWhileC_cons_neg c x xs hx

theorem lstripC_joinSegs (S : List Str) (hw : ∀ s ∈ S, WfSeg s) :
    lstripC '/' (joinSegs S) = joinSegs S := by
  cases S with
  | nil => rfl
  | cons s S' =>
      obtain ⟨hs, hns⟩ := hw s (List.mem_cons_self s S')
      have hdec : ∃ r, joinSegs (s :: S') = s ++ r := by
        cases S' with
        | nil => exact ⟨[], by simp [joinSegs]⟩
        | cons t T => exact ⟨'/' :: joinSegs (t :: T), joinSegs_cons s (t :: T) (by simp)⟩
      obtain ⟨r, hr⟩ := hdec
      rcases s with _ | ⟨x, xs⟩
      · exact absurd rfl hs
      · have hx : x ≠ '/' := fun he => hns (by simp [he])
        rw [hr, List.cons_append]
        exact lstripC_cons_neg '/' x (xs ++ r) hx

theorem rstripC_strOfSegs (R : List Str) (hR : R ≠ [])
    (hw : ∀ s ∈ R, WfSeg s) :
    rstripC '/' (strOfSegs R) = strOfSegs R := by
  obtain ⟨a, c, heq, hc⟩ := strOfSegs_last_char R hR hw
  rw [heq, rstripC]
  rw [List.reverse_append]
  simp only [List.reverse_cons, List.reverse_nil, List.nil_append, List.singleton_append]
  rw [lstripC_cons_neg '/' c a.reverse hc]
  simp

theorem rstripC_root : rstripC '/' (strOfSegs []) = [] := by decide

/-! ### Lemmas about `pyFind` and path slicing -/

theorem findIdxC_none (l : Str) (c : Char) (h : c ∉ l) : findIdxC l c = none := by
  induction l with
  | nil => rfl
  | cons x xs ih =>
      rw [findIdxC, if_neg (fun he => h (List.mem_cons.mpr (Or.inl he.symm))),
        ih (fun hm => h (List.mem_cons_of_mem x hm))]
      rfl

theorem findIdxC_sep (s t : Str) (c : Char) (h : c ∉ s) :
    findIdxC (s ++ c :: t) c = some s.length := by
  induction s with
  | nil => simp [findIdxC]
  | cons x xs ih =>
      rw [List.cons_append, findIdxC,
        if_neg (fun he => h (List.mem_cons.mpr (Or.inl he.symm))),
        ih (fun hm => h (List.mem_cons_of_mem x hm))]
      simp

theorem drop_sep_left (P rest : Str) (n : Nat) (hn : n = P.length + 1) :
    (P ++ '/' :: rest).drop n = rest := by
  subst hn
  have : P ++ '/' :: rest = (P ++ ['/']) ++ rest := by simp
  rw [this]
  have hl : P.length + 1 = (P ++ ['/']).length := by simp
  rw [hl, List.drop_left]

theorem drop_at_sep (P rest : Str) (n : Nat) (hn : n = P.length) :
    (P ++ '/' :: rest).drop n = '/' :: rest := by
  subst hn
  exact List.drop_left P ('/' :: rest)

theorem take_at_sep (P rest : Str) (n : Nat) (hn : n = P.length) :
    (P ++ '/' :: rest).take n = P := by
  subst hn
  exact List.take_left P ('/' :: rest)

theorem pyFind_none_after (P t : Str) (h : '/' ∉ t) :
    pyFind (P ++ '/' :: t) '/' (P.length + 1) = none := by
  rw [pyFind, drop_sep_left P t _ rfl, findIdxC_none t '/' h]
  rfl

theorem pyFind_some_after (P s rest : Str) (h : '/' ∉ s) :
    pyFind (P ++ '/' :: (s ++ '/' :: rest)) '/' (P.length + 1)
      = some (P.length + 1 + s.length) := by
  rw [pyFind, drop_sep_left P _ _ rfl, findIdxC_sep s rest '/' h]
  rfl

theorem pyFind_none_two (s : Str) (h : '/' ∉ s) :
    pyFind ('/' :: s) '/' 2 = none := by
  rw [pyFind]
  have hd : ('/' :: s).drop 2 = s.drop 1 := by
    cases s with
    | nil => rfl
    | cons x xs => rfl
  rw [hd, findIdxC_none _ '/' (fun hm => h (List.drop_subset 1 s hm))]
  rfl

theorem pyFind_some_two (s rest : Str) (hs : s ≠ []) (h : '/' ∉ s) :
    pyFind ('/' :: (s ++ '/' :: rest)) '/' 2 = some (s.length + 1) := by
  cases s with
  | nil => exact absurd rfl hs
  | cons x xs =>
      rw [pyFind]
      have hd : ('/' :: ((x :: xs) ++ '/' :: rest)).drop 2 = xs ++ '/' :: rest := rfl
      rw [hd, findIdxC_sep xs rest '/' (fun hm => h (List.mem_cons_of_mem x hm))]
      simp only [Option.map, List.length_cons]
      congr 1
      omega

/-! ### Lemmas about `translate_path`, `osPathSplit` and the repo check -/

theorem mem_joinSegs (c : Char) (S : List Str) (h : c ∈ joinSegs S) :
    c = '/' ∨ ∃ s ∈ S, c ∈ s := by
  induction S with
  | nil => simp [joinSegs] at h
  | cons s S' ih =>
      cases S' with
      | nil =>
          simp only [joinSegs] at h
          exact Or.inr ⟨s, List.mem_cons_self s [], h⟩
      | cons t T =>
          rw [joinSegs_cons s (t :: T) (by simp)] at h
          rcases List.mem_append.mp h with hs | hrest
          · exact Or.inr ⟨s, List.mem_cons_self s _, hs⟩
          · rcases List.mem_cons.mp hrest with hc | hj
            · exact Or.inl hc
            · rcases ih hj with hc | ⟨u, hu, hcu⟩
              · exact Or.inl hc
              · exact Or.inr ⟨u, List.mem_cons_of_mem s hu, hcu⟩

theorem not_mem_strOfSegs (c : Char) (S : List Str) (hc : c ≠ '/')
    (h : ∀ s ∈ S, c ∉ s) : c ∉ strOfSegs S := by
  intro hmem
  rcases List.mem_cons.mp hmem with h1 | h2
  · exact hc h1
  · rcases mem_joinSegs c S h2 with h3 | ⟨s, hs, hcs⟩
    · exact hc h3
    · exact h s hs hcs

theorem firstOccurAux_single_none (c : Char) (p : Str) (h : c ∉ p) :
    ∀ i, firstOccurAux [c] p i = none := by
  induction p with
  | nil => intro i; rfl
  | cons x xs ih =>
      intro i
      rw [firstOccurAux]
      have hx : ([c] : Str).isPrefixOf (x :: xs) = false := by
        have hcx : (c == x) = false := by
          simp [List.mem_cons, not_or] at h
          simp [h.1]
        simp [List.isPrefixOf, hcx]
      rw [hx]
      simp only [Bool.false_eq_true, if_false]
      exact ih (fun hm => h (List.mem_cons_of_mem x hm)) (i + 1)

theorem firstOccur_single_none (c : Char) (p : Str) (h : c ∉ p) :
    firstOccur [c] p = none := firstOccurAux_single_none c p h 0

theorem beforeSub_single (p : Str) (c : Char) (h : c ∉ p) :
    beforeSub p [c] = p := by
  rw [beforeSub, pyPartition, firstOccur_single_none c p h]

theorem filter_no_dots (L : List Str) (h : ∀ s ∈ L, PSeg s) :
    L.filter (fun w => w ≠ str "." ∧ w ≠ str "..") = L := by
  induction L with
  | nil => rfl
  | cons s L' ih =>
      obtain ⟨_, _, _, hdot, hdots⟩ := h s (List.mem_cons_self s L')
      rw [List.filter_cons, if_pos (by simp [hdot, hdots]),
        ih (fun x hx => h x (List.mem_cons_of_mem s hx))]

theorem osPathJoin_strOfSegs (D : List Str) (s : Str) (hD : D ≠ [])
    (hw : ∀ x ∈ D, WfSeg x) :
    osPathJoin (strOfSegs D) s = strOfSegs D ++ '/' :: s := by
  rw [osPathJoin, if_neg (by simp [strOfSegs])]
  rw [endsWith_slash_strOfSegs D hD hw]
  simp

theorem foldl_osPathJoin (L : List Str) :
    ∀ D : List Str, D ≠ [] → (∀ x ∈ D, WfSeg x) → (∀ x ∈ L, WfSeg x) →
    L.foldl (fun acc w => osPathJoin acc w) (strOfSegs D) = strOfSegs (D ++ L) := by
  induction L with
  | nil => intro D _ _ _; simp
  | cons s L' ih =>
      intro D hD hDw hL
      rw [List.foldl_cons, osPathJoin_strOfSegs D s hD hDw]
      have h1 : strOfSegs D ++ '/' :: s = strOfSegs (D ++ [s]) := by
        rw [strOfSegs_append D [s] hD (by simp)]
        rfl
      rw [h1, ih (D ++ [s]) (by simp)
        (fun x hx => by
          rcases List.mem_append.mp hx with h2 | h3
          · exact hDw x h2
          · have : x = s := by simpa using h3
            exact this ▸ (hL s (List.mem_cons_self s L')))
        (fun x hx => hL x (List.mem_cons_of_mem s hx))]
      simp

theorem mem_splitAllC_not_sep (s : Str) (c : Char) :
    ∀ p ∈ splitAllC s c, c ∉ p := by
  induction s with
  | nil =>
      intro p hp
      simp only [splitAllC, List.mem_singleton] at hp
      simp [hp]
  | cons x xs ih =>
      intro p hp
      rw [splitAllC_cons] at hp
      by_cases hx : x = c
      · rw [if_pos hx] at hp
        rcases List.mem_cons.mp hp with h1 | h2
        · simp [h1]
        · exact ih p h2
      · rw [if_neg hx] at hp
        cases hsc : splitAllC xs c with
        | nil => exact absurd hsc (splitAllC_ne_nil xs c)
        | cons q qs =>
            rw [hsc] at hp
            rcases List.mem_cons.mp hp with h1 | h2
            · subst h1
              intro hm
              rcases List.mem_cons.mp hm with h3 | h4
              · exact hx h3.symm
              · exact ih q (hsc ▸ List.mem_cons_self q qs) h4
            · exact ih p (hsc ▸ List.mem_cons_of_mem q h2)

theorem segsOf_wf (p : Str) : ∀ x ∈ segsOf p, WfSeg x := by
  intro x hx
  rw [segsOf] at hx
  have h1 := List.mem_filter.mp hx
  refine ⟨by simpa using h1.2, mem_splitAllC_not_sep p '/' x h1.1⟩

theorem translate_path_general (D : List Str) (p : Str) (hD : D ≠ [])
    (hDw : ∀ x ∈ D, WfSeg x) (hq : '?' ∉ p) (hh : '#' ∉ p)
    (hdots : ∀ x ∈ segsOf p, x ≠ str "." ∧ x ≠ str "..") :
    translate_path (strOfSegs D) p = strOfSegs (D ++ segsOf p) := by
  rw [translate_path]
  have hq1 : str "?" = ['?'] := rfl
  have hh1 : str "#" = ['#'] := rfl
  have hq2 : beforeSub p (str "?") = p := by
    rw [hq1]; exact beforeSub_single p '?' hq
  have hh2 : beforeSub p (str "#") = p := by
    rw [hh1]; exact beforeSub_single p '#' hh
  rw [hq2, hh2]
  have hfil : (segsOf p).filter (fun w => w ≠ str "." ∧ w ≠ str "..") = segsOf p := by
    apply List.filter_eq_self.mpr
    intro x hx
    simp [hdots x hx]
  rw [hfil]
  exact foldl_osPathJoin (segsOf p) D hD hDw (segsOf_wf p)

theorem takeWhile_until_sepC (c : Char) (t r : Str) (h : c ∉ t) :
    (t ++ c :: r).takeWhile (fun x => x ≠ c) = t := by
  induction t with
  | nil =>
      rw [List.nil_append, List.takeWhile_cons]
      simp
  | cons x xs ih =>
      rw [List.cons_append, List.takeWhile_cons]
      have hx : x ≠ c := fun he => h (List.mem_cons.mpr (Or.inl he.symm))
      rw [if_pos (by simp [hx]), ih (fun hm => h (List.mem_cons_of_mem x hm))]

theorem takeWhile_until_sep (t r : Str) (h : '/' ∉ t) :
    (t ++ '/' :: r).takeWhile (fun x => x ≠ '/') = t :=
  takeWhile_until_sepC '/' t r h

theorem osPathSplit_strOfSegs (M : List Str) (s : Str)
    (hw : ∀ x ∈ M, WfSeg x) (hs : WfSeg s) :
    osPathSplit (strOfSegs (M ++ [s])) = (strOfSegs M, s) := by
  cases M with
  | nil =>
      rw [osPathSplit]
      have hp : strOfSegs ([] ++ [s]) = ('/' : Char) :: s := rfl
      have hrev : (('/' : Char) :: s).reverse = s.reverse ++ '/' :: [] := by simp
      have htail : ((('/' : Char) :: s).reverse.takeWhile (fun x => x ≠ '/')).reverse = s := by
        rw [hrev, takeWhile_until_sep s.reverse [] (by simp [hs.2])]
        simp
      simp only [hp, htail]
      have hlen : (('/' : Char) :: s).length - s.length = 1 := by simp
      rw [hlen]
      have htake : (('/' : Char) :: s).take 1 = ['/'] := by simp
      rw [htake]
      simp [strOfSegs, joinSegs]
  | cons m M' =>
      set Mf := m :: M' with hMf
      have hMne : Mf ≠ [] := by simp [hMf]
      rw [osPathSplit]
      have hp : strOfSegs (Mf ++ [s]) = strOfSegs Mf ++ '/' :: s :=
        strOfSegs_append Mf [s] hMne (by simp)
      have hrev : (strOfSegs Mf ++ '/' :: s).reverse
          = s.reverse ++ '/' :: (strOfSegs Mf).reverse := by simp
      have htail : ((strOfSegs (Mf ++ [s])).reverse.takeWhile (fun x => x ≠ '/')).reverse
          = s := by
        rw [hp, hrev, takeWhile_until_sep s.reverse _ (by simp [hs.2])]
        simp
      rw [htail]
      have hlen : (strOfSegs (Mf ++ [s])).length - s.length
          = (strOfSegs Mf).length + 1 := by
        rw [hp]
        simp only [List.length_append, List.length_cons]
        omega
      rw [hlen]
      have htake : (strOfSegs (Mf ++ [s])).take ((strOfSegs Mf).length + 1)
          = strOfSegs Mf ++ ['/'] := by
        rw [hp]
        have : strOfSegs Mf ++ '/' :: s = (strOfSegs Mf ++ ['/']) ++ s := by simp
        rw [this]
        have hl : (strOfSegs Mf).length + 1 = (strOfSegs Mf ++ ['/']).length := by simp
        rw [hl, List.take_left]
      rw [htake]
      obtain ⟨a, c, heq, hc⟩ := strOfSegs_last_char Mf hMne hw
      have hcond : (strOfSegs Mf ++ ['/'] ≠ [] ∧
          (strOfSegs Mf ++ ['/']).any (fun x => x ≠ '/')) := by
        constructor
        · simp
        · rw [List.any_append]
          have h5 : (strOfSegs Mf).any (fun x => x ≠ '/') = true := by
            rw [heq, List.any_append]
            have h6 : ([c] : Str).any (fun x => x ≠ '/') = true := by simp [hc]
            rw [h6]
            simp
          rw [h5]
          simp
      rw [if_pos hcond]
      have hstrip : rstripC '/' (strOfSegs Mf ++ ['/']) = strOfSegs Mf := by
        rw [rstripC, List.reverse_append]
        simp only [List.reverse_cons, List.reverse_nil, List.nil_append,
          List.singleton_append]
        have : lstripC '/' ('/' :: (strOfSegs Mf).reverse)
            = lstripC '/' (strOfSegs Mf).reverse := by
          rw [lstripC, List.dropWhile_cons]
          simp [lstripC]
        rw [this]
        have hrev2 : (strOfSegs Mf).reverse = c :: a.reverse := by simp [heq]
        rw [hrev2, lstripC_cons_neg '/' c a.reverse hc, ← hrev2]
        simp
      rw [hstrip]

theorem is_repo_strOfSegs (fs : FS) (M : List Str) (hw : ∀ x ∈ M, WfSeg x) :
    is_repo fs (strOfSegs M) = isRepoSegs fs M := by
  rw [is_repo, isRepoSegs]
  cases M with
  | nil =>
      have h1 : osPathJoin (strOfSegs []) (str "HEAD") = ('/' : Char) :: str "HEAD" := by decide
      have h2 : osPathJoin (strOfSegs []) (str "refs/heads")
          = ('/' : Char) :: str "refs/heads" := by decide
      rw [h1, h2]
      have h3 : segsOf (('/' : Char) :: str "HEAD") = [str "HEAD"] := by decide
      have h4 : segsOf (('/' : Char) :: str "refs/heads") = [str "refs", str "heads"] := by
        decide
      rw [isFileStr, isDirStr, h3, h4]
      simp
  | cons m M' =>
      set Mf := m :: M' with hMf
      have hMne : Mf ≠ [] := by simp [hMf]
      rw [osPathJoin_strOfSegs Mf _ hMne hw, osPathJoin_strOfSegs Mf _ hMne hw]
      rw [isFileStr, isDirStr, segsOf_append_sep, segsOf_append_sep,
        segsOf_strOfSegs Mf hw]
      have h3 : segsOf (str "HEAD") = [str "HEAD"] := by decide
      have h4 : segsOf (str "refs/heads") = [str "refs", str "heads"] := by decide
      rw [h3, h4]

theorem isDirStr_strOfSegs (fs : FS) (M : List Str) (hw : ∀ x ∈ M, WfSeg x) :
    isDirStr fs (strOfSegs M) = fs.isDir M := by
  rw [isDirStr, segsOf_strOfSegs M hw]

theorem lstripC_cons_pos (c : Char) (x : Str) :
    lstripC c (c :: x) = lstripC c x := by
  rw [lstripC, List.dropWhile_cons]
  simp [lstripC]

theorem segsOf_slash : segsOf ['/'] = [] := by decide

theorem segsOf_append_seg (P s : Str) (hs : WfSeg s) :
    segsOf (P ++ '/' :: s) = segsOf P ++ [s] := by
  rw [segsOf_append_sep, segsOf_no_slash s hs.2, if_neg hs.1]

theorem endsWith_slash_of_seg (a s : Str) (hs : WfSeg s) :
    endsWith (str "/") (a ++ s) = false := by
  rcases List.eq_nil_or_concat s with hnil | ⟨s', c, hc⟩
  · exact absurd hnil hs.1
  · rw [List.concat_eq_append] at hc
    have hcm : c ≠ '/' := by
      intro he
      exact hs.2 (hc ▸ List.mem_append_right s' (by simp [he]))
    rw [hc, ← List.append_assoc]
    exact endsWith_slash_concat (a ++ s') c hcm

theorem joinSegs_length_ge (S : List Str) (hw : ∀ s ∈ S, WfSeg s) :
    S.length ≤ (joinSegs S).length + 1 := by
  induction S with
  | nil => simp
  | cons s S' ih =>
      cases S' with
      | nil => simp [joinSegs]
      | cons t T =>
          rw [joinSegs_cons s (t :: T) (by simp)]
          have h1 := ih (fun x hx => hw x (List.mem_cons_of_mem s hx))
          have h2 : s.length ≥ 1 := by
            have := (hw s (List.mem_cons_self s _)).1
            cases s with
            | nil => exact absurd rfl this
            | cons a b => simp
          simp only [List.length_append, List.length_cons] at h1 ⊢
          omega

theorem not_mem_append_seg (c : Char) (P s : Str) (hP : c ∉ P) (hs : c ∉ s)
    (hc : c ≠ '/') : c ∉ P ++ '/' :: s := by
  intro hm
  rcases List.mem_append.mp hm with h1 | h2
  · exact hP h1
  · rcases List.mem_cons.mp h2 with h3 | h4
    · exact hc h3
    · exact hs h4

/-- Main characterisation of the `find_repo` while loop: starting from an
aligned state, the loop computes exactly the segment-level resolution
`resolveSegs`.  The current `lhs` is abstracted as `P` because a fake
component consumed while `lhs = "/"` leaves a doubled slash in `path`,
after which `lhs` carries one extra leading slash; the final conjunct
recovers the exact string form whenever that corner is excluded. -/
theorem findRepoLoop_spec (fs : FS) (D : List Str) (af : Bool)
    (hD : D ≠ []) (hDw : ∀ x ∈ D, WfSeg x)
    (hafD : af = true → fs.isDir D = true ∧ isRepoSegs fs D = false)
    (S : List Str) :
    ∀ (P : Str) (R F : List Str) (fuel : Nat) (rhs path : Str),
      (∀ x ∈ R, PSeg x) →
      (∀ x ∈ S.dropLast, PSeg x) →
      (∀ x ∈ S, WfSeg x) →
      (af = true → R ≠ [] → fs.isDir (D ++ R) = true ∧ isRepoSegs fs (D ++ R) = false) →
      S.length ≤ fuel →
      lstripC '/' rhs = joinSegs S →
      segsOf P = R →
      '?' ∉ P → '#' ∉ P → P ≠ [] →
      (R = [] → P = ['/']) →
      (R ≠ [] → endsWith (str "/") P = false) →
      (path = P ++ '/' :: joinSegs S ∨ (R = [] ∧ P = ['/'] ∧ path = '/' :: joinSegs S)) →
      ∃ Pf rhsF,
        findRepoLoop fs (strOfSegs D) af fuel P rhs (fakesStr F) path
          = (Pf, rhsF, fakesStr (resolveSegs fs D af R F S).2.1)
        ∧ segsOf Pf = (resolveSegs fs D af R F S).1
        ∧ ((resolveSegs fs D af R F S).1 = [] → Pf = ['/'])
        ∧ ((resolveSegs fs D af R F S).1 ≠ [] → endsWith (str "/") Pf = false)
        ∧ Pf ≠ []
        ∧ '?' ∉ Pf ∧ '#' ∉ Pf
        ∧ lstripC '/' rhsF = joinSegs (resolveSegs fs D af R F S).2.2
        ∧ ((P = strOfSegs R ∧ (R = [] → path = '/' :: joinSegs S) ∧
             (af = true → R = [] → 2 ≤ S.length → fs.isDir (D ++ S.take 1) = true))
            → Pf = strOfSegs (resolveSegs fs D af R F S).1) := by
  induction S with
  | nil =>
      intro P R F fuel rhs path hR hSd hSw hRdir hfuel hrhs hsegP hq hh hPne hPr hPe hpath
      have hres : resolveSegs fs D af R F [] = (R, F, []) := by simp [resolveSegs]
      have hdone : findRepoLoop fs (strOfSegs D) af fuel P rhs (fakesStr F) path
          = (P, rhs, fakesStr F) := by
        cases fuel with
        | zero => simp [findRepoLoop]
        | succ fuel' =>
            have hfind : pyFind path '/' (P.length + 1) = none := by
              rcases hpath with hA | ⟨hR0, hP0, hB⟩
              · have hA' : path = P ++ '/' :: ([] : Str) := by rw [hA]; rfl
                rw [hA']
                exact pyFind_none_after P [] (by simp)
              · have hB' : path = ('/' : Char) :: ([] : Str) := by rw [hB]; rfl
                rw [hB', hP0]
                exact pyFind_none_two [] (by simp)
            simp [findRepoLoop, hfind]
      rw [hdone, hres]
      exact ⟨P, rhs, rfl, hsegP, hPr, hPe, hPne, hq, hh, hrhs, fun hpre => hpre.1⟩
  | cons s S2 ih =>
      cases S2 with
      | nil =>
          intro P R F fuel rhs path hR hSd hSw hRdir hfuel hrhs hsegP hq hh hPne hPr hPe hpath
          have hres : resolveSegs fs D af R F [s] = (R, F, [s]) := by simp [resolveSegs]
          have hs : WfSeg s := hSw s (List.mem_cons_self s [])
          have hdone : findRepoLoop fs (strOfSegs D) af fuel P rhs (fakesStr F) path
              = (P, rhs, fakesStr F) := by
            cases fuel with
            | zero => simp [findRepoLoop]
            | succ fuel' =>
                have hfind : pyFind path '/' (P.length + 1) = none := by
                  rcases hpath with hA | ⟨hR0, hP0, hB⟩
                  · have hA' : path = P ++ '/' :: s := by rw [hA]; rfl
                    rw [hA']
                    exact pyFind_none_after P s hs.2
                  · have hB' : path = ('/' : Char) :: s := by rw [hB]; rfl
                    rw [hB', hP0]
                    exact pyFind_none_two s hs.2
                simp [findRepoLoop, hfind]
          rw [hdone, hres]
          exact ⟨P, rhs, rfl, hsegP, hPr, hPe, hPne, hq, hh, hrhs, fun hpre => hpre.1⟩
      | cons t T =>
          intro P R F fuel rhs path hR hSd hSw hRdir hfuel hrhs hsegP hq hh hPne hPr hPe hpath
          have hS'ne : (t :: T : List Str) ≠ [] := by simp
          have hjoin : joinSegs (s :: t :: T) = s ++ '/' :: joinSegs (t :: T) :=
            joinSegs_cons s (t :: T) hS'ne
          have hsP : PSeg s := by
            apply hSd
            rw [List.dropLast_cons₂]
            exact List.mem_cons_self s _
          have hs : WfSeg s := hsP.1
          have hSd' : ∀ x ∈ (t :: T).dropLast, PSeg x := by
            intro x hx
            apply hSd
            rw [List.dropLast_cons₂]
            exact List.mem_cons_of_mem s hx
          have hSw' : ∀ x ∈ t :: T, WfSeg x := fun x hx => hSw x (List.mem_cons_of_mem s hx)
          obtain ⟨fuel', rfl⟩ : ∃ fuel'', fuel = fuel'' + 1 := by
            cases fuel with
            | zero => simp at hfuel
            | succ n => exact ⟨n, rfl⟩
          have hfuel' : (t :: T : List Str).length ≤ fuel' := by
            simp only [List.length_cons] at hfuel ⊢
            omega
          have hDRs : ∀ x ∈ D ++ R ++ [s], WfSeg x := by
            intro x hx
            rcases List.mem_append.mp hx with h1 | h2
            · rcases List.mem_append.mp h1 with h3 | h4
              · exact hDw x h3
              · exact (hR x h4).1
            · have : x = s := by simpa using h2
              exact this ▸ hs
          have hDR : ∀ x ∈ D ++ R, WfSeg x := by
            intro x hx
            rcases List.mem_append.mp hx with h1 | h2
            · exact hDw x h1
            · exact (hR x h2).1
          -- unified facts about the probe step
          obtain ⟨P2, hpath2, hfind, hsegP2, hq2, hh2, hP2ne, hP2ends, hexact2⟩ :
              ∃ P2 : Str, path = P2 ++ '/' :: joinSegs (t :: T)
                ∧ pyFind path '/' (P.length + 1) = some P2.length
                ∧ segsOf P2 = R ++ [s]
                ∧ '?' ∉ P2 ∧ '#' ∉ P2 ∧ P2 ≠ []
                ∧ endsWith (str "/") P2 = false
                ∧ ((P = strOfSegs R ∧
                      (R = [] → path = '/' :: joinSegs (s :: t :: T)))
                    → P2 = strOfSegs (R ++ [s])) := by
            rcases hpath with hA | ⟨hR0, hP0, hB⟩
            · refine ⟨P ++ '/' :: s, ?_, ?_, ?_, ?_, ?_, by simp, ?_, ?_⟩
              · rw [hA, hjoin]
                simp
              · have h1 : path = P ++ '/' :: (s ++ '/' :: joinSegs (t :: T)) := by
                  rw [hA, hjoin]
                have h2 := pyFind_some_after P s (joinSegs (t :: T)) hs.2
                rw [h1, h2]
                congr 1
                simp only [List.length_append, List.length_cons]
                omega
              · rw [segsOf_append_seg P s hs, hsegP]
              · exact not_mem_append_seg '?' P s hq hsP.2.1 (by decide)
              · exact not_mem_append_seg '#' P s hh hsP.2.2.1 (by decide)
              · have : P ++ '/' :: s = (P ++ ['/']) ++ s := by simp
                rw [this]
                exact endsWith_slash_of_seg (P ++ ['/']) s hs
              · rintro ⟨hPex, hRB⟩
                by_cases hRnil : R = []
                · exfalso
                  have h1 : P = ['/'] := hPr hRnil
                  have h2 := hRB hRnil
                  rw [hA, h1] at h2
                  have := congrArg List.length h2
                  simp at this
                · rw [hPex, strOfSegs_append R [s] hRnil (by simp)]
                  rfl
            · refine ⟨'/' :: s, ?_, ?_, ?_, ?_, ?_, by simp, ?_, ?_⟩
              · rw [hB, hjoin]
                rfl
              · have h1 : path = ('/' : Char) :: (s ++ '/' :: joinSegs (t :: T)) := by
                  rw [hB, hjoin]
                have h2 := pyFind_some_two s (joinSegs (t :: T)) hs.1 hs.2
                rw [h1, hP0]
                have h3 : (['/'] : Str).length + 1 = 2 := by decide
                rw [h3, h2]
                simp
              · have h1 : ('/' : Char) :: s = ([] : Str) ++ '/' :: s := rfl
                rw [h1, segsOf_append_seg [] s hs, hR0]
                rfl
              · intro hm
                rcases List.mem_cons.mp hm with h1 | h2
                · exact absurd h1 (by decide)
                · exact hsP.2.1 h2
              · intro hm
                rcases List.mem_cons.mp hm with h1 | h2
                · exact absurd h1 (by decide)
                · exact hsP.2.2.1 h2
              · have h1 : ('/' : Char) :: s = (['/'] : Str) ++ s := rfl
                rw [h1]
                exact endsWith_slash_of_seg ['/'] s hs
              · intro _
                simp [hR0, strOfSegs, joinSegs]
          have htake : path.take P2.length = P2 := by
            rw [hpath2]
            exact take_at_sep P2 _ _ rfl
          have hdropn : path.drop (P2.length + 1) = joinSegs (t :: T) := by
            rw [hpath2]
            exact drop_sep_left P2 _ _ rfl
          have hdropi : path.drop P2.length = '/' :: joinSegs (t :: T) := by
            rw [hpath2]
            exact drop_at_sep P2 _ _ rfl
          have hdots : ∀ x ∈ segsOf P2, x ≠ str "." ∧ x ≠ str ".." := by
            intro x hx
            rw [hsegP2] at hx
            rcases List.mem_append.mp hx with h1 | h2
            · exact ⟨(hR x h1).2.2.2.1, (hR x h1).2.2.2.2⟩
            · have : x = s := by simpa using h2
              exact this ▸ ⟨hsP.2.2.2.1, hsP.2.2.2.2⟩
          have hcand : translate_path (strOfSegs D) P2 = strOfSegs (D ++ R ++ [s]) := by
            rw [translate_path_general D P2 hD hDw hq2 hh2 hdots, hsegP2,
              List.append_assoc]
          have hcandDir : isDirStr fs (strOfSegs (D ++ R ++ [s])) = fs.isDir (D ++ R ++ [s]) :=
            isDirStr_strOfSegs fs _ hDRs
          have hcandRepo : is_repo fs (strOfSegs (D ++ R ++ [s])) = isRepoSegs fs (D ++ R ++ [s]) :=
            is_repo_strOfSegs fs _ hDRs
          by_cases hdir : fs.isDir (D ++ R ++ [s]) = true
          · by_cases hrep : isRepoSegs fs (D ++ R ++ [s]) = true
            · -- halt: existing repository
              have hdirA : fs.isDir (D ++ (R ++ [s])) = true := by
                rw [← List.append_assoc]; exact hdir
              have hrepA : isRepoSegs fs (D ++ (R ++ [s])) = true := by
                rw [← List.append_assoc]; exact hrep
              have hres : resolveSegs fs D af R F (s :: t :: T) = (R, F, s :: t :: T) := by
                simp [resolveSegs, hdirA, hrepA]
              have hstep : findRepoLoop fs (strOfSegs D) af (fuel' + 1) P rhs (fakesStr F) path
                  = (P, rhs, fakesStr F) := by
                rw [findRepoLoop, hfind]
                simp only [htake, hcand, hcandDir, hcandRepo, hdir, hrep]
                simp
              rw [hstep, hres]
              exact ⟨P, rhs, rfl, hsegP, hPr, hPe, hPne, hq, hh, hrhs, fun hpre => hpre.1⟩
            · -- advance past an existing non-repo directory
              have hdirA : fs.isDir (D ++ (R ++ [s])) = true := by
                rw [← List.append_assoc]; exact hdir
              have hrepA : isRepoSegs fs (D ++ (R ++ [s])) = false := by
                rw [← List.append_assoc]; exact (Bool.not_eq_true _).mp hrep
              have hres : resolveSegs fs D af R F (s :: t :: T)
                  = resolveSegs fs D af (R ++ [s]) F (t :: T) := by
                simp [resolveSegs, hdirA, hrepA]
              have hstep : findRepoLoop fs (strOfSegs D) af (fuel' + 1) P rhs (fakesStr F) path
                  = findRepoLoop fs (strOfSegs D) af fuel' P2 (joinSegs (t :: T)) (fakesStr F) path := by
                rw [findRepoLoop, hfind]
                simp only [htake, hdropn, hcand, hcandDir, hcandRepo, hdir, hrep]
                simp
              obtain ⟨Pf, rhsF, heq, hseg, hnil, hends, hne, hqf, hhf, hrhsf, hex⟩ :=
                ih P2 (R ++ [s]) F fuel' (joinSegs (t :: T)) path
                  (by
                    intro x hx
                    rcases List.mem_append.mp hx with h1 | h2
                    · exact hR x h1
                    · have : x = s := by simpa using h2
                      exact this ▸ hsP)
                  hSd' hSw'
                  (by
                    intro _ _
                    constructor
                    · rw [← List.append_assoc]
                      exact hdir
                    · rw [← List.append_assoc]
                      exact (Bool.not_eq_true _).mp hrep)
                  hfuel'
                  (lstripC_joinSegs (t :: T) hSw')
                  hsegP2 hq2 hh2 hP2ne
                  (by intro habs; simp at habs)
                  (fun _ => hP2ends)
                  (Or.inl hpath2)
              rw [hstep, hres]
              refine ⟨Pf, rhsF, heq, hseg, hnil, hends, hne, hqf, hhf, hrhsf, ?_⟩
              rintro ⟨hPex, hRB, _⟩
              exact hex ⟨hexact2 ⟨hPex, hRB⟩, by simp, by simp⟩
          · by_cases haf : af = true
            · -- fake: accumulate the missing segment and continue
              have hdirA : fs.isDir (D ++ (R ++ [s])) = false := by
                rw [← List.append_assoc]; exact (Bool.not_eq_true _).mp hdir
              have hres : resolveSegs fs D af R F (s :: t :: T)
                  = resolveSegs fs D af R (F ++ [s]) (t :: T) := by
                simp [resolveSegs, hdirA, haf]
              have hparent : fs.isDir (D ++ R) = true ∧ isRepoSegs fs (D ++ R) = false := by
                by_cases hRnil : R = []
                · rw [hRnil]
                  simpa using hafD haf
                · exact hRdir haf hRnil
              have hsplit : osPathSplit (strOfSegs (D ++ R ++ [s])) = (strOfSegs (D ++ R), s) := by
                have h1 : (D ++ R ++ [s] : List Str) = (D ++ R) ++ [s] := by simp
                rw [h1]
                exact osPathSplit_strOfSegs (D ++ R) s hDR hs
              have hparDir : isDirStr fs (strOfSegs (D ++ R)) = fs.isDir (D ++ R) :=
                isDirStr_strOfSegs fs _ hDR
              have hparRepo : is_repo fs (strOfSegs (D ++ R)) = isRepoSegs fs (D ++ R) :=
                is_repo_strOfSegs fs _ hDR
              have hfakes : fakesStr F ++ '/' :: s = fakesStr (F ++ [s]) :=
                (fakesStr_append_single F s).symm
              have hstep : findRepoLoop fs (strOfSegs D) af (fuel' + 1) P rhs (fakesStr F) path
                  = findRepoLoop fs (strOfSegs D) af fuel' P (joinSegs (t :: T))
                      (fakesStr (F ++ [s])) (P ++ '/' :: joinSegs (t :: T)) := by
                rw [findRepoLoop, hfind]
                simp only [htake, hdropn, hdropi, hcand, hcandDir, hcandRepo, hdir,
                  hsplit, hparDir, hparRepo, hparent.1, hparent.2, haf, hfakes]
                simp
              obtain ⟨Pf, rhsF, heq, hseg, hnil, hends, hne, hqf, hhf, hrhsf, hex⟩ :=
                ih P R (F ++ [s]) fuel' (joinSegs (t :: T)) (P ++ '/' :: joinSegs (t :: T))
                  hR hSd' hSw' hRdir hfuel'
                  (lstripC_joinSegs (t :: T) hSw')
                  hsegP hq hh hPne hPr hPe
                  (Or.inl rfl)
              rw [hstep, hres]
              refine ⟨Pf, rhsF, heq, hseg, hnil, hends, hne, hqf, hhf, hrhsf, ?_⟩
              rintro ⟨hPex, hRB, hE⟩
              by_cases hRnil : R = []
              · exfalso
                have h1 : fs.isDir (D ++ [s]) = true := by
                  have := hE haf hRnil (by simp)
                  simpa using this
                have h2 : (D ++ [s] : List Str) = D ++ R ++ [s] := by simp [hRnil]
                rw [h2] at h1
                exact hdir h1
              · exact hex ⟨hPex, by simp [hRnil], by simp [hRnil]⟩
            · -- missing and fake mode off: halt
              have hafF : af = false := by
                cases af
                · rfl
                · exact absurd rfl haf
              have hdirA : fs.isDir (D ++ (R ++ [s])) = false := by
                rw [← List.append_assoc]; exact (Bool.not_eq_true _).mp hdir
              have hres : resolveSegs fs D af R F (s :: t :: T) = (R, F, s :: t :: T) := by
                simp [resolveSegs, hdirA, hafF]
              have hstep : findRepoLoop fs (strOfSegs D) af (fuel' + 1) P rhs (fakesStr F) path
                  = (P, rhs, fakesStr F) := by
                rw [findRepoLoop, hfind]
                simp only [htake, hcand, hcandDir, hcandRepo, hdir, hafF]
                simp
              rw [hstep, hres]
              exact ⟨P, rhs, rfl, hsegP, hPr, hPe, hPne, hq, hh, hrhs, fun hpre => hpre.1⟩

theorem fakesStr_eq (F : List Str) (hF : F ≠ []) : fakesStr F = '/' :: joinSegs F := by
  induction F with
  | nil => exact absurd rfl hF
  | cons f F' ih =>
      cases F' with
      | nil => simp [fakesStr, joinSegs]
      | cons g G =>
          rw [fakesStr, ih (by simp), joinSegs_cons f (g :: G) (by simp)]
          simp

theorem resolveSegs_mem (fs : FS) (D : List Str) (af : Bool) :
    ∀ S R F : List Str,
      (∀ x ∈ (resolveSegs fs D af R F S).1, x ∈ R ∨ x ∈ S)
      ∧ (∀ x ∈ (resolveSegs fs D af R F S).2.1, x ∈ F ∨ x ∈ S)
      ∧ (∀ x ∈ (resolveSegs fs D af R F S).2.2, x ∈ S) := by
  intro S
  induction S with
  | nil =>
      intro R F
      simp [resolveSegs]
  | cons s S2 ihS =>
      intro R F
      cases S2 with
      | nil =>
          simp only [resolveSegs]
          exact ⟨fun x hx => Or.inl hx, fun x hx => Or.inl hx, fun x hx => hx⟩
      | cons t T =>
          by_cases hdir : fs.isDir (D ++ (R ++ [s])) = true
          · by_cases hrep : isRepoSegs fs (D ++ (R ++ [s])) = true
            · have hres : resolveSegs fs D af R F (s :: t :: T) = (R, F, s :: t :: T) := by
                simp [resolveSegs, hdir, hrep]
              rw [hres]
              exact ⟨fun x hx => Or.inl hx, fun x hx => Or.inl hx, fun x hx => hx⟩
            · have hres : resolveSegs fs D af R F (s :: t :: T)
                  = resolveSegs fs D af (R ++ [s]) F (t :: T) := by
                simp [resolveSegs, hdir, hrep]
              rw [hres]
              obtain ⟨ih1, ih2, ih3⟩ := ihS (R ++ [s]) F
              refine ⟨fun x hx => ?_, fun x hx => ?_, fun x hx => ?_⟩
              · rcases ih1 x hx with h1 | h2
                · rcases List.mem_append.mp h1 with h3 | h4
                  · exact Or.inl h3
                  · exact Or.inr (by simp [List.mem_cons]; left; simpa using h4)
                · exact Or.inr (List.mem_cons_of_mem s h2)
              · rcases ih2 x hx with h1 | h2
                · exact Or.inl h1
                · exact Or.inr (List.mem_cons_of_mem s h2)
              · exact List.mem_cons_of_mem s (ih3 x hx)
          · by_cases haf : af = true
            · have hres : resolveSegs fs D af R F (s :: t :: T)
                  = resolveSegs fs D af R (F ++ [s]) (t :: T) := by
                simp [resolveSegs, hdir, haf]
              rw [hres]
              obtain ⟨ih1, ih2, ih3⟩ := ihS R (F ++ [s])
              refine ⟨fun x hx => ?_, fun x hx => ?_, fun x hx => ?_⟩
              · rcases ih1 x hx with h1 | h2
                · exact Or.inl h1
                · exact Or.inr (List.mem_cons_of_mem s h2)
              · rcases ih2 x hx with h1 | h2
                · rcases List.mem_append.mp h1 with h3 | h4
                  · exact Or.inl h3
                  · exact Or.inr (by simp [List.mem_cons]; left; simpa using h4)
                · exact Or.inr (List.mem_cons_of_mem s h2)
              · exact List.mem_cons_of_mem s (ih3 x hx)
            · have hafF : af = false := by
                cases af
                · rfl
                · exact absurd rfl haf
              have hres : resolveSegs fs D af R F (s :: t :: T) = (R, F, s :: t :: T) := by
                simp [resolveSegs, hdir, hafF]
              rw [hres]
              exact ⟨fun x hx => Or.inl hx, fun x hx => Or.inl hx, fun x hx => hx⟩

theorem resolveSegs_strict_fakes (fs : FS) (D : List Str) :
    ∀ S R F : List Str, (resolveSegs fs D false R F S).2.1 = F := by
  intro S
  induction S with
  | nil => intro R F; simp [resolveSegs]
  | cons s S2 ihS =>
      intro R F
      cases S2 with
      | nil => simp [resolveSegs]
      | cons t T =>
          by_cases hdir : fs.isDir (D ++ (R ++ [s])) = true
          · by_cases hrep : isRepoSegs fs (D ++ (R ++ [s])) = true
            · simp [resolveSegs, hdir, hrep]
            · have hres : resolveSegs fs D false R F (s :: t :: T)
                  = resolveSegs fs D false (R ++ [s]) F (t :: T) := by
                simp [resolveSegs, hdir, hrep]
              rw [hres]
              exact ihS (R ++ [s]) F
          · simp [resolveSegs, hdir]

theorem lstripC_fakesStr (F : List Str) (hwf : ∀ x ∈ F, WfSeg x) :
    lstripC '/' (fakesStr F) = joinSegs F := by
  cases hF : F with
  | nil => rfl
  | cons f F' =>
      rw [← hF, fakesStr_eq F (by simp [hF]), lstripC_cons_pos, lstripC_joinSegs F hwf]

theorem assemble_root (Pf : Str) (R' F' : List Str)
    (hseg : segsOf Pf = R') (hnil : R' = [] → Pf = ['/'])
    (hends : R' ≠ [] → endsWith (str "/") Pf = false)
    (hwfF : ∀ x ∈ F', WfSeg x) :
    segsOf (Pf ++ (if endsWith (str "/") Pf then lstripC '/' (fakesStr F')
        else fakesStr F')) = R' ++ F' := by
  by_cases hR : R' = []
  · rw [hnil hR]
    have h1 : endsWith (str "/") (['/'] : Str) = true := by decide
    rw [if_pos h1, lstripC_fakesStr F' hwfF]
    by_cases hF : F' = []
    · subst hR; subst hF
      simp [joinSegs, segsOf_slash]
    · have h2 : (['/'] : Str) ++ joinSegs F' = strOfSegs F' := rfl
      rw [h2, segsOf_strOfSegs F' hwfF, hR]
      rfl
  · rw [if_neg (by simp [hends hR])]
    by_cases hF : F' = []
    · subst hF
      simp [fakesStr, hseg]
    · rw [fakesStr_eq F' hF, segsOf_append_sep, hseg, segsOf_joinSegs F' hwfF]

theorem assemble_root_exact (R' F' : List Str)
    (hwfR : ∀ x ∈ R', WfSeg x) (hwfF : ∀ x ∈ F', WfSeg x) :
    strOfSegs R' ++ (if endsWith (str "/") (strOfSegs R') then lstripC '/' (fakesStr F')
        else fakesStr F') = strOfSegs (R' ++ F') := by
  by_cases hR : R' = []
  · rw [hR]
    have h1 : endsWith (str "/") (strOfSegs []) = true := by decide
    rw [if_pos h1, lstripC_fakesStr F' hwfF]
    rfl
  · rw [if_neg (by simp [endsWith_slash_strOfSegs R' hR hwfR])]
    by_cases hF : F' = []
    · subst hF
      simp [fakesStr]
    · rw [fakesStr_eq F' hF, strOfSegs_append R' F' hR hF]

/-- Characterisation of `find_repo` in its single-argument form
(`rhs=None` in the source): the returned root consists of the consumed
real segments followed by the accumulated fake segments, and the returned
tail is the unconsumed remainder rendered without a leading slash.  When
the corner producing a doubled slash is excluded (hypothesis of the last
conjunct), the root string is exactly `strOfSegs` of those segments. -/
theorem find_repo_spec1 (fs : FS) (D : List Str) (af : Bool) (segs : List Str)
    (hD : D ≠ []) (hDw : ∀ x ∈ D, WfSeg x)
    (hafD : af = true → fs.isDir D = true ∧ isRepoSegs fs D = false)
    (hSd : ∀ x ∈ segs.dropLast, PSeg x) (hSw : ∀ x ∈ segs, WfSeg x) :
    segsOf (find_repo fs (strOfSegs D) (strOfSegs segs) none af).1
        = (resolveSegs fs D af [] [] segs).1 ++ (resolveSegs fs D af [] [] segs).2.1
    ∧ (find_repo fs (strOfSegs D) (strOfSegs segs) none af).2
        = joinSegs (resolveSegs fs D af [] [] segs).2.2
    ∧ ((af = true → 2 ≤ segs.length → fs.isDir (D ++ segs.take 1) = true) →
        (find_repo fs (strOfSegs D) (strOfSegs segs) none af).1
          = strOfSegs ((resolveSegs fs D af [] [] segs).1
              ++ (resolveSegs fs D af [] [] segs).2.1)) := by
  have hlstrip : lstripC '/' (strOfSegs segs) = joinSegs segs := by
    rw [strOfSegs, lstripC_cons_pos, lstripC_joinSegs segs hSw]
  have hpath : rstripC '/' (str "/") ++ '/' :: lstripC '/' (strOfSegs segs)
      = '/' :: joinSegs segs := by
    have h1 : rstripC '/' (str "/") = [] := rstripC_root
    rw [h1, hlstrip]
    rfl
  have hfuel : segs.length
      ≤ (rstripC '/' (str "/") ++ '/' :: lstripC '/' (strOfSegs segs)).length := by
    rw [hpath]
    have := joinSegs_length_ge segs hSw
    simp only [List.length_cons]
    omega
  obtain ⟨Pf, rhsF, heq, hseg, hnil, hends, hne, hqf, hhf, hrhsf, hex⟩ :=
    findRepoLoop_spec fs D af hD hDw hafD segs (str "/") [] [] _ (strOfSegs segs)
      (rstripC '/' (str "/") ++ '/' :: lstripC '/' (strOfSegs segs))
      (by intro x hx; simp at hx)
      hSd hSw
      (by intro _ h; exact absurd rfl h)
      hfuel
      hlstrip
      (by decide)
      (by decide) (by decide) (by decide)
      (fun _ => rfl)
      (by intro h; exact absurd rfl h)
      (Or.inr ⟨rfl, rfl, hpath⟩)
  have hwfF : ∀ x ∈ (resolveSegs fs D af [] [] segs).2.1, WfSeg x := by
    intro x hx
    rcases (resolveSegs_mem fs D af segs [] []).2.1 x hx with h1 | h2
    · simp at h1
    · exact hSw x h2
  have hwfR : ∀ x ∈ (resolveSegs fs D af [] [] segs).1, WfSeg x := by
    intro x hx
    rcases (resolveSegs_mem fs D af segs [] []).1 x hx with h1 | h2
    · simp at h1
    · exact hSw x h2
  have heq2 : findRepoLoop fs (strOfSegs D) af
      (rstripC '/' (str "/") ++ '/' :: lstripC '/' (strOfSegs segs)).length
      (str "/") (strOfSegs segs) []
      (rstripC '/' (str "/") ++ '/' :: lstripC '/' (strOfSegs segs))
      = (Pf, rhsF, fakesStr (resolveSegs fs D af [] [] segs).2.1) := heq
  have hunfold : find_repo fs (strOfSegs D) (strOfSegs segs) none af
      = (Pf ++ (if endsWith (str "/") Pf then lstripC '/'
            (fakesStr (resolveSegs fs D af [] [] segs).2.1)
          else fakesStr (resolveSegs fs D af [] [] segs).2.1),
         lstripC '/' rhsF) := by
    have hstep : find_repo fs (strOfSegs D) (strOfSegs segs) none af
        = ((Pf, rhsF, fakesStr (resolveSegs fs D af [] [] segs).2.1).1
            ++ (if endsWith (str "/")
                  (Pf, rhsF, fakesStr (resolveSegs fs D af [] [] segs).2.1).1
                then lstripC '/' (Pf, rhsF, fakesStr (resolveSegs fs D af [] [] segs).2.1).2.2
                else (Pf, rhsF, fakesStr (resolveSegs fs D af [] [] segs).2.1).2.2),
           lstripC '/' (Pf, rhsF, fakesStr (resolveSegs fs D af [] [] segs).2.1).2.1) := by
      rw [← heq2]
      rfl
    simpa using hstep
  refine ⟨?_, ?_, ?_⟩
  · rw [hunfold]
    exact assemble_root Pf _ _ hseg hnil hends hwfF
  · rw [hunfold, hrhsf]
  · intro hE
    have hPfx : Pf = strOfSegs (resolveSegs fs D af [] [] segs).1 :=
      hex ⟨rfl, fun _ => hpath, fun h1 _ h3 => hE h1 h3⟩
    rw [hunfold, hPfx]
    exact assemble_root_exact _ _ hwfR hwfF

/-- Characterisation of `find_repo` in its two-argument form as used by
`run_cgi` (strict resolution continuing from an already-resolved root). -/
theorem find_repo_spec2 (fs : FS) (D : List Str) (R0 S : List Str) (rest : Str)
    (hD : D ≠ []) (hDw : ∀ x ∈ D, WfSeg x)
    (hR0 : ∀ x ∈ R0, PSeg x)
    (hSd : ∀ x ∈ S.dropLast, PSeg x) (hSw : ∀ x ∈ S, WfSeg x)
    (hrest : lstripC '/' rest = joinSegs S) :
    find_repo fs (strOfSegs D) (strOfSegs R0) (some rest) false
      = (strOfSegs (resolveSegs fs D false R0 [] S).1,
         joinSegs (resolveSegs fs D false R0 [] S).2.2) := by
  have hpath : rstripC '/' (strOfSegs R0) ++ '/' :: lstripC '/' rest
      = rstripC '/' (strOfSegs R0) ++ '/' :: joinSegs S := by rw [hrest]
  have hfuel : S.length
      ≤ (rstripC '/' (strOfSegs R0) ++ '/' :: lstripC '/' rest).length := by
    rw [hpath]
    have := joinSegs_length_ge S hSw
    simp only [List.length_append, List.length_cons]
    omega
  have hform : rstripC '/' (strOfSegs R0) ++ '/' :: lstripC '/' rest
        = strOfSegs R0 ++ '/' :: joinSegs S
      ∨ (R0 = [] ∧ (strOfSegs R0 : Str) = ['/'] ∧
          rstripC '/' (strOfSegs R0) ++ '/' :: lstripC '/' rest = '/' :: joinSegs S) := by
    by_cases hR : R0 = []
    · right
      refine ⟨hR, by rw [hR]; rfl, ?_⟩
      rw [hpath, hR, rstripC_root]
      rfl
    · left
      rw [hpath, rstripC_strOfSegs R0 hR (fun x hx => (hR0 x hx).1)]
  obtain ⟨Pf, rhsF, heq, hseg, hnil, hends, hne, hqf, hhf, hrhsf, hex⟩ :=
    findRepoLoop_spec fs D false hD hDw (by intro h; simp at h) S (strOfSegs R0) R0 [] _ rest
      (rstripC '/' (strOfSegs R0) ++ '/' :: lstripC '/' rest)
      hR0 hSd hSw
      (by intro h; simp at h)
      hfuel
      hrest
      (segsOf_strOfSegs R0 (fun x hx => (hR0 x hx).1))
      (not_mem_strOfSegs '?' R0 (by decide) (fun x hx => (hR0 x hx).2.1))
      (not_mem_strOfSegs '#' R0 (by decide) (fun x hx => (hR0 x hx).2.2.1))
      (by simp [strOfSegs])
      (fun h => by rw [h]; rfl)
      (fun h => endsWith_slash_strOfSegs R0 h (fun x hx => (hR0 x hx).1))
      hform
  have hFnil : (resolveSegs fs D false R0 [] S).2.1 = [] :=
    resolveSegs_strict_fakes fs D S R0 []
  have hPfx : Pf = strOfSegs (resolveSegs fs D false R0 [] S).1 := by
    apply hex
    refine ⟨rfl, ?_, by intro h; simp at h⟩
    intro hR
    rw [hpath, hR, rstripC_root]
    rfl
  have heq2 : findRepoLoop fs (strOfSegs D) false
      (rstripC '/' (strOfSegs R0) ++ '/' :: lstripC '/' rest).length
      (strOfSegs R0) rest []
      (rstripC '/' (strOfSegs R0) ++ '/' :: lstripC '/' rest)
      = (Pf, rhsF, fakesStr (resolveSegs fs D false R0 [] S).2.1) := heq
  have hstep : find_repo fs (strOfSegs D) (strOfSegs R0) (some rest) false
      = ((Pf, rhsF, fakesStr (resolveSegs fs D false R0 [] S).2.1).1
          ++ (if endsWith (str "/")
                (Pf, rhsF, fakesStr (resolveSegs fs D false R0 [] S).2.1).1
              then lstripC '/' (Pf, rhsF, fakesStr (resolveSegs fs D false R0 [] S).2.1).2.2
              else (Pf, rhsF, fakesStr (resolveSegs fs D false R0 [] S).2.1).2.2),
         lstripC '/' (Pf, rhsF, fakesStr (resolveSegs fs D false R0 [] S).2.1).2.1) := by
    rw [← heq2]
    rfl
  rw [hstep, hFnil, hPfx, hrhsf]
  have h2 : fakesStr ([] : List Str) = [] := rfl
  simp only [h2]
  have h3 : lstripC '/' ([] : Str) = [] := rfl
  simp only [h3, ite_self]
  simp


/-! ### Environment dictionary lemmas -/

theorem envGet_isSome_of_any (e : List (Str × Str)) (k : Str)
    (h : e.any (fun p => p.1 = k) = true) : (envGet e k).isSome = true := by
  induction e with
  | nil => simp at h
  | cons p ps ih =>
      by_cases hp : p.1 = k
      · simp [envGet, List.find?, hp]
      · rw [List.any_cons] at h
        simp only [hp, decide_False, Bool.false_or] at h
        have := ih h
        simp only [envGet, List.find?, hp, decide_False] at this ⊢
        exact this

theorem envGet_none_of_not_any (e : List (Str × Str)) (k : Str)
    (h : e.any (fun p => p.1 = k) = false) : envGet e k = none := by
  induction e with
  | nil => rfl
  | cons p ps ih =>
      rw [List.any_cons] at h
      have hp : (p.1 = k) = False := by
        by_cases hp : p.1 = k
        · simp [hp] at h
        · simp [hp]
      simp only [decide_eq_false_iff_not, Bool.or_eq_false_iff] at h
      simp only [envGet, List.find?, hp, decide_False]
      have := ih (by simp [h.2])
      simp only [envGet] at this
      exact this

theorem envGet_map_set_eq (e : List (Str × Str)) (k v : Str)
    (h : e.any (fun p => p.1 = k) = true) :
    envGet (e.map (fun p => if p.1 = k then (k, v) else p)) k = some v := by
  induction e with
  | nil => simp at h
  | cons p ps ih =>
      rw [List.map_cons]
      by_cases hp : p.1 = k
      · rw [if_pos hp]
        simp [envGet, List.find?]
      · rw [if_neg hp]
        rw [List.any_cons] at h
        simp only [hp, decide_False, Bool.false_or] at h
        have := ih h
        simp only [envGet, List.find?, hp, decide_False] at this ⊢
        exact this

theorem envGet_map_set_ne (e : List (Str × Str)) (k' v k : Str) (hk : k ≠ k') :
    envGet (e.map (fun p => if p.1 = k' then (k', v) else p)) k = envGet e k := by
  induction e with
  | nil => rfl
  | cons p ps ih =>
      rw [List.map_cons]
      by_cases hp : p.1 = k'
      · have hpk : ¬ ((k' : Str) = k) := fun he => hk he.symm
        have hpk2 : ¬ (p.1 = k) := fun he => hk (he.symm.trans hp)
        rw [if_pos hp]
        simp only [envGet, List.find?, hpk, hpk2, decide_False]
        simp only [envGet] at ih
        exact ih
      · rw [if_neg hp]
        by_cases hq : p.1 = k
        · simp [envGet, List.find?, hq]
        · simp only [envGet, List.find?, hq, decide_False]
          simp only [envGet] at ih
          exact ih

theorem envGet_append_one (e : List (Str × Str)) (k' v k : Str) :
    envGet (e ++ [(k', v)]) k =
      match envGet e k with
      | some w => some w
      | none => if k' = k then some v else none := by
  induction e with
  | nil =>
      by_cases hk : k' = k <;> simp [envGet, List.find?, hk]
  | cons p ps ih =>
      by_cases hp : p.1 = k
      · simp [envGet, List.find?, hp]
      · simp only [List.cons_append, envGet, List.find?, hp, decide_False]
        simp only [envGet] at ih
        exact ih

theorem envGet_envSet (e : List (Str × Str)) (k' v k : Str) :
    envGet (envSet e k' v) k = if k = k' then some v else envGet e k := by
  by_cases ha : e.any (fun p => p.1 = k') = true
  · rw [envSet, if_pos ha]
    by_cases hk : k = k'
    · subst hk
      rw [if_pos rfl]
      exact envGet_map_set_eq e k v ha
    · rw [if_neg hk]
      exact envGet_map_set_ne e k' v k hk
  · rw [envSet, if_neg ha]
    rw [envGet_append_one]
    have ha2 : e.any (fun p => p.1 = k') = false := by
      cases hb : e.any (fun p => p.1 = k') with
      | true => exact absurd hb ha
      | false => rfl
    by_cases hk : k = k'
    · subst hk
      rw [envGet_none_of_not_any e k ha2]
    · have hk2 : ¬ (k' = k) := fun he => hk he.symm
      cases hg : envGet e k with
      | some w => simp [hk]
      | none => simp [hk, hk2]

theorem envGet_envSetdefault (e : List (Str × Str)) (k' v k : Str) :
    envGet (envSetdefault e k' v) k =
      if k = k' then some ((envGet e k').getD v) else envGet e k := by
  by_cases ha : e.any (fun p => p.1 = k') = true
  · rw [envSetdefault, if_pos ha]
    by_cases hk : k = k'
    · subst hk
      have := envGet_isSome_of_any e k ha
      cases hg : envGet e k with
      | some w => simp
      | none => rw [hg] at this; simp at this
    · rw [if_neg hk]
  · rw [envSetdefault, if_neg ha]
    rw [envGet_append_one]
    have ha2 : e.any (fun p => p.1 = k') = false := by
      cases hb : e.any (fun p => p.1 = k') with
      | true => exact absurd hb ha
      | false => rfl
    by_cases hk : k = k'
    · subst hk
      rw [envGet_none_of_not_any e k ha2]
      simp
    · have hk2 : ¬ (k' = k) := fun he => hk he.symm
      cases hg : envGet e k with
      | some w => simp [hk]
      | none => simp [hk, hk2]

/-! ### Step lemmas for the segment-level resolver -/

theorem resolveSegs_halt_miss (fs : FS) (D : List Str) (R F : List Str)
    (s t : Str) (T : List Str) (hd : fs.isDir (D ++ R ++ [s]) = false) :
    resolveSegs fs D false R F (s :: t :: T) = (R, F, s :: t :: T) := by
  have hd2 : fs.isDir (D ++ (R ++ [s])) = false := by rw [← List.append_assoc]; exact hd
  simp [resolveSegs, hd2]

theorem resolveSegs_halt_repo (fs : FS) (D : List Str) (af : Bool) (R F : List Str)
    (s t : Str) (T : List Str) (hd : fs.isDir (D ++ R ++ [s]) = true)
    (hr : isRepoSegs fs (D ++ R ++ [s]) = true) :
    resolveSegs fs D af R F (s :: t :: T) = (R, F, s :: t :: T) := by
  have hd2 : fs.isDir (D ++ (R ++ [s])) = true := by rw [← List.append_assoc]; exact hd
  have hr2 : isRepoSegs fs (D ++ (R ++ [s])) = true := by rw [← List.append_assoc]; exact hr
  simp [resolveSegs, hd2, hr2]

theorem resolveSegs_step_dir (fs : FS) (D : List Str) (af : Bool) (R F : List Str)
    (s t : Str) (T : List Str) (hd : fs.isDir (D ++ R ++ [s]) = true)
    (hr : isRepoSegs fs (D ++ R ++ [s]) = false) :
    resolveSegs fs D af R F (s :: t :: T) = resolveSegs fs D af (R ++ [s]) F (t :: T) := by
  have hd2 : fs.isDir (D ++ (R ++ [s])) = true := by rw [← List.append_assoc]; exact hd
  have hr2 : isRepoSegs fs (D ++ (R ++ [s])) = false := by rw [← List.append_assoc]; exact hr
  simp [resolveSegs, hd2, hr2]

theorem resolveSegs_step_fake (fs : FS) (D : List Str) (R F : List Str)
    (s t : Str) (T : List Str) (hd : fs.isDir (D ++ R ++ [s]) = false) :
    resolveSegs fs D true R F (s :: t :: T) = resolveSegs fs D true R (F ++ [s]) (t :: T) := by
  have hd2 : fs.isDir (D ++ (R ++ [s])) = false := by rw [← List.append_assoc]; exact hd
  simp [resolveSegs, hd2]

theorem resolveSegs_last (fs : FS) (D : List Str) (af : Bool) (R F : List Str)
    (s : Str) : resolveSegs fs D af R F [s] = (R, F, [s]) := rfl

theorem resolveSegs_consume (fs : FS) (D : List Str) (af : Bool) :
    ∀ (C : List Str) (R F S : List Str), S ≠ [] →
    (∀ k, k < C.length → fs.isDir (D ++ R ++ C.take (k + 1)) = true ∧
        isRepoSegs fs (D ++ R ++ C.take (k + 1)) = false) →
    resolveSegs fs D af R F (C ++ S) = resolveSegs fs D af (R ++ C) F S := by
  intro C
  induction C with
  | nil => intro R F S _ _; simp
  | cons c C0 ih =>
      intro R F S hS hdirs
      have h0 := hdirs 0 (by simp)
      simp only [List.take_succ_cons, List.take_zero] at h0
      cases hCS : C0 ++ S with
      | nil =>
          rcases List.append_eq_nil.mp hCS with ⟨_, h2⟩
          exact absurd h2 hS
      | cons t T =>
          have hstep : resolveSegs fs D af R F ((c :: C0) ++ S)
              = resolveSegs fs D af (R ++ [c]) F (C0 ++ S) := by
            rw [List.cons_append, hCS]
            rw [resolveSegs_step_dir fs D af R F c t T h0.1 h0.2]
          rw [hstep]
          have := ih (R ++ [c]) F S hS (by
            intro k hk
            have := hdirs (k + 1) (by simp; omega)
            simpa [List.take_succ_cons, List.append_assoc] using this)
          rw [this]
          simp

theorem resolveSegs_af_irrelevant (fs : FS) (D : List Str) :
    ∀ (S R F : List Str),
    (∀ k, k + 2 ≤ S.length → fs.isDir (D ++ R ++ S.take (k + 1)) = true) →
    resolveSegs fs D true R F S = resolveSegs fs D false R F S := by
  intro S
  induction S with
  | nil => intro R F _; rfl
  | cons s S0 ih =>
      intro R F hdirs
      cases S0 with
      | nil => rfl
      | cons t T =>
          have h0 : fs.isDir (D ++ R ++ [s]) = true := by
            have := hdirs 0 (by simp)
            simpa using this
          by_cases hr : isRepoSegs fs (D ++ R ++ [s]) = true
          · rw [resolveSegs_halt_repo fs D true R F s t T h0 hr,
                resolveSegs_halt_repo fs D false R F s t T h0 hr]
          · have hr2 : isRepoSegs fs (D ++ R ++ [s]) = false := by
              simpa using hr
            rw [resolveSegs_step_dir fs D true R F s t T h0 hr2,
                resolveSegs_step_dir fs D false R F s t T h0 hr2]
            exact ih (R ++ [s]) F (by
              intro k hk
              have := hdirs (k + 1) (by simp at hk ⊢; omega)
              simpa [List.take_succ_cons, List.append_assoc] using this)


/-! ### First-occurrence lemmas for the substring scan -/

theorem firstOccurAux_some (needle : Str) :
    ∀ (hay : Str) (i0 j : Nat), firstOccurAux needle hay i0 = some j →
      i0 ≤ j ∧ needle.isPrefixOf (hay.drop (j - i0)) = true ∧
      ∀ m, m < j - i0 → needle.isPrefixOf (hay.drop m) = false := by
  intro hay
  induction hay with
  | nil =>
      intro i0 j h
      by_cases hn : needle = []
      · rw [firstOccurAux, if_pos hn] at h
        cases h
        refine ⟨le_refl _, ?_, ?_⟩
        · simp [hn, List.isPrefixOf]
        · intro m hm; omega
      · rw [firstOccurAux, if_neg hn] at h
        cases h
  | cons c rest ih =>
      intro i0 j h
      rw [firstOccurAux] at h
      by_cases hp : needle.isPrefixOf (c :: rest) = true
      · rw [if_pos hp] at h
        cases h
        refine ⟨le_refl _, ?_, ?_⟩
        · simpa using hp
        · intro m hm; omega
      · rw [if_neg hp] at h
        obtain ⟨h1, h2, h3⟩ := ih (i0 + 1) j h
        refine ⟨by omega, ?_, ?_⟩
        · have hj : j - i0 = (j - (i0 + 1)) + 1 := by omega
          rw [hj, List.drop_succ_cons]
          exact h2
        · intro m hm
          cases m with
          | zero =>
              rw [List.drop_zero]
              exact Bool.eq_false_iff.mpr hp
          | succ m0 =>
              rw [List.drop_succ_cons]
              exact h3 m0 (by omega)

theorem firstOccurAux_none_all (needle : Str) :
    ∀ (hay : Str) (i0 : Nat), firstOccurAux needle hay i0 = none →
      ∀ m, needle.isPrefixOf (hay.drop m) = false := by
  intro hay
  induction hay with
  | nil =>
      intro i0 h m
      by_cases hn : needle = []
      · rw [firstOccurAux, if_pos hn] at h
        cases h
      · cases needle with
        | nil => exact absurd rfl hn
        | cons a as => simp [List.isPrefixOf]
  | cons c rest ih =>
      intro i0 h m
      rw [firstOccurAux] at h
      by_cases hp : needle.isPrefixOf (c :: rest) = true
      · rw [if_pos hp] at h
        cases h
      · rw [if_neg hp] at h
        cases m with
        | zero =>
            rw [List.drop_zero]
            exact Bool.eq_false_iff.mpr hp
        | succ m0 =>
            rw [List.drop_succ_cons]
            exact ih (i0 + 1) h m0

theorem firstOccur_some_spec (needle hay : Str) (j : Nat)
    (h : firstOccur needle hay = some j) :
    occursAt needle hay j = true ∧ ∀ m, m < j → occursAt needle hay m = false := by
  obtain ⟨_, h2, h3⟩ := firstOccurAux_some needle hay 0 j h
  simp only [Nat.sub_zero] at h2 h3
  exact ⟨h2, h3⟩

theorem firstOccur_none_spec (needle hay : Str)
    (h : firstOccur needle hay = none) :
    ∀ m, occursAt needle hay m = false :=
  fun m => firstOccurAux_none_all needle hay 0 h m

theorem firstOccurAux_sep_single (c : Char) :
    ∀ (a b : Str) (i : Nat), c ∉ a →
      firstOccurAux [c] (a ++ c :: b) i = some (i + a.length) := by
  intro a
  induction a with
  | nil =>
      intro b i _
      rw [List.nil_append, firstOccurAux]
      have hpre : ([c] : Str).isPrefixOf (c :: b) = true := by
        simp [List.isPrefixOf]
      rw [if_pos hpre]
      simp
  | cons x xs ih =>
      intro b i h
      rw [List.cons_append, firstOccurAux]
      have hx : ¬ (c = x) := fun he => h (List.mem_cons.mpr (Or.inl he))
      have hpre : ([c] : Str).isPrefixOf (x :: (xs ++ c :: b)) = false := by
        simp [List.isPrefixOf, hx]
      rw [hpre]
      simp only [Bool.false_eq_true, if_false]
      rw [ih b (i + 1) (fun hm => h (List.mem_cons_of_mem x hm))]
      congr 1
      simp only [List.length_cons]
      omega

theorem pyPartition_sep_single (a : Str) (c : Char) (b : Str) (h : c ∉ a) :
    pyPartition (a ++ c :: b) [c] = (a, b) := by
  rw [pyPartition, firstOccur, firstOccurAux_sep_single c a b 0 h]
  have h1 : (a ++ c :: b).take (0 + a.length) = a := by
    simp [List.take_left]
  have h2 : (a ++ c :: b).drop (0 + a.length + [c].length) = b := by
    have he : a ++ c :: b = (a ++ [c]) ++ b := by simp
    rw [he]
    have hl : 0 + a.length + [c].length = (a ++ [c]).length := by simp
    rw [hl, List.drop_left]
  show ((a ++ c :: b).take (0 + a.length),
      (a ++ c :: b).drop (0 + a.length + [c].length)) = (a, b)
  rw [h1, h2]

theorem pyPartition_none_single (p : Str) (c : Char) (h : c ∉ p) :
    pyPartition p [c] = (p, []) := by
  rw [pyPartition, firstOccur_single_none c p h]


/-! ### Helpers for the request-family computations -/

theorem joinSegs_ne_nil (S : List Str) (hS : S ≠ []) (hw : ∀ s ∈ S, WfSeg s) :
    joinSegs S ≠ [] := by
  obtain ⟨a, c, heq, _⟩ := joinSegs_last_char S hS hw
  rw [heq]
  simp

theorem strOfSegs_ne_root (S : List Str) (hS : S ≠ []) (hw : ∀ s ∈ S, WfSeg s) :
    strOfSegs S ≠ str "/" := by
  intro he
  have h2 : joinSegs S = [] := by
    have := congrArg List.tail he
    simpa [strOfSegs, str] using this
  exact joinSegs_ne_nil S hS hw h2

theorem pyFind_one (s r : Str) (hs : '/' ∉ s) :
    pyFind ('/' :: (s ++ '/' :: r)) '/' 1 = some (s.length + 1) := by
  rw [pyFind]
  have hd : ('/' :: (s ++ '/' :: r)).drop 1 = s ++ '/' :: r := rfl
  rw [hd, findIdxC_sep s r '/' hs]
  simp [Nat.add_comm]

theorem lastAfterC_sep (a b : Str) (c : Char) (h : c ∉ b) :
    lastAfterC (a ++ c :: b) c = b := by
  rw [lastAfterC, List.reverse_append, List.reverse_cons, List.append_assoc,
    List.singleton_append,
    takeWhile_until_sepC c b.reverse (a.reverse) (by simpa using h)]
  simp

theorem joinSegs_split_last (X : List Str) (y : Str) (d : Char) (z : Str) :
    joinSegs (X ++ [y ++ d :: z]) = joinSegs (X ++ [y]) ++ d :: z := by
  cases X with
  | nil => simp [joinSegs]
  | cons x X0 =>
      rw [joinSegs_append (x :: X0) [y ++ d :: z] (by simp) (by simp),
        joinSegs_append (x :: X0) [y] (by simp) (by simp)]
      simp [joinSegs]

theorem startsWith_slash_joinSegs (S : List Str) (hw : ∀ s ∈ S, WfSeg s) :
    startsWith (str "/") (joinSegs S) = false := by
  cases S with
  | nil => rfl
  | cons s S0 =>
      obtain ⟨hne, hns⟩ := hw s (List.mem_cons_self s S0)
      have hdec : ∃ r, joinSegs (s :: S0) = s ++ r := by
        cases S0 with
        | nil => exact ⟨[], by simp [joinSegs]⟩
        | cons t T => exact ⟨'/' :: joinSegs (t :: T), joinSegs_cons s (t :: T) (by simp)⟩
      obtain ⟨r, hr⟩ := hdec
      rcases s with _ | ⟨x, xs⟩
      · exact absurd rfl hne
      · have hx : ¬ ('/' = x) := fun he => hns (by simp [← he])
        rw [hr, startsWith]
        simp [str, List.isPrefixOf, hx]

theorem getREMatch_cases (p : Str) (h : getREMatch p = true) :
    (∃ a, p = a ++ str ".pack") ∨ (∃ a, p = a ++ str ".idx") ∨
    (∃ c, p.getLast? = some c ∧ isHexD c = true) := by
  rw [getREMatch, List.any_eq_true] at h
  obtain ⟨j, _, hj⟩ := h
  simp only [Bool.and_eq_true, decide_eq_true_eq] at hj
  obtain ⟨⟨⟨⟨_, _⟩, _⟩, _⟩, htail⟩ := hj
  rw [objTailMatch] at htail
  simp only [Bool.or_eq_true, Bool.and_eq_true, decide_eq_true_eq] at htail
  rcases htail with (⟨⟨⟨hlen, h12⟩, h13⟩, hsuf⟩ | ⟨⟨⟨hlen, h22⟩, h23⟩, hsuf⟩) | ⟨⟨⟨hlen, h32⟩, h33⟩, hhex⟩
  · left
    refine ⟨(p.take (j + 9) ++ (p.drop (j + 9)).take 50), ?_⟩
    rw [List.append_assoc, ← hsuf, List.take_append_drop, List.take_append_drop]
  · right; left
    refine ⟨(p.take (j + 9) ++ (p.drop (j + 9)).take 50), ?_⟩
    rw [List.append_assoc, ← hsuf, List.take_append_drop, List.take_append_drop]
  · right; right
    have hne : (p.drop (j + 9)).drop 3 ≠ [] := by
      intro he
      have h2 := congrArg List.length he
      rw [List.length_drop, hlen] at h2
      simp at h2
    rcases List.eq_nil_or_concat ((p.drop (j + 9)).drop 3) with he | ⟨q, c, hqc⟩
    · exact absurd he hne
    · rw [List.concat_eq_append] at hqc
      refine ⟨c, ?_, ?_⟩
      · have hp2 : p = (p.take (j + 9) ++ ((p.drop (j + 9)).take 3 ++ q)) ++ [c] := by
          rw [List.append_assoc, List.append_assoc, ← hqc,
            List.take_append_drop, List.take_append_drop]
        rw [hp2, List.getLast?_concat]
      · rw [List.all_eq_true] at hhex
        exact hhex c (by
          rw [hqc]
          exact List.mem_append_right q (List.mem_singleton.mpr rfl))

theorem getREMatch_dashpack (b : Str) :
    getREMatch (b ++ str "-pack") = false := by
  cases hg : getREMatch (b ++ str "-pack") with
  | false => rfl
  | true =>
      rcases getREMatch_cases _ hg with ⟨a, ha⟩ | ⟨a, ha⟩ | ⟨c, hc, hhex⟩
      · have h2 := (List.append_inj' ha (by decide)).2
        exact absurd h2 (by decide)
      · have ha2 : (b ++ ['-']) ++ str "pack" = a ++ str ".idx" := by
          rw [← ha]; simp [str]
        have h2 := (List.append_inj' ha2 (by decide)).2
        exact absurd h2 (by decide)
      · have hb : b ++ str "-pack" = (b ++ str "-pac") ++ ['k'] := by simp [str]
        rw [hb, List.getLast?_concat] at hc
        cases hc
        exact absurd hhex (by decide)

theorem isDir_iff_mem (fs : FS) (p : List Str) :
    fs.isDir p = true ↔ p ∈ fs.dirs := by
  simp [FS.isDir]

theorem isFile_iff_mem (fs : FS) (p : List Str) :
    fs.isFile p = true ↔ p ∈ fs.files := by
  simp [FS.isFile]

theorem existsP_false_of_dir_missing (fs : FS) (hWf : FS.Wf fs) (p : List Str)
    (k : Nat) (h0 : 0 < k) (hk : k < p.length)
    (hmiss : fs.isDir (p.take k) = false) : fs.existsP p = false := by
  cases he : fs.existsP p with
  | false => rfl
  | true =>
      rw [FS.existsP, Bool.or_eq_true] at he
      have hmem : p ∈ fs.dirs ∨ p ∈ fs.files := by
        rcases he with h | h
        · exact Or.inl ((isDir_iff_mem fs p).mp h)
        · exact Or.inr ((isFile_iff_mem fs p).mp h)
      have := hWf p hmem k h0 hk
      rw [this] at hmiss
      cases hmiss

theorem existsP_false_of_qmark (fs : FS)
    (hq : ∀ q, (q ∈ fs.dirs ∨ q ∈ fs.files) → ∀ sg ∈ q, '?' ∉ sg)
    (p : List Str) (sg : Str) (hsg : sg ∈ p) (hmem : '?' ∈ sg) :
    fs.existsP p = false := by
  cases he : fs.existsP p with
  | false => rfl
  | true =>
      rw [FS.existsP, Bool.or_eq_true] at he
      have hm : p ∈ fs.dirs ∨ p ∈ fs.files := by
        rcases he with h | h
        · exact Or.inl ((isDir_iff_mem fs p).mp h)
        · exact Or.inr ((isFile_iff_mem fs p).mp h)
      exact absurd hmem (hq p hm sg hsg)


/-! ### The standard smart-HTTP request family -/

theorem rstripC_joinSegs (S : List Str) (hS : S ≠ []) (hw : ∀ s ∈ S, WfSeg s) :
    rstripC '/' (joinSegs S) = joinSegs S := by
  obtain ⟨a, c, heq, hc⟩ := joinSegs_last_char S hS hw
  rw [heq, rstripC]
  rw [List.reverse_append]
  simp only [List.reverse_cons, List.reverse_nil, List.nil_append, List.singleton_append]
  rw [lstripC_cons_neg '/' c a.reverse hc]
  simp

theorem stripC_strOfSegs (S : List Str) (hS : S ≠ []) (hw : ∀ s ∈ S, WfSeg s) :
    stripC '/' (strOfSegs S) = joinSegs S := by
  rw [stripC, strOfSegs, lstripC_cons_pos, lstripC_joinSegs S hw,
    rstripC_joinSegs S hS hw]

theorem svc_shape (svc : Str)
    (hsvc : svc = str "git-upload-pack" ∨ svc = str "git-receive-pack") :
    ∃ s0, svc = s0 ++ '-' :: str "pack" := by
  rcases hsvc with h | h
  · exact ⟨str "git-upload", by rw [h]; decide⟩
  · exact ⟨str "git-receive", by rw [h]; decide⟩

theorem family_resolve (fs : FS) (D : List Str) (c0 : Str) (Ctl : List Str)
    (r : Str) (T : List Str)
    (hdirs : ∀ k, k < (c0 :: Ctl).length →
        fs.isDir (D ++ (c0 :: Ctl).take (k + 1)) = true ∧
        isRepoSegs fs (D ++ (c0 :: Ctl).take (k + 1)) = false)
    (hstop : fs.isDir (D ++ (c0 :: Ctl) ++ [r]) = false ∨
        isRepoSegs fs (D ++ (c0 :: Ctl) ++ [r]) = true)
    (t0 : Str) :
    resolveSegs fs D false [] [] ((c0 :: Ctl) ++ (r :: t0 :: T))
      = (c0 :: Ctl, [], r :: t0 :: T) := by
  rw [resolveSegs_consume fs D false (c0 :: Ctl) [] [] (r :: t0 :: T) (by simp)
    (by intro k hk; simpa using hdirs k hk)]
  cases hd : fs.isDir (D ++ (c0 :: Ctl) ++ [r]) with
  | false =>
      have hd2 : fs.isDir (D ++ ([] ++ (c0 :: Ctl)) ++ [r]) = false := by
        simpa using hd
      rw [resolveSegs_halt_miss fs D ([] ++ (c0 :: Ctl)) [] r t0 T hd2]
      simp
  | true =>
      have hrep : isRepoSegs fs (D ++ (c0 :: Ctl) ++ [r]) = true := by
        rcases hstop with hm | hrep
        · rw [hd] at hm; cases hm
        · exact hrep
      have hd2 : fs.isDir (D ++ ([] ++ (c0 :: Ctl)) ++ [r]) = true := by
        simpa using hd
      have hrep2 : isRepoSegs fs (D ++ ([] ++ (c0 :: Ctl)) ++ [r]) = true := by
        simpa using hrep
      rw [resolveSegs_halt_repo fs D false ([] ++ (c0 :: Ctl)) [] r t0 T hd2 hrep2]
      simp

theorem family_find_repo (fs : FS) (D : List Str) (c0 : Str) (Ctl : List Str)
    (r svc : Str)
    (hD : D ≠ []) (hDw : ∀ x ∈ D, WfSeg x)
    (hCw : ∀ x ∈ (c0 :: Ctl), PSeg x)
    (hr : PSeg r)
    (hsvc : svc = str "git-upload-pack" ∨ svc = str "git-receive-pack")
    (hdirs : ∀ k, k < (c0 :: Ctl).length →
        fs.isDir (D ++ (c0 :: Ctl).take (k + 1)) = true ∧
        isRepoSegs fs (D ++ (c0 :: Ctl).take (k + 1)) = false)
    (hstop : fs.isDir (D ++ (c0 :: Ctl) ++ [r]) = false ∨
        isRepoSegs fs (D ++ (c0 :: Ctl) ++ [r]) = true) :
    find_repo fs (strOfSegs D)
        (strOfSegs ((c0 :: Ctl) ++ [r, str "info", str "refs?service=" ++ svc])) none false
      = (strOfSegs (c0 :: Ctl),
         joinSegs [r, str "info", str "refs?service=" ++ svc]) := by
  have hrqW : WfSeg (str "refs?service=" ++ svc) := by
    rcases hsvc with h | h <;> (subst h; exact ⟨by decide, by decide⟩)
  have hSw : ∀ x ∈ (c0 :: Ctl) ++ [r, str "info", str "refs?service=" ++ svc], WfSeg x := by
    intro x hx
    rcases List.mem_append.mp hx with h | h
    · exact (hCw x h).1
    · simp only [List.mem_cons, List.mem_singleton, List.not_mem_nil, or_false] at h
      rcases h with h | h | h
      · exact h ▸ hr.1
      · exact h ▸ ⟨by decide, by decide⟩
      · exact h ▸ hrqW
  have hSd : ∀ x ∈ ((c0 :: Ctl) ++ [r, str "info", str "refs?service=" ++ svc]).dropLast, PSeg x := by
    have hdl : ((c0 :: Ctl) ++ [r, str "info", str "refs?service=" ++ svc]).dropLast
        = (c0 :: Ctl) ++ [r, str "info"] := by
      have h1 : (c0 :: Ctl) ++ [r, str "info", str "refs?service=" ++ svc]
          = ((c0 :: Ctl) ++ [r, str "info"]) ++ [str "refs?service=" ++ svc] := by
        simp
      rw [h1, List.dropLast_concat]
    rw [hdl]
    intro x hx
    rcases List.mem_append.mp hx with h | h
    · exact hCw x h
    · simp only [List.mem_cons, List.mem_singleton, List.not_mem_nil, or_false] at h
      rcases h with h | h
      · exact h ▸ hr
      · exact h ▸ ⟨⟨by decide, by decide⟩, by decide, by decide, by decide, by decide⟩
  obtain ⟨h1, h2, h3⟩ := find_repo_spec1 fs D false
    ((c0 :: Ctl) ++ [r, str "info", str "refs?service=" ++ svc]) hD hDw
    (by intro h; cases h) hSd hSw
  have hres := family_resolve fs D c0 Ctl r
    [str "refs?service=" ++ svc] hdirs hstop (str "info")
  have hres2 : resolveSegs fs D false [] []
      ((c0 :: Ctl) ++ [r, str "info", str "refs?service=" ++ svc])
      = (c0 :: Ctl, [], [r, str "info", str "refs?service=" ++ svc]) := hres
  have hroot := h3 (by intro h; cases h)
  rw [hres2] at hroot h2
  apply Prod.ext
  · rw [hroot]
    simp
  · rw [h2]

theorem is_cgi_family (cfg : Config) (fs : FS) (D : List Str) (c0 : Str)
    (Ctl : List Str) (r svc : Str)
    (hD : D ≠ []) (hDw : ∀ x ∈ D, WfSeg x)
    (hCw : ∀ x ∈ (c0 :: Ctl), PSeg x)
    (hr : PSeg r)
    (hsvc : svc = str "git-upload-pack" ∨ svc = str "git-receive-pack")
    (hdirs : ∀ k, k < (c0 :: Ctl).length →
        fs.isDir (D ++ (c0 :: Ctl).take (k + 1)) = true ∧
        isRepoSegs fs (D ++ (c0 :: Ctl).take (k + 1)) = false)
    (hstop : fs.isDir (D ++ (c0 :: Ctl) ++ [r]) = false ∨
        isRepoSegs fs (D ++ (c0 :: Ctl) ++ [r]) = true)
    (hfsq : ∀ q, (q ∈ fs.dirs ∨ q ∈ fs.files) → ∀ sg ∈ q, '?' ∉ sg)
    (hns : cfg.useNamespaces = false) (hcm : cfg.createMissing = false) :
    is_cgi cfg fs (strOfSegs D)
        (strOfSegs ((c0 :: Ctl) ++ [r, str "info", str "refs?service=" ++ svc]))
      = .cgi (strOfSegs D) fs ('/' :: c0)
          (joinSegs (Ctl ++ [r, str "info", str "refs?service=" ++ svc])) none := by
  have hrqW : WfSeg (str "refs?service=" ++ svc) := by
    rcases hsvc with h | h <;> (subst h; exact ⟨by decide, by decide⟩)
  have hSw : ∀ x ∈ (c0 :: Ctl) ++ [r, str "info", str "refs?service=" ++ svc], WfSeg x := by
    intro x hx
    rcases List.mem_append.mp hx with h | h
    · exact (hCw x h).1
    · simp only [List.mem_cons, List.mem_singleton, List.not_mem_nil, or_false] at h
      rcases h with h | h | h
      · exact h ▸ hr.1
      · exact h ▸ ⟨by decide, by decide⟩
      · exact h ▸ hrqW
  have hgrt := family_find_repo fs D c0 Ctl r svc hD hDw hCw hr hsvc hdirs hstop
  have hre : getREMatch
      (strOfSegs ((c0 :: Ctl) ++ [r, str "info", str "refs?service=" ++ svc])) = false := by
    obtain ⟨s0, hs0⟩ := svc_shape svc hsvc
    have hsplit : (c0 :: Ctl) ++ [r, str "info", str "refs?service=" ++ svc]
        = ((c0 :: Ctl) ++ [r, str "info"])
            ++ [(str "refs?service=" ++ s0) ++ '-' :: str "pack"] := by
      rw [hs0]
      simp
    rw [hsplit, strOfSegs, joinSegs_split_last]
    have hshift : ('/' :: (joinSegs (((c0 :: Ctl) ++ [r, str "info"]) ++ [str "refs?service=" ++ s0])
        ++ '-' :: str "pack"))
        = ('/' :: joinSegs (((c0 :: Ctl) ++ [r, str "info"]) ++ [str "refs?service=" ++ s0]))
          ++ str "-pack" := by
      simp
      decide
    rw [hshift]
    exact getREMatch_dashpack _
  have hex : existsStr fs (osPathJoin (strOfSegs D)
      (stripC '/' (strOfSegs ((c0 :: Ctl) ++ [r, str "info", str "refs?service=" ++ svc]))))
      = false := by
    rw [stripC_strOfSegs _ (by simp) hSw]
    rw [osPathJoin_strOfSegs D _ hD hDw]
    rw [show strOfSegs D ++ '/' :: joinSegs ((c0 :: Ctl) ++ [r, str "info", str "refs?service=" ++ svc])
        = strOfSegs (D ++ ((c0 :: Ctl) ++ [r, str "info", str "refs?service=" ++ svc]))
      from (strOfSegs_append D _ hD (by simp)).symm]
    rw [existsStr, segsOf_strOfSegs _ (by
      intro x hx
      rcases List.mem_append.mp hx with h | h
      · exact hDw x h
      · exact hSw x h)]
    exact existsP_false_of_qmark fs hfsq _ (str "refs?service=" ++ svc)
      (by simp) (List.mem_append.mpr (Or.inl (by decide)))
  have hpf : pyFind (strOfSegs ((c0 :: Ctl) ++ [r, str "info", str "refs?service=" ++ svc])) '/' 1
      = some (c0.length + 1) := by
    rw [strOfSegs, List.cons_append,
      joinSegs_cons c0 (Ctl ++ [r, str "info", str "refs?service=" ++ svc]) (by simp)]
    exact pyFind_one c0 _ (hCw c0 (by simp)).1.2
  have hpath : strOfSegs ((c0 :: Ctl) ++ [r, str "info", str "refs?service=" ++ svc])
      = ('/' :: c0) ++ '/' :: joinSegs (Ctl ++ [r, str "info", str "refs?service=" ++ svc]) := by
    rw [strOfSegs, List.cons_append,
      joinSegs_cons c0 (Ctl ++ [r, str "info", str "refs?service=" ++ svc]) (by simp)]
    simp
  have htake : (strOfSegs ((c0 :: Ctl) ++ [r, str "info", str "refs?service=" ++ svc])).take (c0.length + 1)
      = '/' :: c0 := by
    rw [hpath]
    exact take_at_sep _ _ _ (by simp)
  have hdrop : (strOfSegs ((c0 :: Ctl) ++ [r, str "info", str "refs?service=" ++ svc])).drop (c0.length + 1 + 1)
      = joinSegs (Ctl ++ [r, str "info", str "refs?service=" ++ svc]) := by
    rw [hpath]
    exact drop_sep_left _ _ _ (by simp)
  have hroot_ne : ¬ ((strOfSegs (c0 :: Ctl) : Str) = str "/") :=
    strOfSegs_ne_root (c0 :: Ctl) (by simp) (fun x hx => (hCw x hx).1)
  rw [is_cgi]
  simp only [hns, Bool.false_eq_true, if_false, hgrt, hre, hex, hcm, hpf, htake, hdrop,
    hroot_ne, if_neg hroot_ne, Bool.false_eq_true, false_and, if_false]


theorem not_mem_joinSegs (c : Char) (S : List Str) (hc : c ≠ '/')
    (h : ∀ s ∈ S, c ∉ s) : c ∉ joinSegs S := by
  intro hmem
  rcases mem_joinSegs c S hmem with h1 | ⟨s, hs, hcs⟩
  · exact hc h1
  · exact h s hs hcs

theorem family_resolve_from (fs : FS) (D : List Str) (c0 : Str) (Ctl : List Str)
    (r : Str) (T : List Str)
    (hdirs : ∀ k, k < (c0 :: Ctl).length →
        fs.isDir (D ++ (c0 :: Ctl).take (k + 1)) = true ∧
        isRepoSegs fs (D ++ (c0 :: Ctl).take (k + 1)) = false)
    (hstop : fs.isDir (D ++ (c0 :: Ctl) ++ [r]) = false ∨
        isRepoSegs fs (D ++ (c0 :: Ctl) ++ [r]) = true)
    (t0 : Str) :
    resolveSegs fs D false [c0] [] (Ctl ++ (r :: t0 :: T))
      = (c0 :: Ctl, [], r :: t0 :: T) := by
  rw [resolveSegs_consume fs D false Ctl [c0] [] (r :: t0 :: T) (by simp)
    (by
      intro k hk
      have := hdirs (k + 1) (by simp only [List.length_cons]; omega)
      simpa [List.take_succ_cons] using this)]
  have hsing : ([c0] ++ Ctl : List Str) = c0 :: Ctl := rfl
  rw [hsing]
  cases hd : fs.isDir (D ++ (c0 :: Ctl) ++ [r]) with
  | false => exact resolveSegs_halt_miss fs D (c0 :: Ctl) [] r t0 T hd
  | true =>
      have hrep : isRepoSegs fs (D ++ (c0 :: Ctl) ++ [r]) = true := by
        rcases hstop with hm | hrep
        · rw [hd] at hm; cases hm
        · exact hrep
      exact resolveSegs_halt_repo fs D false (c0 :: Ctl) [] r t0 T hd hrep

theorem run_cgi_family (cfg : Config) (fs : FS) (D : List Str) (c0 : Str)
    (Ctl : List Str) (r svc : Str) (gx : GitExec)
    (parentEnv : List (Str × Str)) (meta : ReqMeta) (osUser : Str)
    (ns : Option Str)
    (hD : D ≠ []) (hDw : ∀ x ∈ D, WfSeg x)
    (hCw : ∀ x ∈ (c0 :: Ctl), PSeg x)
    (hr : PSeg r)
    (hsvc : svc = str "git-upload-pack" ∨ svc = str "git-receive-pack")
    (hdirs : ∀ k, k < (c0 :: Ctl).length →
        fs.isDir (D ++ (c0 :: Ctl).take (k + 1)) = true ∧
        isRepoSegs fs (D ++ (c0 :: Ctl).take (k + 1)) = false)
    (hstop : fs.isDir (D ++ (c0 :: Ctl) ++ [r]) = false ∨
        isRepoSegs fs (D ++ (c0 :: Ctl) ++ [r]) = true)
    (hdg : cfg.enforceDotGit = true → endsWith (str ".git") r = true)
    (hent : gx.entries.contains svc = true)
    (hexe : gx.executable svc = true) :
    run_cgi cfg fs (strOfSegs D) gx parentEnv meta osUser ('/' :: c0)
        (joinSegs (Ctl ++ [r, str "info", str "refs?service=" ++ svc])) ns
      = if fs.isFile (D ++ (c0 :: Ctl) ++ [r, str "HEAD"]) then
          .ok (strOfSegs (c0 :: Ctl)) r (str "/info/refs") (str "service=" ++ svc)
            (mkCgiEnv parentEnv (strOfSegs D) (strOfSegs (c0 :: Ctl)) r
              (str "/info/refs") (str "service=" ++ svc) ns meta osUser)
        else .notFoundRepo := by
  have hsvcq : ('?' : Char) ∉ svc := by
    rcases hsvc with h | h <;> (subst h; decide)
  have hpq : pyPartition
      (joinSegs (Ctl ++ [r, str "info", str "refs?service=" ++ svc])) (str "?")
      = (joinSegs (Ctl ++ [r, str "info", str "refs"]), str "service=" ++ svc) := by
    have hrq : str "refs?service=" ++ svc
        = str "refs" ++ '?' :: (str "service=" ++ svc) := by
      have : (str "refs?service=" : Str) = str "refs" ++ '?' :: str "service=" := by decide
      rw [this]
      simp
    have hsplit : Ctl ++ [r, str "info", str "refs?service=" ++ svc]
        = (Ctl ++ [r, str "info"]) ++ [str "refs" ++ '?' :: (str "service=" ++ svc)] := by
      rw [← hrq]
      simp
    rw [hsplit, joinSegs_split_last]
    have hq : str "?" = ['?'] := rfl
    rw [hq]
    have hnoq : ('?' : Char) ∉ joinSegs ((Ctl ++ [r, str "info"]) ++ [str "refs"]) := by
      apply not_mem_joinSegs _ _ (by decide)
      intro s hs
      rcases List.mem_append.mp hs with h | h
      · rcases List.mem_append.mp h with h2 | h2
        · exact (hCw s (List.mem_cons_of_mem c0 h2)).2.1
        · simp only [List.mem_cons, List.mem_singleton, List.not_mem_nil, or_false] at h2
          rcases h2 with h3 | h3
          · exact h3 ▸ hr.2.1
          · subst h3; decide
      · simp only [List.mem_singleton] at h
        subst h; decide
    have := pyPartition_sep_single (joinSegs ((Ctl ++ [r, str "info"]) ++ [str "refs"]))
      '?' (str "service=" ++ svc) hnoq
    rw [this]
    congr 1
    simp
  have hfind : find_repo fs (strOfSegs D) (strOfSegs [c0])
      (some (joinSegs (Ctl ++ [r, str "info", str "refs"]))) false
      = (strOfSegs (c0 :: Ctl), joinSegs [r, str "info", str "refs"]) := by
    have hSw2 : ∀ x ∈ Ctl ++ [r, str "info", str "refs"], WfSeg x := by
      intro x hx
      rcases List.mem_append.mp hx with h | h
      · exact (hCw x (List.mem_cons_of_mem c0 h)).1
      · simp only [List.mem_cons, List.mem_singleton, List.not_mem_nil, or_false] at h
        rcases h with h | h | h
        · exact h ▸ hr.1
        · exact h ▸ ⟨by decide, by decide⟩
        · exact h ▸ ⟨by decide, by decide⟩
    have hSd2 : ∀ x ∈ (Ctl ++ [r, str "info", str "refs"]).dropLast, PSeg x := by
      have hdl : (Ctl ++ [r, str "info", str "refs"]).dropLast
          = Ctl ++ [r, str "info"] := by
        have h1 : Ctl ++ [r, str "info", str "refs"]
            = (Ctl ++ [r, str "info"]) ++ [str "refs"] := by simp
        rw [h1, List.dropLast_concat]
      rw [hdl]
      intro x hx
      rcases List.mem_append.mp hx with h | h
      · exact hCw x (List.mem_cons_of_mem c0 h)
      · simp only [List.mem_cons, List.mem_singleton, List.not_mem_nil, or_false] at h
        rcases h with h | h
        · exact h ▸ hr
        · exact h ▸ ⟨⟨by decide, by decide⟩, by decide, by decide, by decide, by decide⟩
    have hrest : lstripC '/' (joinSegs (Ctl ++ [r, str "info", str "refs"]))
        = joinSegs (Ctl ++ [r, str "info", str "refs"]) :=
      lstripC_joinSegs _ hSw2
    rw [find_repo_spec2 fs D [c0] (Ctl ++ [r, str "info", str "refs"])
      (joinSegs (Ctl ++ [r, str "info", str "refs"])) hD hDw
      (by
        intro x hx
        simp only [List.mem_singleton] at hx
        exact hx ▸ hCw c0 (List.mem_cons_self c0 Ctl))
      hSd2 hSw2 hrest]
    rw [family_resolve_from fs D c0 Ctl r [str "refs"] hdirs hstop (str "info")]
  have hpf0 : pyFind (joinSegs [r, str "info", str "refs"]) '/' 0 = some r.length := by
    rw [joinSegs_cons r [str "info", str "refs"] (by simp), pyFind, List.drop_zero,
      findIdxC_sep r (joinSegs [str "info", str "refs"]) '/' hr.1.2]
    simp
  have hjr : joinSegs [r, str "info", str "refs"]
      = r ++ '/' :: joinSegs [str "info", str "refs"] :=
    joinSegs_cons r [str "info", str "refs"] (by simp)
  have htake0 : (joinSegs [r, str "info", str "refs"]).take r.length = r := by
    rw [hjr]
    exact take_at_sep _ _ _ rfl
  have hdrop0 : (joinSegs [r, str "info", str "refs"]).drop r.length
      = str "/info/refs" := by
    rw [hjr, drop_at_sep _ _ _ rfl]
    decide
  have hdg2 : ¬ (cfg.enforceDotGit = true ∧ ¬ (endsWith (str ".git") r = true)) := by
    rintro ⟨h1, h2⟩
    exact h2 (hdg h1)
  have hlast : lastAfterC (str "service=" ++ svc) '=' = svc := by
    have hse : (str "service=" ++ svc : Str) = str "service" ++ '=' :: svc := by
      have : (str "service=" : Str) = str "service" ++ ['='] := by decide
      rw [this]
      simp
    rw [hse]
    exact lastAfterC_sep (str "service") svc '='
      (by rcases hsvc with h | h <;> (subst h; decide))
  have hqne : (str "service=" ++ svc : Str) ≠ [] := by
    intro he
    have := congrArg List.length he
    simp [str] at this
  have hscript : (gx.entries.contains
        (stripC '/' (str "/info/refs")) ∨
      gx.entries.contains (lastAfterC (str "service=" ++ svc) '=')) := by
    right
    rw [hlast]
    exact hent
  have habs : translate_path (strOfSegs D)
      (strOfSegs (c0 :: Ctl) ++ '/' :: r)
      = strOfSegs (D ++ ((c0 :: Ctl) ++ [r])) := by
    have h1 : strOfSegs (c0 :: Ctl) ++ '/' :: r = strOfSegs ((c0 :: Ctl) ++ [r]) := by
      rw [strOfSegs_append (c0 :: Ctl) [r] (by simp) (by simp)]
      rfl
    rw [h1]
    have hwall : ∀ x ∈ (c0 :: Ctl) ++ [r], WfSeg x := by
      intro x hx
      rcases List.mem_append.mp hx with h | h
      · exact (hCw x h).1
      · simp only [List.mem_singleton] at h
        exact h ▸ hr.1
    rw [translate_path_general D _ hD hDw
      (by
        apply not_mem_strOfSegs _ _ (by decide)
        intro s hs
        rcases List.mem_append.mp hs with h | h
        · exact (hCw s h).2.1
        · simp only [List.mem_singleton] at h
          exact h ▸ hr.2.1)
      (by
        apply not_mem_strOfSegs _ _ (by decide)
        intro s hs
        rcases List.mem_append.mp hs with h | h
        · exact (hCw s h).2.2.1
        · simp only [List.mem_singleton] at h
          exact h ▸ hr.2.2.1)
      (by
        rw [segsOf_strOfSegs _ hwall]
        intro x hx
        rcases List.mem_append.mp hx with h | h
        · exact ⟨(hCw x h).2.2.2.1, (hCw x h).2.2.2.2⟩
        · simp only [List.mem_singleton] at h
          exact ⟨h ▸ hr.2.2.2.1, h ▸ hr.2.2.2.2⟩)]
    rw [segsOf_strOfSegs _ hwall]
  have hhead : isFileStr fs (osPathJoin
      (strOfSegs (D ++ ((c0 :: Ctl) ++ [r]))) (str "HEAD"))
      = fs.isFile (D ++ (c0 :: Ctl) ++ [r, str "HEAD"]) := by
    have hwall2 : ∀ x ∈ D ++ ((c0 :: Ctl) ++ [r]), WfSeg x := by
      intro x hx
      rcases List.mem_append.mp hx with h | h
      · exact hDw x h
      · rcases List.mem_append.mp h with h2 | h2
        · exact (hCw x h2).1
        · simp only [List.mem_singleton] at h2
          exact h2 ▸ hr.1
    rw [osPathJoin_strOfSegs _ _ (by simp [hD]) hwall2, isFileStr,
      segsOf_append_seg _ _ (by constructor <;> decide),
      segsOf_strOfSegs _ hwall2]
    congr 1
    simp
  have hfind2 : find_repo fs (strOfSegs D) ('/' :: c0)
      (some (joinSegs (Ctl ++ [r, str "info", str "refs"]))) false
      = (strOfSegs (c0 :: Ctl), joinSegs [r, str "info", str "refs"]) := hfind
  rw [run_cgi]
  simp only [hpq, hfind2, hpf0, htake0, hdrop0, hlast]
  rw [if_neg (show ¬ (cfg.enforceDotGit = true ∧ ¬ endsWith (str ".git") r = true) from hdg2)]
  rw [if_neg (show ¬ ¬ (gx.entries.contains (stripC '/' (str "/info/refs")) = true ∨
      gx.entries.contains svc = true) from fun hcon => hcon (Or.inr hent))]
  rw [if_pos hqne]
  rw [if_neg (show ¬ ¬ gx.executable svc = true from fun hcon => hcon hexe)]
  rw [habs, hhead]
  cases hh : fs.isFile (D ++ (c0 :: Ctl) ++ [r, str "HEAD"]) with
  | false => simp
  | true =>
      rw [if_neg (show ¬ ¬ (true = true) from fun hcon => hcon rfl)]
      rw [if_pos rfl]
      rfl


theorem handle_family (cfg : Config) (fs : FS) (D : List Str) (c0 : Str)
    (Ctl : List Str) (r svc : Str) (gx : GitExec)
    (parentEnv : List (Str × Str)) (meta : ReqMeta) (osUser : Str)
    (hD : D ≠ []) (hDw : ∀ x ∈ D, WfSeg x)
    (hCw : ∀ x ∈ (c0 :: Ctl), PSeg x)
    (hr : PSeg r)
    (hsvc : svc = str "git-upload-pack" ∨ svc = str "git-receive-pack")
    (hdirs : ∀ k, k < (c0 :: Ctl).length →
        fs.isDir (D ++ (c0 :: Ctl).take (k + 1)) = true ∧
        isRepoSegs fs (D ++ (c0 :: Ctl).take (k + 1)) = false)
    (hstop : fs.isDir (D ++ (c0 :: Ctl) ++ [r]) = false ∨
        isRepoSegs fs (D ++ (c0 :: Ctl) ++ [r]) = true)
    (hfsq : ∀ q, (q ∈ fs.dirs ∨ q ∈ fs.files) → ∀ sg ∈ q, '?' ∉ sg)
    (hns : cfg.useNamespaces = false) (hcm : cfg.createMissing = false)
    (hdg : cfg.enforceDotGit = true → endsWith (str ".git") r = true)
    (hent : gx.entries.contains svc = true)
    (hexe : gx.executable svc = true) :
    handle cfg fs (strOfSegs D) gx parentEnv meta osUser
        (strOfSegs ((c0 :: Ctl) ++ [r, str "info", str "refs?service=" ++ svc]))
      = if fs.isFile (D ++ (c0 :: Ctl) ++ [r, str "HEAD"]) then
          .ok (strOfSegs (c0 :: Ctl)) r (str "/info/refs") (str "service=" ++ svc)
            (mkCgiEnv parentEnv (strOfSegs D) (strOfSegs (c0 :: Ctl)) r
              (str "/info/refs") (str "service=" ++ svc) none meta osUser)
        else .notFoundRepo := by
  rw [handle, is_cgi_family cfg fs D c0 Ctl r svc hD hDw hCw hr hsvc hdirs hstop
    hfsq hns hcm]
  dsimp only []
  rw [run_cgi_family cfg fs D c0 Ctl r svc gx parentEnv meta osUser none hD hDw
    hCw hr hsvc hdirs hstop hdg hent hexe]
  cases hh : fs.isFile (D ++ (c0 :: Ctl) ++ [r, str "HEAD"]) <;> simp


theorem FS.wf_of_wfB (fs : FS) (h : FS.wfB fs = true) : FS.Wf fs := by
  intro q hq k hk1 hk2
  rw [FS.wfB, List.all_eq_true] at h
  have h1 := h q (List.mem_append.mpr hq)
  rw [List.all_eq_true] at h1
  have h2 := h1 k (List.mem_range.mpr hk2)
  simp only [Bool.or_eq_true, decide_eq_true_eq] at h2
  rcases h2 with h3 | h3
  · omega
  · exact h3

theorem FS.noQmark_of_B (fs : FS) (h : FS.noQmarkB fs = true) :
    ∀ q, (q ∈ fs.dirs ∨ q ∈ fs.files) → ∀ sg ∈ q, '?' ∉ sg := by
  intro q hq sg hsg
  rw [FS.noQmarkB, List.all_eq_true] at h
  have h1 := h q (List.mem_append.mpr hq)
  rw [List.all_eq_true] at h1
  have h2 := h1 sg hsg
  simpa using h2

/-! ### The claims -/

/-- C3: if every container directory of the request path exists beneath the
document root but the repository directory itself is absent and
`createMissing` is off, the ref-advertisement request is answered with
NotFound — the `HEAD` probe of `run_cgi` (line 887) fails — and not with
Forbidden as the specification states. -/
theorem claim_C3 (cfg : Config) (fs : FS) (D : List Str) (c0 : Str)
    (Ctl : List Str) (r svc : Str) (gx : GitExec)
    (parentEnv : List (Str × Str)) (meta : ReqMeta) (osUser : Str)
    (hD : D ≠ []) (hDw : ∀ x ∈ D, WfSeg x)
    (hCw : ∀ x ∈ (c0 :: Ctl), PSeg x) (hr : PSeg r)
    (hsvc : svc = str "git-upload-pack" ∨ svc = str "git-receive-pack")
    (hdirs : ∀ k, k < (c0 :: Ctl).length →
        fs.isDir (D ++ (c0 :: Ctl).take (k + 1)) = true ∧
        isRepoSegs fs (D ++ (c0 :: Ctl).take (k + 1)) = false)
    (hmiss : fs.isDir (D ++ (c0 :: Ctl) ++ [r]) = false)
    (hWf : FS.Wf fs)
    (hfsq : ∀ q, (q ∈ fs.dirs ∨ q ∈ fs.files) → ∀ sg ∈ q, '?' ∉ sg)
    (hns : cfg.useNamespaces = false) (hcm : cfg.createMissing = false)
    (hdg : cfg.enforceDotGit = true → endsWith (str ".git") r = true)
    (hent : gx.entries.contains svc = true)
    (hexe : gx.executable svc = true) :
    handle cfg fs (strOfSegs D) gx parentEnv meta osUser
        (strOfSegs ((c0 :: Ctl) ++ [r, str "info", str "refs?service=" ++ svc]))
      = .notFoundRepo := by
  rw [handle_family cfg fs D c0 Ctl r svc gx parentEnv meta osUser hD hDw hCw hr
    hsvc hdirs (Or.inl hmiss) hfsq hns hcm hdg hent hexe]
  have hhf : fs.isFile (D ++ (c0 :: Ctl) ++ [r, str "HEAD"]) = false := by
    cases hf : fs.isFile (D ++ (c0 :: Ctl) ++ [r, str "HEAD"]) with
    | false => rfl
    | true =>
        have hmem := (isFile_iff_mem fs _).mp hf
        have hlen : (D ++ (c0 :: Ctl) ++ [r, str "HEAD"]).length
            = D.length + (c0 :: Ctl).length + 2 := by
          simp only [List.length_append, List.length_cons, List.length_nil]
        have htk : (D ++ (c0 :: Ctl) ++ [r, str "HEAD"]).take
            (D.length + (c0 :: Ctl).length + 1) = D ++ (c0 :: Ctl) ++ [r] := by
          have he : D ++ (c0 :: Ctl) ++ [r, str "HEAD"]
              = (D ++ (c0 :: Ctl) ++ [r]) ++ [str "HEAD"] := by simp
          have hl2 : D.length + (c0 :: Ctl).length + 1
              = (D ++ (c0 :: Ctl) ++ [r]).length := by
            simp only [List.length_append, List.length_cons, List.length_nil]
          rw [he, hl2, List.take_left]
        have hdir := hWf _ (Or.inr hmem) (D.length + (c0 :: Ctl).length + 1)
          (by omega) (by rw [hlen]; omega)
        rw [htk] at hdir
        rw [hdir] at hmiss
        cases hmiss
  rw [hhf]
  simp

/-- C3 counterexample: at the spec's own scenario (docroot `/srv/www`,
containers `/git/2019` on disk, `myrepo.git` absent, `createMissing` off)
the outcome is NotFound, not the Forbidden the claim asserts. -/
theorem claim_C3_counterexample :
    handle cfgDefault fsMissingRepo (str "/srv/www") gxStd [] metaGet
        (str "hostuser") (str "/git/2019/myrepo.git/info/refs?service=git-upload-pack")
      = .notFoundRepo := by decide

/-- Witness for C3: the general theorem applied at the concrete fixture. -/
theorem claim_C3_witness :
    handle cfgDefault fsMissingRepo (strOfSegs [str "srv", str "www"]) gxStd []
        metaGet (str "hostuser")
        (strOfSegs ((str "git" :: [str "2019"]) ++ [str "myrepo.git", str "info",
          str "refs?service=" ++ str "git-upload-pack"]))
      = .notFoundRepo :=
  claim_C3 cfgDefault fsMissingRepo [str "srv", str "www"] (str "git")
    [str "2019"] (str "myrepo.git") (str "git-upload-pack") gxStd [] metaGet
    (str "hostuser") (by decide) (by decide) (by decide) (by decide)
    (Or.inl rfl) (by decide) (by decide) (FS.wf_of_wfB _ (by decide))
    (FS.noQmark_of_B _ (by decide)) rfl rfl (by decide) (by decide) (by decide)

/-- C4: at environment-build time the only repository validation is the
`HEAD`-file probe of `run_cgi` line 887: a target whose marker check
(`is_repo`) succeeds via `refs/heads` alone is still rejected NotFound,
contrary to the claim; a `HEAD`-carrying target passes. -/
theorem claim_C4 (cfg : Config) (fs : FS) (D : List Str) (c0 : Str)
    (Ctl : List Str) (r svc : Str) (gx : GitExec)
    (parentEnv : List (Str × Str)) (meta : ReqMeta) (osUser : Str)
    (hD : D ≠ []) (hDw : ∀ x ∈ D, WfSeg x)
    (hCw : ∀ x ∈ (c0 :: Ctl), PSeg x) (hr : PSeg r)
    (hsvc : svc = str "git-upload-pack" ∨ svc = str "git-receive-pack")
    (hdirs : ∀ k, k < (c0 :: Ctl).length →
        fs.isDir (D ++ (c0 :: Ctl).take (k + 1)) = true ∧
        isRepoSegs fs (D ++ (c0 :: Ctl).take (k + 1)) = false)
    (hrr : isRepoSegs fs (D ++ (c0 :: Ctl) ++ [r]) = true)
    (hfsq : ∀ q, (q ∈ fs.dirs ∨ q ∈ fs.files) → ∀ sg ∈ q, '?' ∉ sg)
    (hns : cfg.useNamespaces = false) (hcm : cfg.createMissing = false)
    (hdg : cfg.enforceDotGit = true → endsWith (str ".git") r = true)
    (hent : gx.entries.contains svc = true)
    (hexe : gx.executable svc = true) :
    (fs.isFile (D ++ (c0 :: Ctl) ++ [r, str "HEAD"]) = false →
      handle cfg fs (strOfSegs D) gx parentEnv meta osUser
          (strOfSegs ((c0 :: Ctl) ++ [r, str "info", str "refs?service=" ++ svc]))
        = .notFoundRepo)
    ∧ (fs.isFile (D ++ (c0 :: Ctl) ++ [r, str "HEAD"]) = true →
      handle cfg fs (strOfSegs D) gx parentEnv meta osUser
          (strOfSegs ((c0 :: Ctl) ++ [r, str "info", str "refs?service=" ++ svc]))
        = .ok (strOfSegs (c0 :: Ctl)) r (str "/info/refs") (str "service=" ++ svc)
            (mkCgiEnv parentEnv (strOfSegs D) (strOfSegs (c0 :: Ctl)) r
              (str "/info/refs") (str "service=" ++ svc) none meta osUser)) := by
  have hfam := handle_family cfg fs D c0 Ctl r svc gx parentEnv meta osUser hD hDw
    hCw hr hsvc hdirs (Or.inr hrr) hfsq hns hcm hdg hent hexe
  constructor
  · intro hh
    rw [hfam, hh]
    simp
  · intro hh
    rw [hfam, hh]
    simp

/-- C4 counterexample: a target carrying only `refs/heads` (no `HEAD`)
passes the marker check yet is rejected NotFound, refuting the claim that
satisfying the marker check avoids the NotFound rejection. -/
theorem claim_C4_counterexample :
    is_repo fsHeadless (str "/srv/www/git/2019/myrepo.git") = true ∧
    handle cfgDefault fsHeadless (str "/srv/www") gxStd [] metaGet
        (str "hostuser") (str "/git/2019/myrepo.git/info/refs?service=git-upload-pack")
      = .notFoundRepo := by decide

/-- Witness for C4: the `HEAD`-carrying fixture passes validation. -/
theorem claim_C4_witness :
    handle cfgDefault fsFullRepo (strOfSegs [str "srv", str "www"]) gxStd []
        metaGet (str "hostuser")
        (strOfSegs ((str "git" :: [str "2019"]) ++ [str "myrepo.git", str "info",
          str "refs?service=" ++ str "git-upload-pack"]))
      = .ok (strOfSegs (str "git" :: [str "2019"])) (str "myrepo.git")
          (str "/info/refs") (str "service=" ++ str "git-upload-pack")
          (mkCgiEnv [] (strOfSegs [str "srv", str "www"])
            (strOfSegs (str "git" :: [str "2019"])) (str "myrepo.git")
            (str "/info/refs") (str "service=" ++ str "git-upload-pack") none
            metaGet (str "hostuser")) :=
  (claim_C4 cfgDefault fsFullRepo [str "srv", str "www"] (str "git")
    [str "2019"] (str "myrepo.git") (str "git-upload-pack") gxStd [] metaGet
    (str "hostuser") (by decide) (by decide) (by decide) (by decide)
    (Or.inl rfl) (by decide) (by decide) (FS.noQmark_of_B _ (by decide)) rfl rfl
    (by decide) (by decide) (by decide)).2 (by decide)


/-- C5: the response logic splits the subprocess stdout at the first
CRLFCRLF boundary into header block and payload, and always sends a
Content-Length header computed from the observed payload length — also
when the header block already declares its own length, in which case the
event is (only) logged; the claim that no Content-Length is injected in
that case is refuted by the counterexample. -/
theorem claim_C5 (stdout : Str) :
    (run_cgi_respond stdout).sentHeaders
        = [(str "Content-Length", natToStr (run_cgi_respond stdout).payload.length)]
    ∧ ((run_cgi_respond stdout).loggedLengthPresent
        = containsSub (str "Content-Length") (run_cgi_respond stdout).hdr)
    ∧ (∀ i, firstOccur (str "\r\n\r\n") stdout = some i →
        (run_cgi_respond stdout).hdr = stdout.take i
        ∧ (run_cgi_respond stdout).payload = stdout.drop (i + 4)
        ∧ occursAt (str "\r\n\r\n") stdout i = true
        ∧ ∀ j, j < i → occursAt (str "\r\n\r\n") stdout j = false)
    ∧ (firstOccur (str "\r\n\r\n") stdout = none →
        (run_cgi_respond stdout).hdr = stdout
        ∧ (run_cgi_respond stdout).payload = []) := by
  refine ⟨rfl, rfl, ?_, ?_⟩
  · intro i hi
    have hsp := firstOccur_some_spec _ _ _ hi
    refine ⟨?_, ?_, hsp.1, fun j hj => hsp.2 j hj⟩
    · show (pyPartition stdout (str "\r\n\r\n")).1 = stdout.take i
      rw [pyPartition, hi]
    · show (pyPartition stdout (str "\r\n\r\n")).2 = stdout.drop (i + 4)
      rw [pyPartition, hi]
      rfl
  · intro hnone
    constructor
    · show (pyPartition stdout (str "\r\n\r\n")).1 = stdout
      rw [pyPartition, hnone]
    · show (pyPartition stdout (str "\r\n\r\n")).2 = []
      rw [pyPartition, hnone]

/-- C5 counterexample: a stdout whose header block already declares a
Content-Length still has a Content-Length header sent, computed from the
payload; the declaration is only logged. -/
theorem claim_C5_counterexample :
    (run_cgi_respond (str "Content-Length: 5\r\nX: y\r\n\r\nhello")).loggedLengthPresent
        = true
    ∧ (run_cgi_respond (str "Content-Length: 5\r\nX: y\r\n\r\nhello")).sentHeaders
        = [(str "Content-Length", str "5")]
    ∧ (run_cgi_respond (str "Content-Length: 5\r\nX: y\r\n\r\nhello")).hdr
        = str "Content-Length: 5\r\nX: y"
    ∧ (run_cgi_respond (str "Content-Length: 5\r\nX: y\r\n\r\nhello")).payload
        = str "hello" := by decide


/-- C2: for a request whose collapsed path matches a configured rule with
`privaterepo` false, the request proceeds without credentials iff the
collapsed path does not contain the substring `service=git-receive-pack`.
The GET ref-advertisement form of a push carries that substring in its
query and is gated, but the POST `/…/git-receive-pack` form does not, so
every POST push proceeds unauthenticated — refuting the claim that all
push forms require Basic-Auth. -/
theorem claim_C2 (authDict : List (Str × AuthRule)) (ra oa : Bool)
    (verify : Str → Str → Bool) (decode : Str → Option Str)
    (collapsed : Str) (entry : Str × AuthRule)
    (hne : authDict ≠ [])
    (hfind : authDict.find? (fun p => ruleMatches collapsed p.1) = some entry)
    (hpriv : entry.2.privaterepo.getD false = false) :
    ∀ hdr, (send_head authDict ra oa verify decode collapsed hdr = .proceedPlain
      ↔ containsSub (str "service=git-receive-pack") collapsed = false) := by
  intro hdr
  by_cases hcon : containsSub (str "service=git-receive-pack") collapsed = true
  · rw [show containsSub (str "service=git-receive-pack") collapsed = true from hcon]
    constructor
    · intro h
      exfalso
      rw [send_head, if_neg hne] at h
      simp only [hfind, Option.isSome_some] at h
      rw [if_neg (by
        rintro (h1 | ⟨h1, h2⟩)
        · cases h1
        · exact h2 hcon)] at h
      repeat' split at h
      all_goals cases h
    · intro h
      cases h
  · have hconf : containsSub (str "service=git-receive-pack") collapsed = false := by
      cases hb : containsSub (str "service=git-receive-pack") collapsed with
      | false => rfl
      | true => exact absurd hb hcon
    rw [hconf]
    constructor
    · intro _; rfl
    · intro _
      rw [send_head, if_neg hne]
      simp only [hfind]
      rw [if_pos (Or.inr ⟨hpriv, fun hfalse => hcon hfalse⟩)]

/-- C2 counterexample: under a `privaterepo = false` rule, the POST push
request `/private/x.git/git-receive-pack` proceeds with no Authorization
header at all. -/
theorem claim_C2_counterexample :
    containsSub (str "git-receive-pack") (str "/private/x.git/git-receive-pack") = true
    ∧ send_head adPublic false true verifyStd decodeStd
        (str "/private/x.git/git-receive-pack") none = .proceedPlain := by decide

/-- Witness for C2: the gated GET form at a concrete table. -/
theorem claim_C2_witness :
    send_head adPublic false true verifyStd decodeStd
        (str "/private/a.git/info/refs?service=git-upload-pack") none
      = .proceedPlain :=
  ((claim_C2 adPublic false true verifyStd decodeStd
      (str "/private/a.git/info/refs?service=git-upload-pack")
      (str "/private", ⟨some (str "myrealm"), some [str "alice:h1"],
        some false, some false⟩)
      (by decide) (by decide) (by decide)) none).mpr (by decide)


/-- C6: for a request requiring credentials (matched rule, gated), the
outcomes are: missing or empty Authorization header — challenge with the
rule's description; a two-token header with a non-Basic scheme — 406; a
two-token Basic header whose payload fails base64/ASCII decoding — 422; a
header that splits into some other number of tokens — 422; a decoded
payload that does not split on `:` into exactly two parts — 403 (not 422
as claimed); a well-formed `user:pass` failing verification — 403. -/
theorem claim_C6 (authDict : List (Str × AuthRule)) (ra oa : Bool)
    (verify : Str → Str → Bool) (decode : Str → Option Str)
    (collapsed : Str) (entry : Str × AuthRule) (lines : List Str)
    (secdict : List (Str × Str))
    (hne : authDict ≠ [])
    (hfind : authDict.find? (fun p => ruleMatches collapsed p.1) = some entry)
    (hgate : entry.2.privaterepo.getD false = true ∨
      containsSub (str "service=git-receive-pack") collapsed = true)
    (hsec : entry.2.secretsfile = some lines)
    (hdict : buildSecdict oa lines = some secdict) :
    (send_head authDict ra oa verify decode collapsed none
        = .challenge (entry.2.description.getD (str "Basic auth requested")))
    ∧ (send_head authDict ra oa verify decode collapsed (some [])
        = .challenge (entry.2.description.getD (str "Basic auth requested")))
    ∧ (∀ a, a ≠ [] → pySplitWs a ≠ [] → (pySplitWs a).length ≠ 2 →
        send_head authDict ra oa verify decode collapsed (some a) = .reject 422)
    ∧ (∀ a, a ≠ [] → (pySplitWs a).length = 2 →
        toLowerStr ((pySplitWs a).headD []) ≠ str "basic" →
        send_head authDict ra oa verify decode collapsed (some a) = .reject 406)
    ∧ (∀ a, a ≠ [] → (pySplitWs a).length = 2 →
        toLowerStr ((pySplitWs a).headD []) = str "basic" →
        decode ((pySplitWs a).getD 1 []) = none →
        send_head authDict ra oa verify decode collapsed (some a) = .reject 422)
    ∧ (∀ a d, a ≠ [] → (pySplitWs a).length = 2 →
        toLowerStr ((pySplitWs a).headD []) = str "basic" →
        decode ((pySplitWs a).getD 1 []) = some d →
        (splitAllC d ':').length ≠ 2 →
        send_head authDict ra oa verify decode collapsed (some a) = .reject 403)
    ∧ (∀ a d u p hsh, a ≠ [] → (pySplitWs a).length = 2 →
        toLowerStr ((pySplitWs a).headD []) = str "basic" →
        decode ((pySplitWs a).getD 1 []) = some d →
        splitAllC d ':' = [u, p] →
        envGet secdict u = some hsh → verify hsh p = false →
        send_head authDict ra oa verify decode collapsed (some a) = .reject 403) := by
  have hbase : ∀ hdr, send_head authDict ra oa verify decode collapsed hdr
      = match hdr with
        | none => .challenge (entry.2.description.getD (str "Basic auth requested"))
        | some a =>
            if a = [] then
              .challenge (entry.2.description.getD (str "Basic auth requested"))
            else
              if (pySplitWs a).length = 2 then
                if toLowerStr ((pySplitWs a).headD []) ≠ str "basic" then .reject 406
                else
                  match decode ((pySplitWs a).getD 1 []) with
                  | none => .reject 422
                  | some decoded =>
                      if (splitAllC decoded ':').length = 2 ∧
                          (match envGet secdict ((splitAllC decoded ':').headD []) with
                           | some hsh => verify hsh ((splitAllC decoded ':').getD 1 [])
                           | none => false) = true then
                        .proceedAuth (if entry.2.realaccount.getD ra then
                          some ((splitAllC decoded ':').headD []) else none)
                      else .reject 403
              else if pySplitWs a = [] then .internalError
              else .reject 422 := by
    intro hdr
    rw [send_head, if_neg hne]
    simp only [hfind, Option.isSome_some]
    rw [if_neg (by
      rintro (h1 | ⟨h1, h2⟩)
      · cases h1
      · rcases hgate with hg | hg
        · rw [hg] at h1; cases h1
        · exact h2 hg)]
    rw [hsec]
    dsimp only []
    rw [hdict]
  refine ⟨?_, ?_, ?_, ?_, ?_, ?_, ?_⟩
  · rw [hbase]
  · rw [hbase]
    simp
  · intro a ha hsne hlen
    rw [hbase]
    simp only [if_neg ha, if_neg hlen, if_neg hsne]
  · intro a ha hlen hbasic
    rw [hbase]
    simp only [if_neg ha, if_pos hlen, if_pos hbasic]
  · intro a ha hlen hbasic hdec
    rw [hbase]
    simp only [if_neg ha, if_pos hlen, hbasic, hdec]
    rw [if_neg (by intro hcon; exact hcon rfl)]
  · intro a d ha hlen hbasic hdec hsplit
    rw [hbase]
    simp only [if_neg ha, if_pos hlen, hdec]
    rw [if_neg (by intro hcon; exact hcon hbasic)]
    rw [if_neg (by
      rintro ⟨h1, _⟩
      exact hsplit h1)]
  · intro a d u p hsh ha hlen hbasic hdec hsplit hget hver
    rw [hbase]
    simp only [if_neg ha, if_pos hlen, hdec]
    rw [if_neg (by intro hcon; exact hcon hbasic)]
    rw [if_neg (by
      rintro ⟨h1, h2⟩
      rw [hsplit] at h2
      simp only [List.headD_cons, List.getD_cons_succ, List.getD_cons_zero] at h2
      simp only [hget] at h2
      rw [hver] at h2
      cases h2)]

/-- C6 counterexample: a Basic payload that decodes to a colon-free string
(`userpass`) is rejected with 403, not the 422 the claim asserts for a
decoded form that does not split on `:` into exactly two parts. -/
theorem claim_C6_counterexample :
    decodeStd (str "dXNlcnBhc3M=") = some (str "userpass")
    ∧ send_head adPrivate false true verifyStd decodeStd
        (str "/private/x.git/info/refs?service=git-upload-pack")
        (some (str "Basic dXNlcnBhc3M=")) = .reject 403 := by decide

/-- Witness for C6: the challenge and reject branches at a concrete table. -/
theorem claim_C6_witness :
    send_head adPrivate false true verifyStd decodeStd
        (str "/private/x.git/info/refs?service=git-upload-pack") none
      = .challenge (str "myrealm") :=
  (claim_C6 adPrivate false true verifyStd decodeStd
    (str "/private/x.git/info/refs?service=git-upload-pack")
    (str "/private", ⟨some (str "myrealm"), some [str "alice:h1"],
      some false, some true⟩)
    [str "alice:h1"] [(str "alice", str "h1")]
    (by decide) (by decide) (Or.inl (by decide)) (by decide) (by decide)).1


/-- C9: the RFC-3875 defaulting loop of `run_cgi` uses
`env.setdefault(key, u"")` against the parent process's own environment,
so a stale parent value for a required variable (here `REMOTE_HOST` and
`CONTENT_LENGTH`) is handed to the handler unchanged instead of being
overridden with an empty string: two runs of the same request that differ
only in the parent environment hand the handler different values. -/
theorem claim_C9 :
    (okEnv (handle cfgDefault fsFullRepo (str "/srv/www") gxStd parentStale
        metaGet (str "hostuser")
        (str "/git/2019/myrepo.git/info/refs?service=git-upload-pack"))).map
      (fun env => (envGet env (str "REMOTE_HOST"), envGet env (str "CONTENT_LENGTH")))
      = some (some (str "stale.example"), some (str "999"))
    ∧ (okEnv (handle cfgDefault fsFullRepo (str "/srv/www") gxStd []
        metaGet (str "hostuser")
        (str "/git/2019/myrepo.git/info/refs?service=git-upload-pack"))).map
      (fun env => (envGet env (str "REMOTE_HOST"), envGet env (str "CONTENT_LENGTH")))
      = some (some [], some []) := by decide

/-- C1: `find_repo` advances the root/tail split past a segment exactly
when that segment's translated directory exists and is not itself a
repository, and halts at the first segment that is missing (in strict
mode that segment starts the returned tail) or is a repository (the
parent becomes root); in fake mode missing segments never fail and are
accumulated as trailing components appended to the returned root
(stated segment-wise: at the filesystem root the assembled string doubles
a slash, see `find_repo_spec1` for the exact-string side condition); the
returned tail never carries a leading slash. -/
theorem claim_C1 (fs : FS) (D : List Str) (af : Bool) (segs : List Str)
    (hD : D ≠ []) (hDw : ∀ x ∈ D, WfSeg x)
    (hafD : af = true → fs.isDir D = true ∧ isRepoSegs fs D = false)
    (hSd : ∀ x ∈ segs.dropLast, PSeg x) (hSw : ∀ x ∈ segs, WfSeg x) :
    segsOf (find_repo fs (strOfSegs D) (strOfSegs segs) none af).1
        = (resolveSegs fs D af [] [] segs).1 ++ (resolveSegs fs D af [] [] segs).2.1
    ∧ (find_repo fs (strOfSegs D) (strOfSegs segs) none af).2
        = joinSegs (resolveSegs fs D af [] [] segs).2.2
    ∧ (af = false → (resolveSegs fs D af [] [] segs).2.1 = [])
    ∧ startsWith (str "/")
        (find_repo fs (strOfSegs D) (strOfSegs segs) none af).2 = false := by
  obtain ⟨h1, h2, h3⟩ := find_repo_spec1 fs D af segs hD hDw hafD hSd hSw
  refine ⟨h1, h2, ?_, ?_⟩
  · intro haf
    subst haf
    exact resolveSegs_strict_fakes fs D segs [] []
  · rw [h2]
    apply startsWith_slash_joinSegs
    intro x hx
    exact hSw x ((resolveSegs_mem fs D af segs [] []).2.2 x hx)

/-- Witness for C1: a fake-mode resolution across one existing container
with one missing intermediate segment. -/
theorem claim_C1_witness :
    segsOf (find_repo fsFullRepo (strOfSegs [str "srv", str "www"])
        (strOfSegs [str "git", str "ns1", str "2019"]) none true).1
      = (resolveSegs fsFullRepo [str "srv", str "www"] true [] []
          [str "git", str "ns1", str "2019"]).1
        ++ (resolveSegs fsFullRepo [str "srv", str "www"] true [] []
          [str "git", str "ns1", str "2019"]).2.1
    ∧ (find_repo fsFullRepo (strOfSegs [str "srv", str "www"])
        (strOfSegs [str "git", str "ns1", str "2019"]) none true).2
      = joinSegs (resolveSegs fsFullRepo [str "srv", str "www"] true [] []
          [str "git", str "ns1", str "2019"]).2.2
    ∧ startsWith (str "/")
        (find_repo fsFullRepo (strOfSegs [str "srv", str "www"])
          (strOfSegs [str "git", str "ns1", str "2019"]) none true).2 = false := by
  have h := claim_C1 fsFullRepo [str "srv", str "www"] true
    [str "git", str "ns1", str "2019"] (by decide) (by decide)
    (fun _ => by decide) (by decide) (by decide)
  exact ⟨h.1, h.2.1, h.2.2.2⟩


/-- C10: a collapsed path whose join beneath the document root names a
file or directory that already exists on disk is always served statically:
`is_cgi` answers `static` whether or not the path matches the Git
object-storage pattern, and no namespace rewrite can divert it, because a
fully existing path resolves identically in fake and strict mode. -/
theorem claim_C10 (cfg : Config) (fs : FS) (D : List Str) (segs : List Str)
    (hD : D ≠ []) (hDw : ∀ x ∈ D, WfSeg x)
    (hS : segs ≠ []) (hSd : ∀ x ∈ segs.dropLast, PSeg x)
    (hSw : ∀ x ∈ segs, WfSeg x)
    (hWf : FS.Wf fs)
    (hafD : fs.isDir D = true ∧ isRepoSegs fs D = false)
    (hex : fs.existsP (D ++ segs) = true) :
    is_cgi cfg fs (strOfSegs D) (strOfSegs segs) = .static := by
  have hmem : (D ++ segs) ∈ fs.dirs ∨ (D ++ segs) ∈ fs.files := by
    rw [FS.existsP, Bool.or_eq_true] at hex
    rcases hex with h | h
    · exact Or.inl ((isDir_iff_mem fs _).mp h)
    · exact Or.inr ((isFile_iff_mem fs _).mp h)
  have hprobe : ∀ j, j + 2 ≤ segs.length →
      fs.isDir (D ++ [] ++ segs.take (j + 1)) = true := by
    intro j hj
    have htk : (D ++ segs).take (D.length + (j + 1)) = D ++ segs.take (j + 1) := by
      rw [List.take_append_eq_append_take,
        List.take_of_length_le (show D.length ≤ D.length + (j + 1) by omega)]
      have harith : D.length + (j + 1) - D.length = j + 1 := by omega
      rw [harith]
    have := hWf (D ++ segs) hmem (D.length + (j + 1)) (by omega)
      (by
        have hDl : 0 < D.length := List.length_pos.mpr hD
        simp only [List.length_append]
        omega)
    rw [htk] at this
    simpa using this
  have hres : resolveSegs fs D true [] [] segs = resolveSegs fs D false [] [] segs :=
    resolveSegs_af_irrelevant fs D segs [] [] (by
      intro k hk
      have := hprobe k hk
      simpa using this)
  have hfakes : (resolveSegs fs D true [] [] segs).2.1 = [] := by
    rw [hres]
    exact resolveSegs_strict_fakes fs D segs [] []
  have hft : find_repo fs (strOfSegs D) (strOfSegs segs) none true
      = find_repo fs (strOfSegs D) (strOfSegs segs) none false := by
    obtain ⟨t1, t2, t3⟩ := find_repo_spec1 fs D true segs hD hDw (fun _ => hafD)
      hSd hSw
    obtain ⟨f1, f2, f3⟩ := find_repo_spec1 fs D false segs hD hDw
      (by intro h; cases h) hSd hSw
    have hexact : (2 ≤ segs.length → fs.isDir (D ++ segs.take 1) = true) := by
      intro hlen
      have := hprobe 0 (by omega)
      simpa using this
    have ht := t3 (fun _ hlen => hexact hlen)
    have hf := f3 (by intro h; cases h)
    apply Prod.ext
    · rw [ht, hf, hres]
    · rw [t2, f2, hres]
  rw [is_cgi]
  simp only [hft, ne_eq, not_true, if_false, ite_self]
  cases hre : getREMatch (strOfSegs segs) with
  | true => simp [hre]
  | false =>
      have hexStr : existsStr fs
          (osPathJoin (strOfSegs D) (stripC '/' (strOfSegs segs))) = true := by
        rw [stripC_strOfSegs segs hS hSw, osPathJoin_strOfSegs D _ hD hDw]
        rw [show strOfSegs D ++ '/' :: joinSegs segs = strOfSegs (D ++ segs)
          from (strOfSegs_append D segs hD hS).symm]
        rw [existsStr, segsOf_strOfSegs _ (by
          intro x hx
          rcases List.mem_append.mp hx with h | h
          · exact hDw x h
          · exact hSw x h)]
        exact hex
      simp [hre, hexStr]

/-- Witness for C10: an existing directory under the docroot is static. -/
theorem claim_C10_witness :
    is_cgi cfgDefault fsFullRepo (strOfSegs [str "srv", str "www"])
        (strOfSegs [str "git", str "2019"]) = .static :=
  claim_C10 cfgDefault fsFullRepo [str "srv", str "www"] [str "git", str "2019"]
    (by decide) (by decide) (by decide) (by decide) (by decide)
    (FS.wf_of_wfB _ (by decide)) (by decide) (by decide)


/-- C7: for a flat request `/repo/<plumbing>` whose first segment exists
beneath the document root and is a valid repository, `firstChildOk = false`
yields Forbidden with the guidance message and `firstChildOk = true`
promotes one directory level (the document root's parent becomes the
effective root, its basename is prepended to the path) and the request
proceeds. The original claim's other half — that a *missing* first-child
path is always Forbidden when `firstChildOk` is false — is refuted by the
counterexample, where `createMissing` is set and the POST form proceeds. -/
theorem claim_C7 (cfg : Config) (fs : FS) (M : List Str) (dl r svc : Str)
    (gx : GitExec) (parentEnv : List (Str × Str)) (meta : ReqMeta) (osUser : Str)
    (hM : M ≠ []) (hMw : ∀ x ∈ M, WfSeg x) (hdl : PSeg dl)
    (hr : PSeg r)
    (hsvc : svc = str "git-upload-pack" ∨ svc = str "git-receive-pack")
    (hDdir : fs.isDir (M ++ [dl]) = true)
    (hDnr : isRepoSegs fs (M ++ [dl]) = false)
    (hrd : fs.isDir (M ++ [dl] ++ [r]) = true)
    (hhf : fs.isFile (M ++ [dl] ++ [r, str "HEAD"]) = true)
    (hnx : fs.existsP (M ++ [dl] ++ [r, svc]) = false)
    (hns : cfg.useNamespaces = false) (hcm : cfg.createMissing = false)
    (hdg : cfg.enforceDotGit = true → endsWith (str ".git") r = true)
    (hent : gx.entries.contains svc = true)
    (hexe : gx.executable svc = true) :
    (cfg.firstChildOk = false →
      handle cfg fs (strOfSegs (M ++ [dl])) gx parentEnv meta osUser
          (strOfSegs [r, svc])
        = .forbidden
            "The requested Git repo should not be a first child of the root URI")
    ∧ (cfg.firstChildOk = true →
      handle cfg fs (strOfSegs (M ++ [dl])) gx parentEnv meta osUser
          (strOfSegs [r, svc])
        = .ok (strOfSegs [dl]) r ('/' :: svc) []
            (mkCgiEnv parentEnv (strOfSegs M) (strOfSegs [dl]) r ('/' :: svc) []
              none meta osUser)) := by
  have hD : (M ++ [dl] : List Str) ≠ [] := by simp
  have hDw : ∀ x ∈ M ++ [dl], WfSeg x := by
    intro x hx
    rcases List.mem_append.mp hx with h | h
    · exact hMw x h
    · simp only [List.mem_singleton] at h
      exact h ▸ hdl.1
  have hsw : WfSeg svc := by
    rcases hsvc with h | h <;> (subst h; exact ⟨by decide, by decide⟩)
  have hsq : ('?' : Char) ∉ svc := by
    rcases hsvc with h | h <;> (subst h; decide)
  have hrr : isRepoSegs fs (M ++ [dl] ++ [r]) = true := by
    rw [isRepoSegs]
    have he : (M ++ [dl] ++ [r]) ++ [str "HEAD"] = M ++ [dl] ++ [r, str "HEAD"] := by
      simp
    rw [he, hhf]
    rfl
  have hSw2 : ∀ x ∈ [r, svc], WfSeg x := by
    intro x hx
    simp only [List.mem_cons, List.mem_singleton, List.not_mem_nil, or_false] at hx
    rcases hx with h | h
    · exact h ▸ hr.1
    · exact h ▸ hsw
  have hSd2 : ∀ x ∈ ([r, svc] : List Str).dropLast, PSeg x := by
    intro x hx
    simp only [List.dropLast_cons₂, List.dropLast_single, List.mem_singleton] at hx
    exact hx ▸ hr
  have hresolve : resolveSegs fs (M ++ [dl]) false [] [] [r, svc]
      = ([], [], [r, svc]) := by
    have hd2 : fs.isDir ((M ++ [dl]) ++ [] ++ [r]) = true := by simpa using hrd
    have hr2 : isRepoSegs fs ((M ++ [dl]) ++ [] ++ [r]) = true := by simpa using hrr
    exact resolveSegs_halt_repo fs (M ++ [dl]) false [] [] r svc [] hd2 hr2
  have hresolveT : resolveSegs fs (M ++ [dl]) true [] [] [r, svc]
      = ([], [], [r, svc]) := by
    have hd2 : fs.isDir ((M ++ [dl]) ++ [] ++ [r]) = true := by simpa using hrd
    have hr2 : isRepoSegs fs ((M ++ [dl]) ++ [] ++ [r]) = true := by simpa using hrr
    exact resolveSegs_halt_repo fs (M ++ [dl]) true [] [] r svc [] hd2 hr2
  have hgrt : find_repo fs (strOfSegs (M ++ [dl])) (strOfSegs [r, svc]) none false
      = (str "/", joinSegs [r, svc]) := by
    obtain ⟨h1, h2, h3⟩ := find_repo_spec1 fs (M ++ [dl]) false [r, svc] hD hDw
      (by intro h; cases h) hSd2 hSw2
    apply Prod.ext
    · rw [h3 (by intro h; cases h), hresolve]
      rfl
    · rw [h2, hresolve]
  have hgr1 : find_repo fs (strOfSegs (M ++ [dl])) (strOfSegs [r, svc]) none true
      = (str "/", joinSegs [r, svc]) := by
    obtain ⟨h1, h2, h3⟩ := find_repo_spec1 fs (M ++ [dl]) true [r, svc] hD hDw
      (fun _ => ⟨hDdir, hDnr⟩) hSd2 hSw2
    apply Prod.ext
    · rw [h3 (by
        intro _ _
        simpa using hrd), hresolveT]
      rfl
    · rw [h2, hresolveT]
  have hgrT0 : find_repo fs (strOfSegs (M ++ [dl])) (strOfSegs []) none false
      = (str "/", []) := by
    obtain ⟨h1, h2, h3⟩ := find_repo_spec1 fs (M ++ [dl]) false [] hD hDw
      (by intro h; cases h) (by intro x hx; cases hx) (by intro x hx; cases hx)
    apply Prod.ext
    · rw [h3 (by intro h; cases h)]
      rfl
    · rw [h2]
      rfl
  have hgrT : find_repo fs (strOfSegs (M ++ [dl])) (str "/") none false
      = (str "/", []) := hgrT0
  have hre : getREMatch (strOfSegs [r, svc]) = false := by
    obtain ⟨s0, hs0⟩ := svc_shape svc hsvc
    have hsplit : ([r, svc] : List Str) = [r] ++ [s0 ++ '-' :: str "pack"] := by
      rw [hs0]
      simp
    rw [hsplit, strOfSegs, joinSegs_split_last]
    have hshift : ('/' :: (joinSegs ([r] ++ [s0]) ++ '-' :: str "pack"))
        = ('/' :: joinSegs ([r] ++ [s0])) ++ str "-pack" := by
      simp
      decide
    rw [hshift]
    exact getREMatch_dashpack _
  have hex2 : existsStr fs (osPathJoin (strOfSegs (M ++ [dl]))
      (stripC '/' (strOfSegs [r, svc]))) = false := by
    rw [stripC_strOfSegs _ (by simp) hSw2,
      osPathJoin_strOfSegs _ _ hD hDw]
    rw [show strOfSegs (M ++ [dl]) ++ '/' :: joinSegs [r, svc]
        = strOfSegs ((M ++ [dl]) ++ [r, svc])
      from (strOfSegs_append (M ++ [dl]) [r, svc] hD (by simp)).symm]
    rw [existsStr, segsOf_strOfSegs _ (by
      intro x hx
      rcases List.mem_append.mp hx with h | h
      · exact hDw x h
      · exact hSw2 x h)]
    exact hnx
  have hlst : lstripC '/' (joinSegs [r, svc]) = joinSegs [r, svc] :=
    lstripC_joinSegs _ hSw2
  have hjrs : joinSegs [r, svc] = r ++ '/' :: svc := by
    rw [joinSegs_cons r [svc] (by simp)]
    rfl
  have hbs : beforeSub (joinSegs [r, svc]) (str "/") = r := by
    rw [hjrs, beforeSub]
    have hq : (str "/" : Str) = ['/'] := rfl
    rw [hq, pyPartition_sep_single r '/' svc hr.1.2]
  have hisr : is_repo fs (osPathJoin (strOfSegs (M ++ [dl])) r) = true := by
    rw [osPathJoin_strOfSegs _ _ hD hDw]
    rw [show strOfSegs (M ++ [dl]) ++ '/' :: r = strOfSegs ((M ++ [dl]) ++ [r]) by
      rw [strOfSegs_append (M ++ [dl]) [r] hD (by simp)]
      rfl]
    rw [is_repo_strOfSegs fs _ (by
      intro x hx
      rcases List.mem_append.mp hx with h | h
      · exact hDw x h
      · simp only [List.mem_singleton] at h
        exact h ▸ hr.1)]
    exact hrr
  have hiscgi : is_cgi cfg fs (strOfSegs (M ++ [dl])) (strOfSegs [r, svc])
      = (if cfg.firstChildOk = true then
          IsCgiResult.cgi (strOfSegs M) fs ('/' :: dl) (joinSegs [r, svc]) none
        else .forbidden
          "The requested Git repo should not be a first child of the root URI") := by
    rw [is_cgi]
    simp only [hns, Bool.false_eq_true, if_false, hgrt, hre, hex2, hgr1, hgrT,
      Bool.false_eq_true, if_false]
    simp only [if_true]
    rw [if_neg (by
      rintro ⟨_, h2⟩
      rw [hlst, hbs] at h2
      exact h2 hisr)]
    cases hfc : cfg.firstChildOk with
    | false =>
        rw [if_neg (by intro h; cases h)]
        rfl
    | true =>
        rw [if_pos rfl]
        have hsp : osPathSplit (strOfSegs (M ++ [dl])) = (strOfSegs M, dl) :=
          osPathSplit_strOfSegs M dl hMw hdl.1
        simp only [hsp, if_true]
        have hcoll : ('/' :: dl ++ strOfSegs [r, svc] : Str)
            = '/' :: (dl ++ '/' :: joinSegs [r, svc]) := by
          rw [strOfSegs]
          simp
        rw [hcoll, pyFind_one dl (joinSegs [r, svc]) hdl.1.2]
        have htk2 : ('/' :: (dl ++ '/' :: joinSegs [r, svc])).take (dl.length + 1)
            = '/' :: dl := by
          rw [show ('/' :: (dl ++ '/' :: joinSegs [r, svc]) : Str)
              = ('/' :: dl) ++ '/' :: joinSegs [r, svc] from by simp]
          exact take_at_sep _ _ _ (by simp)
        have hdr2 : ('/' :: (dl ++ '/' :: joinSegs [r, svc])).drop (dl.length + 1 + 1)
            = joinSegs [r, svc] := by
          rw [show ('/' :: (dl ++ '/' :: joinSegs [r, svc]) : Str)
              = ('/' :: dl) ++ '/' :: joinSegs [r, svc] from by simp]
          exact drop_sep_left _ _ _ (by simp)
        dsimp only []
        rw [htk2, hdr2]
        simp only [hcm, Bool.false_eq_true, false_and, if_false]
  constructor
  · intro hfc
    rw [handle, hiscgi, hfc]
    rw [if_neg (by intro h; cases h)]
  · intro hfc
    rw [handle, hiscgi, hfc]
    rw [if_pos rfl]
    dsimp only []
    have hpq2 : pyPartition (joinSegs [r, svc]) (str "?")
        = (joinSegs [r, svc], []) := by
      have hq : (str "?" : Str) = ['?'] := rfl
      rw [hq]
      exact pyPartition_none_single _ '?' (not_mem_joinSegs '?' [r, svc]
        (by decide) (by
          intro s hs
          simp only [List.mem_cons, List.mem_singleton, List.not_mem_nil,
            or_false] at hs
          rcases hs with h | h
          · exact h ▸ hr.2.1
          · exact h ▸ hsq))
    have hfind2 : find_repo fs (strOfSegs M) (strOfSegs [dl])
        (some (joinSegs [r, svc])) false
        = (strOfSegs [dl], joinSegs [r, svc]) := by
      rw [find_repo_spec2 fs M [dl] [r, svc] (joinSegs [r, svc]) hM hMw
        (by
          intro x hx
          simp only [List.mem_singleton] at hx
          exact hx ▸ hdl)
        hSd2 hSw2 hlst]
      have hres2 : resolveSegs fs M false [dl] [] [r, svc]
          = ([dl], [], [r, svc]) := by
        have hd2 : fs.isDir (M ++ [dl] ++ [r]) = true := hrd
        exact resolveSegs_halt_repo fs M false [dl] [] r svc [] hd2 hrr
      rw [hres2]
    have hfind3 : find_repo fs (strOfSegs M) ('/' :: dl)
        (some (joinSegs [r, svc])) false
        = (strOfSegs [dl], joinSegs [r, svc]) := hfind2
    have hpf2 : pyFind (joinSegs [r, svc]) '/' 0 = some r.length := by
      rw [hjrs, pyFind, List.drop_zero, findIdxC_sep r svc '/' hr.1.2]
      simp
    have htk3 : (joinSegs [r, svc]).take r.length = r := by
      rw [hjrs]
      exact take_at_sep _ _ _ rfl
    have hdr3 : (joinSegs [r, svc]).drop r.length = '/' :: svc := by
      rw [hjrs]
      exact drop_at_sep _ _ _ rfl
    have hstripr : stripC '/' ('/' :: svc) = svc := by
      have : ('/' :: svc : Str) = strOfSegs [svc] := rfl
      rw [this, stripC_strOfSegs [svc] (by simp) (by
        intro x hx
        simp only [List.mem_singleton] at hx
        exact hx ▸ hsw)]
      rfl
    have habs2 : translate_path (strOfSegs M) (strOfSegs [dl] ++ '/' :: r)
        = strOfSegs (M ++ ([dl] ++ [r])) := by
      have h1 : strOfSegs [dl] ++ '/' :: r = strOfSegs ([dl] ++ [r]) := by
        rw [strOfSegs_append [dl] [r] (by simp) (by simp)]
        rfl
      rw [h1]
      have hwall : ∀ x ∈ [dl] ++ [r], WfSeg x := by
        intro x hx
        simp only [List.mem_append, List.mem_singleton] at hx
        rcases hx with h | h
        · exact h ▸ hdl.1
        · exact h ▸ hr.1
      rw [translate_path_general M _ hM hMw
        (by
          apply not_mem_strOfSegs _ _ (by decide)
          intro s hs
          simp only [List.mem_append, List.mem_singleton] at hs
          rcases hs with h | h
          · exact h ▸ hdl.2.1
          · exact h ▸ hr.2.1)
        (by
          apply not_mem_strOfSegs _ _ (by decide)
          intro s hs
          simp only [List.mem_append, List.mem_singleton] at hs
          rcases hs with h | h
          · exact h ▸ hdl.2.2.1
          · exact h ▸ hr.2.2.1)
        (by
          rw [segsOf_strOfSegs _ hwall]
          intro x hx
          simp only [List.mem_append, List.mem_singleton] at hx
          rcases hx with h | h
          · exact ⟨h ▸ hdl.2.2.2.1, h ▸ hdl.2.2.2.2⟩
          · exact ⟨h ▸ hr.2.2.2.1, h ▸ hr.2.2.2.2⟩)]
      rw [segsOf_strOfSegs _ hwall]
    have hhead2 : isFileStr fs (osPathJoin
        (strOfSegs (M ++ ([dl] ++ [r]))) (str "HEAD"))
        = fs.isFile (M ++ [dl] ++ [r, str "HEAD"]) := by
      have hwall2 : ∀ x ∈ M ++ ([dl] ++ [r]), WfSeg x := by
        intro x hx
        rcases List.mem_append.mp hx with h | h
        · exact hMw x h
        · simp only [List.mem_append, List.mem_singleton] at h
          rcases h with h2 | h2
          · exact h2 ▸ hdl.1
          · exact h2 ▸ hr.1
      rw [osPathJoin_strOfSegs _ _ (by simp [hM]) hwall2, isFileStr,
        segsOf_append_seg _ _ (by constructor <;> decide),
        segsOf_strOfSegs _ hwall2]
      congr 1
      simp
    rw [run_cgi]
    simp only [hpq2, hfind3, hpf2, htk3, hdr3, hstripr, habs2, hhead2]
    rw [if_neg (by
      rintro ⟨h1, h2⟩
      exact h2 (hdg h1))]
    rw [if_neg (by
      intro hcon
      exact hcon (Or.inl hent))]
    rw [if_neg (by
      rw [if_neg (by intro hcon; exact hcon rfl)]
      intro hcon
      exact hcon hexe)]
    rw [if_neg (by rw [hhf]; intro hcon; exact hcon rfl)]
    rfl

/-- C7 counterexample: a missing first-child path with `createMissing` set
and the POST plumbing form proceeds as CGI even though `firstChildOk` is
false, where the claim asserts Forbidden for every such request. -/
theorem claim_C7_counterexample :
    is_cgi cfgCreate fsSrv (str "/srv/www") (str "/repo.git/git-upload-pack")
      = .cgi (str "/srv/www") fsSrv (str "/repo.git") (str "git-upload-pack")
          none := by decide

/-- Witness for C7: the flat-layout fixture, promoted branch. -/
theorem claim_C7_witness :
    handle cfgFlat fsFlat (strOfSegs ([str "srv"] ++ [str "www"])) gxStd []
        metaGet (str "hostuser")
        (strOfSegs [str "repo.git", str "git-upload-pack"])
      = .ok (strOfSegs [str "www"]) (str "repo.git")
          ('/' :: str "git-upload-pack") []
          (mkCgiEnv [] (strOfSegs [str "srv"]) (strOfSegs [str "www"])
            (str "repo.git") ('/' :: str "git-upload-pack") [] none metaGet
            (str "hostuser")) :=
  (claim_C7 cfgFlat fsFlat [str "srv"] (str "www") (str "repo.git")
    (str "git-upload-pack") gxStd [] metaGet (str "hostuser")
    (by decide) (by decide) (by decide) (by decide) (Or.inl rfl)
    (by decide) (by decide) (by decide) (by decide) (by decide)
    rfl rfl (by decide) (by decide) (by decide)).2 rfl


theorem envGet_ite (b : Prop) [Decidable b] (e1 e2 : List (Str × Str)) (k : Str) :
    envGet (if b then e1 else e2) k = if b then envGet e1 k else envGet e2 k := by
  split <;> rfl

theorem mkCgiEnv_ns (p : List (Str × Str)) (d rt rp rs q : Str) (n : Str)
    (m : ReqMeta) (u : Str) :
    envGet (mkCgiEnv p d rt rp rs q (some n) m u) (str "GIT_NAMESPACE")
      = some n := by
  rw [mkCgiEnv]
  cases m.contentLength <;> cases m.referer <;> cases m.userAgent <;>
    simp +decide [envGet_ite, envGet_envSet, envGet_envSetdefault]

theorem mkCgiEnv_ns_none (p : List (Str × Str)) (d rt rp rs q : Str)
    (m : ReqMeta) (u : Str)
    (hp : envGet p (str "GIT_NAMESPACE") = none) :
    envGet (mkCgiEnv p d rt rp rs q none m u) (str "GIT_NAMESPACE") = none := by
  rw [mkCgiEnv]
  cases m.contentLength <;> cases m.referer <;> cases m.userAgent <;>
    simp +decide [envGet_ite, envGet_envSet, envGet_envSetdefault, hp]

theorem mkCgiEnv_other (p : List (Str × Str)) (d rt rp rs q : Str) (n : Str)
    (m : ReqMeta) (u : Str) (k : Str) (hk : k ≠ str "GIT_NAMESPACE") :
    envGet (mkCgiEnv p d rt rp rs q (some n) m u) k
      = envGet (mkCgiEnv p d rt rp rs q none m u) k := by
  rw [mkCgiEnv, mkCgiEnv]
  cases m.contentLength <;> cases m.referer <;> cases m.userAgent <;>
    simp +decide [envGet_ite, envGet_envSet, envGet_envSetdefault, hk]


theorem family_resolve_ns_strict (fs : FS) (D : List Str) (c0 : Str)
    (Ctl : List Str) (n : Str) (S2 : List Str)
    (hdirs : ∀ k, k < (c0 :: Ctl).length →
        fs.isDir (D ++ (c0 :: Ctl).take (k + 1)) = true ∧
        isRepoSegs fs (D ++ (c0 :: Ctl).take (k + 1)) = false)
    (hnmiss : fs.isDir (D ++ (c0 :: Ctl) ++ [n]) = false)
    (s2 : Str) (T : List Str) (hS2 : S2 = s2 :: T) :
    resolveSegs fs D false [] [] ((c0 :: Ctl) ++ (n :: S2))
      = (c0 :: Ctl, [], n :: S2) := by
  subst hS2
  rw [resolveSegs_consume fs D false (c0 :: Ctl) [] [] (n :: s2 :: T) (by simp)
    (by intro k hk; simpa using hdirs k hk)]
  have hd2 : fs.isDir (D ++ ([] ++ (c0 :: Ctl)) ++ [n]) = false := by
    simpa using hnmiss
  rw [resolveSegs_halt_miss fs D ([] ++ (c0 :: Ctl)) [] n s2 T hd2]
  simp

theorem family_resolve_ns_fake (fs : FS) (D : List Str) (c0 : Str)
    (Ctl : List Str) (n r : Str) (t0 : Str) (T : List Str)
    (hdirs : ∀ k, k < (c0 :: Ctl).length →
        fs.isDir (D ++ (c0 :: Ctl).take (k + 1)) = true ∧
        isRepoSegs fs (D ++ (c0 :: Ctl).take (k + 1)) = false)
    (hnmiss : fs.isDir (D ++ (c0 :: Ctl) ++ [n]) = false)
    (hrd : fs.isDir (D ++ (c0 :: Ctl) ++ [r]) = true)
    (hrr : isRepoSegs fs (D ++ (c0 :: Ctl) ++ [r]) = true) :
    resolveSegs fs D true [] [] ((c0 :: Ctl) ++ (n :: r :: t0 :: T))
      = (c0 :: Ctl, [n], r :: t0 :: T) := by
  rw [resolveSegs_consume fs D true (c0 :: Ctl) [] [] (n :: r :: t0 :: T) (by simp)
    (by intro k hk; simpa using hdirs k hk)]
  have hd2 : fs.isDir (D ++ ([] ++ (c0 :: Ctl)) ++ [n]) = false := by
    simpa using hnmiss
  rw [resolveSegs_step_fake fs D ([] ++ (c0 :: Ctl)) [] n r (t0 :: T) hd2]
  have hd3 : fs.isDir (D ++ ([] ++ (c0 :: Ctl)) ++ [r]) = true := by
    simpa using hrd
  have hr3 : isRepoSegs fs (D ++ ([] ++ (c0 :: Ctl)) ++ [r]) = true := by
    simpa using hrr
  rw [resolveSegs_halt_repo fs D true ([] ++ (c0 :: Ctl)) ([] ++ [n]) r t0 T hd3 hr3]
  simp

theorem ns_seg_wf (c0 : Str) (Ctl : List Str)
    (n r svc : Str)
    (hCw : ∀ x ∈ (c0 :: Ctl), PSeg x) (hn : PSeg n) (hr : PSeg r)
    (hsvc : svc = str "git-upload-pack" ∨ svc = str "git-receive-pack") :
    (∀ x ∈ (c0 :: Ctl) ++ [n, r, str "info", str "refs?service=" ++ svc], WfSeg x)
    ∧ (∀ x ∈ ((c0 :: Ctl) ++ [n, r, str "info", str "refs?service=" ++ svc]).dropLast,
        PSeg x) := by
  have hrqW : WfSeg (str "refs?service=" ++ svc) := by
    rcases hsvc with h | h <;> (subst h; exact ⟨by decide, by decide⟩)
  constructor
  · intro x hx
    rcases List.mem_append.mp hx with h | h
    · exact (hCw x h).1
    · simp only [List.mem_cons, List.mem_singleton, List.not_mem_nil, or_false] at h
      rcases h with h | h | h | h
      · exact h ▸ hn.1
      · exact h ▸ hr.1
      · exact h ▸ ⟨by decide, by decide⟩
      · exact h ▸ hrqW
  · have hdl : ((c0 :: Ctl) ++ [n, r, str "info", str "refs?service=" ++ svc]).dropLast
        = (c0 :: Ctl) ++ [n, r, str "info"] := by
      have h1 : (c0 :: Ctl) ++ [n, r, str "info", str "refs?service=" ++ svc]
          = ((c0 :: Ctl) ++ [n, r, str "info"]) ++ [str "refs?service=" ++ svc] := by
        simp
      rw [h1, List.dropLast_concat]
    rw [hdl]
    intro x hx
    rcases List.mem_append.mp hx with h | h
    · exact hCw x h
    · simp only [List.mem_cons, List.mem_singleton, List.not_mem_nil, or_false] at h
      rcases h with h | h | h
      · exact h ▸ hn
      · exact h ▸ hr
      · exact h ▸ ⟨⟨by decide, by decide⟩, by decide, by decide, by decide, by decide⟩

theorem ns_find_strict (fs : FS) (D : List Str) (c0 : Str) (Ctl : List Str)
    (n r svc : Str)
    (hD : D ≠ []) (hDw : ∀ x ∈ D, WfSeg x)
    (hCw : ∀ x ∈ (c0 :: Ctl), PSeg x) (hn : PSeg n) (hr : PSeg r)
    (hsvc : svc = str "git-upload-pack" ∨ svc = str "git-receive-pack")
    (hdirs : ∀ k, k < (c0 :: Ctl).length →
        fs.isDir (D ++ (c0 :: Ctl).take (k + 1)) = true ∧
        isRepoSegs fs (D ++ (c0 :: Ctl).take (k + 1)) = false)
    (hnmiss : fs.isDir (D ++ (c0 :: Ctl) ++ [n]) = false) :
    find_repo fs (strOfSegs D)
        (strOfSegs ((c0 :: Ctl) ++ [n, r, str "info", str "refs?service=" ++ svc]))
        none false
      = (strOfSegs (c0 :: Ctl),
         joinSegs [n, r, str "info", str "refs?service=" ++ svc]) := by
  obtain ⟨hSw, hSd⟩ := ns_seg_wf c0 Ctl n r svc hCw hn hr hsvc
  obtain ⟨h1, h2, h3⟩ := find_repo_spec1 fs D false
    ((c0 :: Ctl) ++ [n, r, str "info", str "refs?service=" ++ svc]) hD hDw
    (by intro h; cases h) hSd hSw
  have hres := family_resolve_ns_strict fs D c0 Ctl n
    [r, str "info", str "refs?service=" ++ svc] hdirs hnmiss r
    [str "info", str "refs?service=" ++ svc] rfl
  apply Prod.ext
  · rw [h3 (by intro h; cases h), hres]
    simp
  · rw [h2, hres]

theorem ns_find_fake (fs : FS) (D : List Str) (c0 : Str) (Ctl : List Str)
    (n r svc : Str)
    (hD : D ≠ []) (hDw : ∀ x ∈ D, WfSeg x)
    (hCw : ∀ x ∈ (c0 :: Ctl), PSeg x) (hn : PSeg n) (hr : PSeg r)
    (hsvc : svc = str "git-upload-pack" ∨ svc = str "git-receive-pack")
    (hDdir : fs.isDir D = true) (hDnr : isRepoSegs fs D = false)
    (hdirs : ∀ k, k < (c0 :: Ctl).length →
        fs.isDir (D ++ (c0 :: Ctl).take (k + 1)) = true ∧
        isRepoSegs fs (D ++ (c0 :: Ctl).take (k + 1)) = false)
    (hnmiss : fs.isDir (D ++ (c0 :: Ctl) ++ [n]) = false)
    (hrd : fs.isDir (D ++ (c0 :: Ctl) ++ [r]) = true)
    (hrr : isRepoSegs fs (D ++ (c0 :: Ctl) ++ [r]) = true) :
    find_repo fs (strOfSegs D)
        (strOfSegs ((c0 :: Ctl) ++ [n, r, str "info", str "refs?service=" ++ svc]))
        none true
      = (strOfSegs ((c0 :: Ctl) ++ [n]),
         joinSegs [r, str "info", str "refs?service=" ++ svc]) := by
  obtain ⟨hSw, hSd⟩ := ns_seg_wf c0 Ctl n r svc hCw hn hr hsvc
  obtain ⟨h1, h2, h3⟩ := find_repo_spec1 fs D true
    ((c0 :: Ctl) ++ [n, r, str "info", str "refs?service=" ++ svc]) hD hDw
    (fun _ => ⟨hDdir, hDnr⟩) hSd hSw
  have hres := family_resolve_ns_fake fs D c0 Ctl n r (str "info")
    [str "refs?service=" ++ svc] hdirs hnmiss hrd hrr
  apply Prod.ext
  · rw [h3 (by
      intro _ _
      have := (hdirs 0 (by simp)).1
      simpa using this), hres]
  · rw [h2, hres]

theorem plain_find_fake (fs : FS) (D : List Str) (c0 : Str) (Ctl : List Str)
    (r svc : Str)
    (hD : D ≠ []) (hDw : ∀ x ∈ D, WfSeg x)
    (hCw : ∀ x ∈ (c0 :: Ctl), PSeg x) (hr : PSeg r)
    (hsvc : svc = str "git-upload-pack" ∨ svc = str "git-receive-pack")
    (hDdir : fs.isDir D = true) (hDnr : isRepoSegs fs D = false)
    (hdirs : ∀ k, k < (c0 :: Ctl).length →
        fs.isDir (D ++ (c0 :: Ctl).take (k + 1)) = true ∧
        isRepoSegs fs (D ++ (c0 :: Ctl).take (k + 1)) = false)
    (hrd : fs.isDir (D ++ (c0 :: Ctl) ++ [r]) = true)
    (hrr : isRepoSegs fs (D ++ (c0 :: Ctl) ++ [r]) = true) :
    find_repo fs (strOfSegs D)
        (strOfSegs ((c0 :: Ctl) ++ [r, str "info", str "refs?service=" ++ svc]))
        none true
      = (strOfSegs (c0 :: Ctl),
         joinSegs [r, str "info", str "refs?service=" ++ svc]) := by
  have hrqW : WfSeg (str "refs?service=" ++ svc) := by
    rcases hsvc with h | h <;> (subst h; exact ⟨by decide, by decide⟩)
  have hSw : ∀ x ∈ (c0 :: Ctl) ++ [r, str "info", str "refs?service=" ++ svc], WfSeg x := by
    intro x hx
    rcases List.mem_append.mp hx with h | h
    · exact (hCw x h).1
    · simp only [List.mem_cons, List.mem_singleton, List.not_mem_nil, or_false] at h
      rcases h with h | h | h
      · exact h ▸ hr.1
      · exact h ▸ ⟨by decide, by decide⟩
      · exact h ▸ hrqW
  have hSd : ∀ x ∈ ((c0 :: Ctl) ++ [r, str "info", str "refs?service=" ++ svc]).dropLast, PSeg x := by
    have hdl : ((c0 :: Ctl) ++ [r, str "info", str "refs?service=" ++ svc]).dropLast
        = (c0 :: Ctl) ++ [r, str "info"] := by
      have h1 : (c0 :: Ctl) ++ [r, str "info", str "refs?service=" ++ svc]
          = ((c0 :: Ctl) ++ [r, str "info"]) ++ [str "refs?service=" ++ svc] := by
        simp
      rw [h1, List.dropLast_concat]
    rw [hdl]
    intro x hx
    rcases List.mem_append.mp hx with h | h
    · exact hCw x h
    · simp only [List.mem_cons, List.mem_singleton, List.not_mem_nil, or_false] at h
      rcases h with h | h
      · exact h ▸ hr
      · exact h ▸ ⟨⟨by decide, by decide⟩, by decide, by decide, by decide, by decide⟩
  obtain ⟨h1, h2, h3⟩ := find_repo_spec1 fs D true
    ((c0 :: Ctl) ++ [r, str "info", str "refs?service=" ++ svc]) hD hDw
    (fun _ => ⟨hDdir, hDnr⟩) hSd hSw
  have hres : resolveSegs fs D true [] []
      ((c0 :: Ctl) ++ [r, str "info", str "refs?service=" ++ svc])
      = (c0 :: Ctl, [], [r, str "info", str "refs?service=" ++ svc]) := by
    rw [resolveSegs_consume fs D true (c0 :: Ctl) [] []
      (r :: str "info" :: [str "refs?service=" ++ svc]) (by simp)
      (by intro k hk; simpa using hdirs k hk)]
    have hd3 : fs.isDir (D ++ ([] ++ (c0 :: Ctl)) ++ [r]) = true := by
      simpa using hrd
    have hr3 : isRepoSegs fs (D ++ ([] ++ (c0 :: Ctl)) ++ [r]) = true := by
      simpa using hrr
    rw [resolveSegs_halt_repo fs D true ([] ++ (c0 :: Ctl)) [] r (str "info")
      [str "refs?service=" ++ svc] hd3 hr3]
    simp
  apply Prod.ext
  · rw [h3 (by
      intro _ _
      have := (hdirs 0 (by simp)).1
      simpa using this), hres]
    simp
  · rw [h2, hres]

theorem ns_find_grn (fs : FS) (D : List Str) (c0 : Str) (Ctl : List Str) (n : Str)
    (hD : D ≠ []) (hDw : ∀ x ∈ D, WfSeg x)
    (hCw : ∀ x ∈ (c0 :: Ctl), PSeg x) (hn : PSeg n)
    (hdirs : ∀ k, k < (c0 :: Ctl).length →
        fs.isDir (D ++ (c0 :: Ctl).take (k + 1)) = true ∧
        isRepoSegs fs (D ++ (c0 :: Ctl).take (k + 1)) = false) :
    find_repo fs (strOfSegs D) (strOfSegs ((c0 :: Ctl) ++ [n])) none false
      = (strOfSegs (c0 :: Ctl), n) := by
  have hSw : ∀ x ∈ (c0 :: Ctl) ++ [n], WfSeg x := by
    intro x hx
    rcases List.mem_append.mp hx with h | h
    · exact (hCw x h).1
    · simp only [List.mem_singleton] at h
      exact h ▸ hn.1
  have hSd : ∀ x ∈ ((c0 :: Ctl) ++ [n]).dropLast, PSeg x := by
    rw [List.dropLast_concat]
    intro x hx
    exact hCw x hx
  obtain ⟨h1, h2, h3⟩ := find_repo_spec1 fs D false ((c0 :: Ctl) ++ [n]) hD hDw
    (by intro h; cases h) hSd hSw
  have hres : resolveSegs fs D false [] [] ((c0 :: Ctl) ++ [n])
      = (c0 :: Ctl, [], [n]) := by
    rw [resolveSegs_consume fs D false (c0 :: Ctl) [] [] [n] (by simp)
      (by intro k hk; simpa using hdirs k hk)]
    rw [resolveSegs_last]
    simp
  apply Prod.ext
  · rw [h3 (by intro h; cases h), hres]
    simp
  · rw [h2, hres]
    rfl


theorem is_cgi_family_ns (cfg : Config) (fs : FS) (D : List Str) (c0 : Str)
    (Ctl : List Str) (n r svc : Str)
    (hD : D ≠ []) (hDw : ∀ x ∈ D, WfSeg x)
    (hCw : ∀ x ∈ (c0 :: Ctl), PSeg x)
    (hn : PSeg n) (hr : PSeg r)
    (hsvc : svc = str "git-upload-pack" ∨ svc = str "git-receive-pack")
    (hDdir : fs.isDir D = true) (hDnr : isRepoSegs fs D = false)
    (hdirs : ∀ k, k < (c0 :: Ctl).length →
        fs.isDir (D ++ (c0 :: Ctl).take (k + 1)) = true ∧
        isRepoSegs fs (D ++ (c0 :: Ctl).take (k + 1)) = false)
    (hnmiss : fs.isDir (D ++ (c0 :: Ctl) ++ [n]) = false)
    (hrd : fs.isDir (D ++ (c0 :: Ctl) ++ [r]) = true)
    (hrr : isRepoSegs fs (D ++ (c0 :: Ctl) ++ [r]) = true)
    (hfsq : ∀ q, (q ∈ fs.dirs ∨ q ∈ fs.files) → ∀ sg ∈ q, '?' ∉ sg)
    (hns : cfg.useNamespaces = true) (hcm : cfg.createMissing = false) :
    is_cgi cfg fs (strOfSegs D)
        (strOfSegs ((c0 :: Ctl) ++ [n, r, str "info", str "refs?service=" ++ svc]))
      = .cgi (strOfSegs D) fs ('/' :: c0)
          (joinSegs (Ctl ++ [r, str "info", str "refs?service=" ++ svc]))
          (some n) := by
  have hrqW : WfSeg (str "refs?service=" ++ svc) := by
    rcases hsvc with h | h <;> (subst h; exact ⟨by decide, by decide⟩)
  have hSw : ∀ x ∈ (c0 :: Ctl) ++ [r, str "info", str "refs?service=" ++ svc], WfSeg x := by
    intro x hx
    rcases List.mem_append.mp hx with h | h
    · exact (hCw x h).1
    · simp only [List.mem_cons, List.mem_singleton, List.not_mem_nil, or_false] at h
      rcases h with h | h | h
      · exact h ▸ hr.1
      · exact h ▸ ⟨by decide, by decide⟩
      · exact h ▸ hrqW
  have hgrtNS := ns_find_strict fs D c0 Ctl n r svc hD hDw hCw hn hr hsvc
    hdirs hnmiss
  have hfakeNS := ns_find_fake fs D c0 Ctl n r svc hD hDw hCw hn hr hsvc
    hDdir hDnr hdirs hnmiss hrd hrr
  have hgrn := ns_find_grn fs D c0 Ctl n hD hDw hCw hn hdirs
  have hCwf : ∀ x ∈ (c0 :: Ctl), WfSeg x := fun x hx => (hCw x hx).1
  have hroot_ne : ¬ ((strOfSegs (c0 :: Ctl) : Str) = str "/") :=
    strOfSegs_ne_root (c0 :: Ctl) (by simp) hCwf
  have hne2 : (strOfSegs ((c0 :: Ctl) ++ [n]) : Str) ≠ strOfSegs (c0 :: Ctl) := by
    intro he
    have h2 := congrArg segsOf he
    rw [segsOf_strOfSegs _ (by
        intro x hx
        rcases List.mem_append.mp hx with h | h
        · exact hCwf x h
        · simp only [List.mem_singleton] at h
          exact h ▸ hn.1),
      segsOf_strOfSegs _ hCwf] at h2
    have h3 := congrArg List.length h2
    simp at h3
  have hcoll : strOfSegs (c0 :: Ctl)
        ++ '/' :: joinSegs [r, str "info", str "refs?service=" ++ svc]
      = strOfSegs ((c0 :: Ctl) ++ [r, str "info", str "refs?service=" ++ svc]) :=
    (strOfSegs_append (c0 :: Ctl) _ (by simp) (by simp)).symm
  have hre : getREMatch
      (strOfSegs ((c0 :: Ctl) ++ [r, str "info", str "refs?service=" ++ svc])) = false := by
    obtain ⟨s0, hs0⟩ := svc_shape svc hsvc
    have hsplit : (c0 :: Ctl) ++ [r, str "info", str "refs?service=" ++ svc]
        = ((c0 :: Ctl) ++ [r, str "info"])
            ++ [(str "refs?service=" ++ s0) ++ '-' :: str "pack"] := by
      rw [hs0]
      simp
    rw [hsplit, strOfSegs, joinSegs_split_last]
    have hshift : ('/' :: (joinSegs (((c0 :: Ctl) ++ [r, str "info"]) ++ [str "refs?service=" ++ s0])
        ++ '-' :: str "pack"))
        = ('/' :: joinSegs (((c0 :: Ctl) ++ [r, str "info"]) ++ [str "refs?service=" ++ s0]))
          ++ str "-pack" := by
      simp
      decide
    rw [hshift]
    exact getREMatch_dashpack _
  have hex : existsStr fs (osPathJoin (strOfSegs D)
      (stripC '/' (strOfSegs ((c0 :: Ctl) ++ [r, str "info", str "refs?service=" ++ svc]))))
      = false := by
    rw [stripC_strOfSegs _ (by simp) hSw]
    rw [osPathJoin_strOfSegs D _ hD hDw]
    rw [show strOfSegs D ++ '/' :: joinSegs ((c0 :: Ctl) ++ [r, str "info", str "refs?service=" ++ svc])
        = strOfSegs (D ++ ((c0 :: Ctl) ++ [r, str "info", str "refs?service=" ++ svc]))
      from (strOfSegs_append D _ hD (by simp)).symm]
    rw [existsStr, segsOf_strOfSegs _ (by
      intro x hx
      rcases List.mem_append.mp hx with h | h
      · exact hDw x h
      · exact hSw x h)]
    exact existsP_false_of_qmark fs hfsq _ (str "refs?service=" ++ svc)
      (by simp) (List.mem_append.mpr (Or.inl (by decide)))
  have hpf : pyFind (strOfSegs ((c0 :: Ctl) ++ [r, str "info", str "refs?service=" ++ svc])) '/' 1
      = some (c0.length + 1) := by
    rw [strOfSegs, List.cons_append,
      joinSegs_cons c0 (Ctl ++ [r, str "info", str "refs?service=" ++ svc]) (by simp)]
    exact pyFind_one c0 _ (hCw c0 (by simp)).1.2
  have hpath : strOfSegs ((c0 :: Ctl) ++ [r, str "info", str "refs?service=" ++ svc])
      = ('/' :: c0) ++ '/' :: joinSegs (Ctl ++ [r, str "info", str "refs?service=" ++ svc]) := by
    rw [strOfSegs, List.cons_append,
      joinSegs_cons c0 (Ctl ++ [r, str "info", str "refs?service=" ++ svc]) (by simp)]
    simp
  have htake : (strOfSegs ((c0 :: Ctl) ++ [r, str "info", str "refs?service=" ++ svc])).take (c0.length + 1)
      = '/' :: c0 := by
    rw [hpath]
    exact take_at_sep _ _ _ (by simp)
  have hdrop : (strOfSegs ((c0 :: Ctl) ++ [r, str "info", str "refs?service=" ++ svc])).drop (c0.length + 1 + 1)
      = joinSegs (Ctl ++ [r, str "info", str "refs?service=" ++ svc]) := by
    rw [hpath]
    exact drop_sep_left _ _ _ (by simp)
  rw [is_cgi]
  simp only [hns, if_true, hgrtNS, hfakeNS, hgrn]
  rw [if_pos hne2]
  rw [if_neg (show ¬ ((strOfSegs (c0 :: Ctl) : Str) = str "/" ∧ ('/' : Char) ∈ n) from by
    rintro ⟨h1, _⟩
    exact hroot_ne h1)]
  rw [rstripC_strOfSegs _ (by simp) hCwf,
    lstripC_joinSegs _ (by
      intro x hx
      simp only [List.mem_cons, List.mem_singleton, List.not_mem_nil, or_false] at hx
      rcases hx with h | h | h
      · exact h ▸ hr.1
      · exact h ▸ ⟨by decide, by decide⟩
      · exact h ▸ hrqW)]
  rw [hcoll]
  simp only [hre, hex, hcm, hpf, htake, hdrop, Bool.false_eq_true, if_false,
    if_neg hroot_ne, false_and]


theorem is_cgi_family_nsplain (cfg : Config) (fs : FS) (D : List Str) (c0 : Str)
    (Ctl : List Str) (r svc : Str)
    (hD : D ≠ []) (hDw : ∀ x ∈ D, WfSeg x)
    (hCw : ∀ x ∈ (c0 :: Ctl), PSeg x)
    (hr : PSeg r)
    (hsvc : svc = str "git-upload-pack" ∨ svc = str "git-receive-pack")
    (hDdir : fs.isDir D = true) (hDnr : isRepoSegs fs D = false)
    (hdirs : ∀ k, k < (c0 :: Ctl).length →
        fs.isDir (D ++ (c0 :: Ctl).take (k + 1)) = true ∧
        isRepoSegs fs (D ++ (c0 :: Ctl).take (k + 1)) = false)
    (hrd : fs.isDir (D ++ (c0 :: Ctl) ++ [r]) = true)
    (hrr : isRepoSegs fs (D ++ (c0 :: Ctl) ++ [r]) = true)
    (hfsq : ∀ q, (q ∈ fs.dirs ∨ q ∈ fs.files) → ∀ sg ∈ q, '?' ∉ sg)
    (hns : cfg.useNamespaces = true) (hcm : cfg.createMissing = false) :
    is_cgi cfg fs (strOfSegs D)
        (strOfSegs ((c0 :: Ctl) ++ [r, str "info", str "refs?service=" ++ svc]))
      = .cgi (strOfSegs D) fs ('/' :: c0)
          (joinSegs (Ctl ++ [r, str "info", str "refs?service=" ++ svc]))
          none := by
  have hrqW : WfSeg (str "refs?service=" ++ svc) := by
    rcases hsvc with h | h <;> (subst h; exact ⟨by decide, by decide⟩)
  have hSw : ∀ x ∈ (c0 :: Ctl) ++ [r, str "info", str "refs?service=" ++ svc], WfSeg x := by
    intro x hx
    rcases List.mem_append.mp hx with h | h
    · exact (hCw x h).1
    · simp only [List.mem_cons, List.mem_singleton, List.not_mem_nil, or_false] at h
      rcases h with h | h | h
      · exact h ▸ hr.1
      · exact h ▸ ⟨by decide, by decide⟩
      · exact h ▸ hrqW
  have hgrt := family_find_repo fs D c0 Ctl r svc hD hDw hCw hr hsvc hdirs
    (Or.inr hrr)
  have hfake := plain_find_fake fs D c0 Ctl r svc hD hDw hCw hr hsvc hDdir hDnr
    hdirs hrd hrr
  have hCwf : ∀ x ∈ (c0 :: Ctl), WfSeg x := fun x hx => (hCw x hx).1
  have hroot_ne : ¬ ((strOfSegs (c0 :: Ctl) : Str) = str "/") :=
    strOfSegs_ne_root (c0 :: Ctl) (by simp) hCwf
  have hre : getREMatch
      (strOfSegs ((c0 :: Ctl) ++ [r, str "info", str "refs?service=" ++ svc])) = false := by
    obtain ⟨s0, hs0⟩ := svc_shape svc hsvc
    have hsplit : (c0 :: Ctl) ++ [r, str "info", str "refs?service=" ++ svc]
        = ((c0 :: Ctl) ++ [r, str "info"])
            ++ [(str "refs?service=" ++ s0) ++ '-' :: str "pack"] := by
      rw [hs0]
      simp
    rw [hsplit, strOfSegs, joinSegs_split_last]
    have hshift : ('/' :: (joinSegs (((c0 :: Ctl) ++ [r, str "info"]) ++ [str "refs?service=" ++ s0])
        ++ '-' :: str "pack"))
        = ('/' :: joinSegs (((c0 :: Ctl) ++ [r, str "info"]) ++ [str "refs?service=" ++ s0]))
          ++ str "-pack" := by
      simp
      decide
    rw [hshift]
    exact getREMatch_dashpack _
  have hex : existsStr fs (osPathJoin (strOfSegs D)
      (stripC '/' (strOfSegs ((c0 :: Ctl) ++ [r, str "info", str "refs?service=" ++ svc]))))
      = false := by
    rw [stripC_strOfSegs _ (by simp) hSw]
    rw [osPathJoin_strOfSegs D _ hD hDw]
    rw [show strOfSegs D ++ '/' :: joinSegs ((c0 :: Ctl) ++ [r, str "info", str "refs?service=" ++ svc])
        = strOfSegs (D ++ ((c0 :: Ctl) ++ [r, str "info", str "refs?service=" ++ svc]))
      from (strOfSegs_append D _ hD (by simp)).symm]
    rw [existsStr, segsOf_strOfSegs _ (by
      intro x hx
      rcases List.mem_append.mp hx with h | h
      · exact hDw x h
      · exact hSw x h)]
    exact existsP_false_of_qmark fs hfsq _ (str "refs?service=" ++ svc)
      (by simp) (List.mem_append.mpr (Or.inl (by decide)))
  have hpf : pyFind (strOfSegs ((c0 :: Ctl) ++ [r, str "info", str "refs?service=" ++ svc])) '/' 1
      = some (c0.length + 1) := by
    rw [strOfSegs, List.cons_append,
      joinSegs_cons c0 (Ctl ++ [r, str "info", str "refs?service=" ++ svc]) (by simp)]
    exact pyFind_one c0 _ (hCw c0 (by simp)).1.2
  have hpath : strOfSegs ((c0 :: Ctl) ++ [r, str "info", str "refs?service=" ++ svc])
      = ('/' :: c0) ++ '/' :: joinSegs (Ctl ++ [r, str "info", str "refs?service=" ++ svc]) := by
    rw [strOfSegs, List.cons_append,
      joinSegs_cons c0 (Ctl ++ [r, str "info", str "refs?service=" ++ svc]) (by simp)]
    simp
  have htake : (strOfSegs ((c0 :: Ctl) ++ [r, str "info", str "refs?service=" ++ svc])).take (c0.length + 1)
      = '/' :: c0 := by
    rw [hpath]
    exact take_at_sep _ _ _ (by simp)
  have hdrop : (strOfSegs ((c0 :: Ctl) ++ [r, str "info", str "refs?service=" ++ svc])).drop (c0.length + 1 + 1)
      = joinSegs (Ctl ++ [r, str "info", str "refs?service=" ++ svc]) := by
    rw [hpath]
    exact drop_sep_left _ _ _ (by simp)
  rw [is_cgi]
  simp only [hns, if_true, hgrt, hfake]
  rw [if_neg (show ¬ ((strOfSegs (c0 :: Ctl) : Str) ≠ strOfSegs (c0 :: Ctl)) from
    fun h => h rfl)]
  simp only [hre, hex, hcm, hpf, htake, hdrop, Bool.false_eq_true, if_false,
    if_neg hroot_ne, false_and]


/-- C8: namespace round-trip. With namespace support on, a request whose
path carries a missing segment `n` between the existing containers and a
valid repository resolves — after the rewrite that splices `n` out — to
exactly the same root, repository, tail and query as the request in which
`n` never appeared; the spliced-out segment is delivered as
`GIT_NAMESPACE`, and the two handler environments agree on every other
key. -/
theorem claim_C8 (cfg : Config) (fs : FS) (D : List Str) (c0 : Str)
    (Ctl : List Str) (n r svc : Str) (gx : GitExec)
    (parentEnv : List (Str × Str)) (meta : ReqMeta) (osUser : Str)
    (hD : D ≠ []) (hDw : ∀ x ∈ D, WfSeg x)
    (hCw : ∀ x ∈ (c0 :: Ctl), PSeg x)
    (hn : PSeg n) (hr : PSeg r)
    (hsvc : svc = str "git-upload-pack" ∨ svc = str "git-receive-pack")
    (hDdir : fs.isDir D = true) (hDnr : isRepoSegs fs D = false)
    (hdirs : ∀ k, k < (c0 :: Ctl).length →
        fs.isDir (D ++ (c0 :: Ctl).take (k + 1)) = true ∧
        isRepoSegs fs (D ++ (c0 :: Ctl).take (k + 1)) = false)
    (hnmiss : fs.isDir (D ++ (c0 :: Ctl) ++ [n]) = false)
    (hrd : fs.isDir (D ++ (c0 :: Ctl) ++ [r]) = true)
    (hhf : fs.isFile (D ++ (c0 :: Ctl) ++ [r, str "HEAD"]) = true)
    (hfsq : ∀ q, (q ∈ fs.dirs ∨ q ∈ fs.files) → ∀ sg ∈ q, '?' ∉ sg)
    (hns : cfg.useNamespaces = true) (hcm : cfg.createMissing = false)
    (hdg : cfg.enforceDotGit = true → endsWith (str ".git") r = true)
    (hent : gx.entries.contains svc = true)
    (hexe : gx.executable svc = true)
    (hpenv : envGet parentEnv (str "GIT_NAMESPACE") = none) :
    ∃ env1 env2,
      handle cfg fs (strOfSegs D) gx parentEnv meta osUser
          (strOfSegs ((c0 :: Ctl) ++ [n, r, str "info", str "refs?service=" ++ svc]))
        = .ok (strOfSegs (c0 :: Ctl)) r (str "/info/refs")
            (str "service=" ++ svc) env1
      ∧ handle cfg fs (strOfSegs D) gx parentEnv meta osUser
          (strOfSegs ((c0 :: Ctl) ++ [r, str "info", str "refs?service=" ++ svc]))
        = .ok (strOfSegs (c0 :: Ctl)) r (str "/info/refs")
            (str "service=" ++ svc) env2
      ∧ envGet env1 (str "GIT_NAMESPACE") = some n
      ∧ envGet env2 (str "GIT_NAMESPACE") = none
      ∧ (∀ k, k ≠ str "GIT_NAMESPACE" → envGet env1 k = envGet env2 k) := by
  have hrr : isRepoSegs fs (D ++ (c0 :: Ctl) ++ [r]) = true := by
    rw [isRepoSegs]
    have he : (D ++ (c0 :: Ctl) ++ [r]) ++ [str "HEAD"]
        = D ++ (c0 :: Ctl) ++ [r, str "HEAD"] := by simp
    rw [he, hhf]
    rfl
  refine ⟨mkCgiEnv parentEnv (strOfSegs D) (strOfSegs (c0 :: Ctl)) r
      (str "/info/refs") (str "service=" ++ svc) (some n) meta osUser,
    mkCgiEnv parentEnv (strOfSegs D) (strOfSegs (c0 :: Ctl)) r
      (str "/info/refs") (str "service=" ++ svc) none meta osUser,
    ?_, ?_, ?_, ?_, ?_⟩
  · rw [handle, is_cgi_family_ns cfg fs D c0 Ctl n r svc hD hDw hCw hn hr hsvc
      hDdir hDnr hdirs hnmiss hrd hrr hfsq hns hcm]
    dsimp only []
    rw [run_cgi_family cfg fs D c0 Ctl r svc gx parentEnv meta osUser (some n)
      hD hDw hCw hr hsvc hdirs (Or.inr hrr) hdg hent hexe]
    rw [hhf, if_pos rfl]
  · rw [handle, is_cgi_family_nsplain cfg fs D c0 Ctl r svc hD hDw hCw hr hsvc
      hDdir hDnr hdirs hrd hrr hfsq hns hcm]
    dsimp only []
    rw [run_cgi_family cfg fs D c0 Ctl r svc gx parentEnv meta osUser none
      hD hDw hCw hr hsvc hdirs (Or.inr hrr) hdg hent hexe]
    rw [hhf, if_pos rfl]
  · exact mkCgiEnv_ns parentEnv (strOfSegs D) (strOfSegs (c0 :: Ctl)) r
      (str "/info/refs") (str "service=" ++ svc) n meta osUser
  · exact mkCgiEnv_ns_none parentEnv (strOfSegs D) (strOfSegs (c0 :: Ctl)) r
      (str "/info/refs") (str "service=" ++ svc) meta osUser hpenv
  · intro k hk
    exact mkCgiEnv_other parentEnv (strOfSegs D) (strOfSegs (c0 :: Ctl)) r
      (str "/info/refs") (str "service=" ++ svc) n meta osUser k hk

/-- Witness for C8: the namespaced fixture with a missing `ns1` segment. -/
theorem claim_C8_witness :
    ∃ env1 env2,
      handle cfgNs fsFullRepo (strOfSegs [str "srv", str "www"]) gxStd []
          metaGet (str "hostuser")
          (strOfSegs ((str "git" :: [str "2019"]) ++ [str "ns1", str "myrepo.git",
            str "info", str "refs?service=" ++ str "git-upload-pack"]))
        = .ok (strOfSegs (str "git" :: [str "2019"])) (str "myrepo.git")
            (str "/info/refs") (str "service=" ++ str "git-upload-pack") env1
      ∧ handle cfgNs fsFullRepo (strOfSegs [str "srv", str "www"]) gxStd []
          metaGet (str "hostuser")
          (strOfSegs ((str "git" :: [str "2019"]) ++ [str "myrepo.git",
            str "info", str "refs?service=" ++ str "git-upload-pack"]))
        = .ok (strOfSegs (str "git" :: [str "2019"])) (str "myrepo.git")
            (str "/info/refs") (str "service=" ++ str "git-upload-pack") env2
      ∧ envGet env1 (str "GIT_NAMESPACE") = some (str "ns1")
      ∧ envGet env2 (str "GIT_NAMESPACE") = none
      ∧ (∀ k, k ≠ str "GIT_NAMESPACE" → envGet env1 k = envGet env2 k) :=
  claim_C8 cfgNs fsFullRepo [str "srv", str "www"] (str "git") [str "2019"]
    (str "ns1") (str "myrepo.git") (str "git-upload-pack") gxStd [] metaGet
    (str "hostuser") (by decide) (by decide) (by decide) (by decide) (by decide)
    (Or.inl rfl) (by decide) (by decide) (by decide) (by decide) (by decide)
    (by decide) (FS.noQmark_of_B _ (by decide)) rfl rfl (by decide) (by decide)
    (by decide) rfl

end EGS
